import Mathlib

set_option maxHeartbeats 1000000
set_option maxRecDepth 4000
set_option linter.unreachableTactic false
set_option linter.unusedTactic false

/-!
Verification development for a Python chess engine (board representation with
incremental Zobrist hashing, legal move generator, tapered evaluator, and the
search's transposition-table / quiescence fragments).

The definitions below are a shallow embedding of the Python sources
(`board.py`, `move_generator.py`, `evaluation.py`, `backend/engine.py`):
pure functions become Lean functions, in-place mutation becomes explicit
record update, Python lists become `List`, the `piece_lists` dict becomes a
function from piece tokens to lists of board indices.  Board indices are
modelled as `Int` (Python ints); mailbox cells as the sum type `Sq`
(`-1` / `'#'` / a piece character).
-/

namespace Chess

/-- Side to move. -/
inductive Color where
  | white
  | black
deriving DecidableEq, Repr

/-- The twelve piece tokens.  Uppercase constructors are the white pieces
`'K','Q','R','B','N','P'`, lowercase the black pieces `'k','q','r','b','n','p'`,
exactly as the single-character strings used by the Python sources. -/
inductive Piece where
  | K | Q | R | B | N | P
  | k | q | r | b | n | p
deriving DecidableEq, Repr, Fintype

/-- `str.lower()` on a piece token. -/
def Piece.lower : Piece → Piece
  | .K => .k | .Q => .q | .R => .r | .B => .b | .N => .n | .P => .p
  | x => x

/-- A mailbox cell: `-1` (out of bounds), `'#'` (empty), or a piece token. -/
inductive Sq where
  | oob
  | empty
  | pc (t : Piece)
deriving DecidableEq, Repr

/-- `PIECE_CODES` from board.py: index of each piece in the Zobrist tables. -/
def PIECE_CODES : Piece → Nat
  | .P => 0 | .N => 1 | .B => 2 | .R => 3 | .Q => 4 | .K => 5
  | .p => 6 | .n => 7 | .b => 8 | .r => 9 | .q => 10 | .k => 11

/-- Iteration order of the `piece_lists` dict (its insertion order in
`Board.__init__`). -/
def PIECE_ORDER : List Piece :=
  [.K, .Q, .R, .B, .N, .P, .k, .q, .r, .b, .n, .p]

/-- `TO_64` from utils.py: maps a 120-cell mailbox index to 0..63, `-1` on the
border. -/
def TO_64 : List Int :=
  [ -1, -1, -1, -1, -1, -1, -1, -1, -1, -1,
    -1, -1, -1, -1, -1, -1, -1, -1, -1, -1,
    -1,  0,  1,  2,  3,  4,  5,  6,  7, -1,
    -1,  8,  9, 10, 11, 12, 13, 14, 15, -1,
    -1, 16, 17, 18, 19, 20, 21, 22, 23, -1,
    -1, 24, 25, 26, 27, 28, 29, 30, 31, -1,
    -1, 32, 33, 34, 35, 36, 37, 38, 39, -1,
    -1, 40, 41, 42, 43, 44, 45, 46, 47, -1,
    -1, 48, 49, 50, 51, 52, 53, 54, 55, -1,
    -1, 56, 57, 58, 59, 60, 61, 62, 63, -1,
    -1, -1, -1, -1, -1, -1, -1, -1, -1, -1,
    -1, -1, -1, -1, -1, -1, -1, -1, -1, -1 ]

/-- `TO_64[i]` as a total function on Python ints (out-of-range reads never
occur on the indices the sources feed it). -/
def to64 (i : Int) : Int :=
  if 0 ≤ i ∧ i < 120 then TO_64.getD i.toNat (-1) else -1

/-- Read mailbox cell `board[i]`.  Out-of-range indices yield the out-of-bounds
marker; for the small negative indices Python's wrap-around can actually touch
(`-21 ≤ i < 0`) the wrapped cell is a border cell holding `-1` as well, so
this total function agrees with the source on every access it performs. -/
def squareAt (bd : List Sq) (i : Int) : Sq :=
  if 0 ≤ i ∧ i < 120 then bd.getD i.toNat Sq.oob else Sq.oob

/-- In-place cell assignment `board[i] = v`.  All assignments the sources
perform use indices in `0..119`. -/
def setSquare (bd : List Sq) (i : Int) (v : Sq) : List Sq :=
  if 0 ≤ i then bd.set i.toNat v else bd

/-- Update one entry of the `piece_lists` dict. -/
def plUpdate (pl : Piece → List Int) (x : Piece) (f : List Int → List Int) :
    Piece → List Int :=
  fun y => if y = x then f (pl x) else pl y

/-- The process-wide Zobrist tables.  board.py fills them with 64-bit values
drawn from a Mersenne-Twister generator seeded with 0; the properties verified
here hold for the tables as abstract data, so they are taken as a parameter.
`piece_keys` is indexed by `TO_64[square]` and `PIECE_CODES[piece]`,
`castling_keys` by the 4-bit rights code, `ep_keys` by the file 0..7. -/
structure ZobristKeys where
  piece_keys : Int → Nat → Nat
  castling_keys : Nat → Nat
  ep_keys : Int → Nat
  color_key : Nat

/-- Zobrist tables with every key 0 (a degenerate but concrete instance,
used to instantiate universally quantified theorems). -/
def keys0 : ZobristKeys :=
  { piece_keys := fun _ _ => 0
    castling_keys := fun _ => 0
    ep_keys := fun _ => 0
    color_key := 0 }

/-- Concrete tables whose only nonzero key is the side-to-move key
(`ZOBRIST_COLOR_KEY`); the repository's actual seeded color key is likewise a
nonzero 64-bit value. -/
def keysC : ZobristKeys :=
  { piece_keys := fun _ _ => 0
    castling_keys := fun _ => 0
    ep_keys := fun _ => 0
    color_key := 1 }

/-- The `Board` object of board.py. -/
structure Board where
  board : List Sq
  color_to_play : Color
  white_castle_kingside : Bool
  white_castle_queenside : Bool
  black_castle_kingside : Bool
  black_castle_queenside : Bool
  half_move : Int
  ply : Int
  en_passant_square : Option Int
  piece_lists : Piece → List Int
  zobrist_hash : Nat
  history : List Nat

/-- The `Move` "time capsule" record of board.py (all fields of `__init__`). -/
structure Move where
  moving_piece : Piece
  source_index : Int
  destination_index : Int
  piece_captured : Option Piece
  is_en_passant : Bool
  is_castle : Bool
  promotion_piece : Option Piece
  previous_white_castle_kingside : Bool
  previous_white_castle_queenside : Bool
  previous_black_castle_kingside : Bool
  previous_black_castle_queenside : Bool
  previous_en_passant_square : Option Int
  previous_half_move : Int
  previous_color_to_play : Color
  previous_zobrist_hash : Nat
deriving DecidableEq, Repr

/-- `Move.__init__`: builds a move and snapshots the position's previous
special-move values. -/
def mkMove (position : Board) (moving_piece : Piece) (source_index : Int)
    (destination_index : Int) (piece_captured : Option Piece)
    (is_en_passant : Bool) (is_castle : Bool) (promotion_piece : Option Piece) :
    Move :=
  { moving_piece := moving_piece
    source_index := source_index
    destination_index := destination_index
    piece_captured := piece_captured
    is_en_passant := is_en_passant
    is_castle := is_castle
    promotion_piece := promotion_piece
    previous_white_castle_kingside := position.white_castle_kingside
    previous_white_castle_queenside := position.white_castle_queenside
    previous_black_castle_kingside := position.black_castle_kingside
    previous_black_castle_queenside := position.black_castle_queenside
    previous_en_passant_square := position.en_passant_square
    previous_half_move := position.half_move
    previous_color_to_play := position.color_to_play
    previous_zobrist_hash := position.zobrist_hash }

/-- `Board.get_castle_rights_code`. -/
def get_castle_rights_code (b : Board) : Nat :=
  let c0 : Nat := 0
  let c1 := if b.white_castle_kingside then c0 ||| 1 else c0
  let c2 := if b.white_castle_queenside then c1 ||| 2 else c1
  let c3 := if b.black_castle_kingside then c2 ||| 4 else c2
  if b.black_castle_queenside then c3 ||| 8 else c3

/-- XOR-fold of the piece keys of one piece list (step 1 of `compute_hash`,
restricted to a single piece type). -/
def plHash (keys : ZobristKeys) (pt : Piece) (l : List Int) (h : Nat) : Nat :=
  l.foldl (fun acc sq => acc ^^^ keys.piece_keys (to64 sq) (PIECE_CODES pt)) h

/-- `Board.compute_hash`: full Zobrist recomputation from scratch. -/
def compute_hash (keys : ZobristKeys) (b : Board) : Nat :=
  -- STEP 1: piece updates
  let h1 := PIECE_ORDER.foldl (fun acc pt => plHash keys pt (b.piece_lists pt) acc) 0
  -- STEP 2: castling right updates
  let h2 := h1 ^^^ keys.castling_keys (get_castle_rights_code b)
  -- STEP 3: en passant updates
  let h3 :=
    match b.en_passant_square with
    | some e => h2 ^^^ keys.ep_keys (to64 e % 8)
    | none => h2
  -- STEP 4: color to play updates (XORed regardless of the color to play)
  h3 ^^^ keys.color_key


/-! `Board.make_move` is a long imperative method; it is embedded as a
composition of small functions, one per contiguous block of statements,
applied in the source's statement order. -/

/-- make_move, non-special branch (board.py lines 114-134). -/
def make_normal (keys : ZobristKeys) (move : Move) (b : Board) : Board :=
  let moving_piece := move.moving_piece
  let bd := setSquare b.board move.source_index Sq.empty
  let bd := setSquare bd move.destination_index (Sq.pc moving_piece)
  let h := b.zobrist_hash ^^^
    keys.piece_keys (to64 move.source_index) (PIECE_CODES moving_piece)
  let pl := plUpdate b.piece_lists moving_piece (fun l => l.erase move.source_index)
  -- remove the captured piece (if any) from its piece list and XOR it out
  let pl_h :=
    match move.piece_captured with
    | some cap =>
        (plUpdate pl cap (fun l => l.erase move.destination_index),
         h ^^^ keys.piece_keys (to64 move.destination_index) (PIECE_CODES cap))
    | none => (pl, h)
  match move.promotion_piece with
  | some promo =>
      -- promotion: the destination square receives the promotion piece
      let bd := setSquare bd move.destination_index (Sq.pc promo)
      let pl := plUpdate pl_h.1 promo (fun l => l ++ [move.destination_index])
      let h := pl_h.2 ^^^
        keys.piece_keys (to64 move.destination_index) (PIECE_CODES promo)
      { b with board := bd, piece_lists := pl, zobrist_hash := h }
  | none =>
      let pl := plUpdate pl_h.1 moving_piece (fun l => l ++ [move.destination_index])
      let h := pl_h.2 ^^^
        keys.piece_keys (to64 move.destination_index) (PIECE_CODES moving_piece)
      { b with board := bd, piece_lists := pl, zobrist_hash := h }

/-- make_move, en passant branch (board.py lines 136-153). -/
def make_ep (keys : ZobristKeys) (move : Move) (b : Board) : Board :=
  let moving_piece := move.moving_piece
  let bd := setSquare b.board move.source_index Sq.empty
  let bd := setSquare bd move.destination_index (Sq.pc moving_piece)
  let pl := plUpdate b.piece_lists moving_piece (fun l => l.erase move.source_index)
  let pl := plUpdate pl moving_piece (fun l => l ++ [move.destination_index])
  let h := b.zobrist_hash ^^^
    keys.piece_keys (to64 move.source_index) (PIECE_CODES moving_piece)
  let h := h ^^^
    keys.piece_keys (to64 move.destination_index) (PIECE_CODES moving_piece)
  -- en passant moves always carry a captured pawn; `getD` mirrors the
  -- unchecked dict access on `piece_captured`
  let cap := move.piece_captured.getD Piece.p
  let capSq :=
    if b.color_to_play = Color.white then move.destination_index + 10
    else move.destination_index - 10
  let bd := setSquare bd capSq Sq.empty
  let pl := plUpdate pl cap (fun l => l.erase capSq)
  let h := h ^^^ keys.piece_keys (to64 capSq) (PIECE_CODES cap)
  { b with board := bd, piece_lists := pl, zobrist_hash := h }

/-- make_move, one castling block (board.py lines 157-227): the king lands on
`kingTo` (coming from `move.source_index`), the rook moves `rookFrom → rookTo`.
`kp`/`rp` are the king and rook tokens of the castling side. -/
def make_castle_block (keys : ZobristKeys) (move : Move) (kp rp : Piece)
    (rookFrom rookTo : Int) (b : Board) : Board :=
  let bd := setSquare b.board move.destination_index (Sq.pc kp)
  let pl := plUpdate b.piece_lists kp (fun l => l ++ [move.destination_index])
  let h := b.zobrist_hash ^^^
    keys.piece_keys (to64 move.destination_index) (PIECE_CODES kp)
  let bd := setSquare bd move.source_index Sq.empty
  let pl := plUpdate pl kp (fun l => l.erase move.source_index)
  let h := h ^^^ keys.piece_keys (to64 move.source_index) (PIECE_CODES kp)
  let bd := setSquare bd rookFrom Sq.empty
  let pl := plUpdate pl rp (fun l => l.erase rookFrom)
  let h := h ^^^ keys.piece_keys (to64 rookFrom) (PIECE_CODES rp)
  let bd := setSquare bd rookTo (Sq.pc rp)
  let pl := plUpdate pl rp (fun l => l ++ [rookTo])
  let h := h ^^^ keys.piece_keys (to64 rookTo) (PIECE_CODES rp)
  { b with board := bd, piece_lists := pl, zobrist_hash := h }

/-- make_move, castling branch: dispatch on the king's landing square. -/
def make_castle (keys : ZobristKeys) (move : Move) (b : Board) : Board :=
  if move.destination_index = 97 then
    make_castle_block keys move Piece.K Piece.R 98 96 b
  else if move.destination_index = 93 then
    make_castle_block keys move Piece.K Piece.R 91 94 b
  else if move.destination_index = 27 then
    make_castle_block keys move Piece.k Piece.r 28 26 b
  else if move.destination_index = 23 then
    make_castle_block keys move Piece.k Piece.r 21 24 b
  else
    b

/-- make_move phase 1: board / piece-list / hash updates by move kind. -/
def make_phase1 (keys : ZobristKeys) (move : Move) (b : Board) : Board :=
  if ¬ move.is_en_passant ∧ ¬ move.is_castle then make_normal keys move b
  else if move.is_en_passant then make_ep keys move b
  else make_castle keys move b

/-- make_move: `self.ply += 1`, color toggle and its hash key. -/
def make_ply_color (keys : ZobristKeys) (b : Board) : Board :=
  let b := { b with ply := b.ply + 1 }
  let b :=
    if b.color_to_play = Color.white then { b with color_to_play := Color.black }
    else { b with color_to_play := Color.white }
  { b with zobrist_hash := b.zobrist_hash ^^^ keys.color_key }

/-- make_move: 50-move-rule counter update. -/
def make_half_move (move : Move) (b : Board) : Board :=
  if move.moving_piece.lower = Piece.p ∨ move.piece_captured.isSome then
    { b with half_move := 0 }
  else
    { b with half_move := b.half_move + 1 }

/-- make_move: XOR-out the old en passant file key (if any). -/
def xor_ep_key (keys : ZobristKeys) (b : Board) : Board :=
  match b.en_passant_square with
  | some e => { b with zobrist_hash := b.zobrist_hash ^^^ keys.ep_keys (to64 e % 8) }
  | none => b

/-- make_move: reset the en passant square, set it after a double pawn push. -/
def make_new_ep (move : Move) (b : Board) : Board :=
  let b := { b with en_passant_square := none }
  if move.moving_piece = Piece.P then
    if 81 ≤ move.source_index ∧ move.source_index ≤ 88 then
      if 61 ≤ move.destination_index ∧ move.destination_index ≤ 68 then
        { b with en_passant_square := some (move.destination_index + 10) }
      else b
    else b
  else if move.moving_piece = Piece.p then
    if 31 ≤ move.source_index ∧ move.source_index ≤ 38 then
      if 51 ≤ move.destination_index ∧ move.destination_index ≤ 58 then
        { b with en_passant_square := some (move.destination_index - 10) }
      else b
    else b
  else b

/-- make_move: XOR the current castling-rights code into the hash. -/
def xor_castle_key (keys : ZobristKeys) (b : Board) : Board :=
  { b with zobrist_hash := b.zobrist_hash ^^^
      keys.castling_keys (get_castle_rights_code b) }

/-- make_move: revoke castling rights (board.py lines 274-295); the rook-square
tests read the already-updated mailbox. -/
def make_castle_rights (move : Move) (b : Board) : Board :=
  if move.is_castle then
    if move.moving_piece = Piece.K then
      { b with white_castle_kingside := false, white_castle_queenside := false }
    else if move.moving_piece = Piece.k then
      { b with black_castle_kingside := false, black_castle_queenside := false }
    else b
  else
    let b :=
      if move.moving_piece = Piece.K then
        { b with white_castle_kingside := false, white_castle_queenside := false }
      else b
    let b :=
      if move.moving_piece = Piece.k then
        { b with black_castle_kingside := false, black_castle_queenside := false }
      else b
    let b :=
      if squareAt b.board 98 ≠ Sq.pc Piece.R then
        { b with white_castle_kingside := false }
      else b
    let b :=
      if squareAt b.board 91 ≠ Sq.pc Piece.R then
        { b with white_castle_queenside := false }
      else b
    let b :=
      if squareAt b.board 28 ≠ Sq.pc Piece.r then
        { b with black_castle_kingside := false }
      else b
    if squareAt b.board 21 ≠ Sq.pc Piece.r then
      { b with black_castle_queenside := false }
    else b

/-- `Board.make_move`: the full method, in statement order. -/
def make_move (keys : ZobristKeys) (move : Move) (b : Board) : Board :=
  let b := make_phase1 keys move b
  let b := make_ply_color keys b
  let b := make_half_move move b
  let b := xor_ep_key keys b      -- XOR-out the old ep square (if any)
  let b := make_new_ep move b
  let b := xor_ep_key keys b      -- XOR-in the new ep square (if any)
  let b := xor_castle_key keys b  -- XOR-out the current rights code
  let b := make_castle_rights move b
  let b := xor_castle_key keys b  -- XOR-in the new rights code
  { b with history := b.history ++ [b.zobrist_hash] }

/-- unmake_move, non-special branch (board.py lines 309-323). -/
def unmake_normal (move : Move) (b : Board) : Board :=
  let moved_piece := move.moving_piece
  let bd := setSquare b.board move.source_index (Sq.pc moved_piece)
  let pl := plUpdate b.piece_lists moved_piece (fun l => l ++ [move.source_index])
  let bd_pl :=
    match move.piece_captured with
    | none => (setSquare bd move.destination_index Sq.empty, pl)
    | some cap =>
        (setSquare bd move.destination_index (Sq.pc cap),
         plUpdate pl cap (fun l => l ++ [move.destination_index]))
  let pl :=
    match move.promotion_piece with
    | some promo => plUpdate bd_pl.2 promo (fun l => l.erase move.destination_index)
    | none => plUpdate bd_pl.2 moved_piece (fun l => l.erase move.destination_index)
  { b with board := bd_pl.1, piece_lists := pl }

/-- unmake_move, en passant branch (board.py lines 325-336). -/
def unmake_ep (move : Move) (b : Board) : Board :=
  let moved_piece := move.moving_piece
  let bd := setSquare b.board move.source_index (Sq.pc moved_piece)
  let bd := setSquare bd move.destination_index Sq.empty
  let pl := plUpdate b.piece_lists moved_piece (fun l => l ++ [move.source_index])
  let pl := plUpdate pl moved_piece (fun l => l.erase move.destination_index)
  let cap := move.piece_captured.getD Piece.p
  if moved_piece = Piece.P then
    let bd := setSquare bd (move.destination_index + 10) (Sq.pc Piece.p)
    let pl := plUpdate pl cap (fun l => l ++ [move.destination_index + 10])
    { b with board := bd, piece_lists := pl }
  else
    let bd := setSquare bd (move.destination_index - 10) (Sq.pc Piece.P)
    let pl := plUpdate pl cap (fun l => l ++ [move.destination_index - 10])
    { b with board := bd, piece_lists := pl }

/-- unmake_move, one castling block (board.py lines 340-394): remove the king
from its landing square and the rook from `rookTo`, put them back on
`kingHome` and `rookFrom`. -/
def unmake_castle_block (move : Move) (kp rp : Piece)
    (rookFrom rookTo kingHome : Int) (b : Board) : Board :=
  let bd := setSquare b.board move.destination_index Sq.empty
  let pl := plUpdate b.piece_lists kp (fun l => l.erase move.destination_index)
  let bd := setSquare bd rookTo Sq.empty
  let pl := plUpdate pl rp (fun l => l.erase rookTo)
  let bd := setSquare bd kingHome (Sq.pc kp)
  let pl := plUpdate pl kp (fun l => l ++ [kingHome])
  let bd := setSquare bd rookFrom (Sq.pc rp)
  let pl := plUpdate pl rp (fun l => l ++ [rookFrom])
  { b with board := bd, piece_lists := pl }

/-- unmake_move, castling branch. -/
def unmake_castle (move : Move) (b : Board) : Board :=
  if move.destination_index = 97 then
    unmake_castle_block move Piece.K Piece.R 98 96 95 b
  else if move.destination_index = 93 then
    unmake_castle_block move Piece.K Piece.R 91 94 95 b
  else if move.destination_index = 27 then
    unmake_castle_block move Piece.k Piece.r 28 26 25 b
  else if move.destination_index = 23 then
    unmake_castle_block move Piece.k Piece.r 21 24 25 b
  else
    b

/-- `Board.unmake_move`. -/
def unmake_move (move : Move) (b : Board) : Board :=
  let b :=
    if ¬ move.is_en_passant ∧ ¬ move.is_castle then unmake_normal move b
    else if move.is_en_passant then unmake_ep move b
    else unmake_castle move b
  -- RESTORE PREVIOUS GAME STATE VARIABLES
  { b with
      ply := b.ply - 1
      color_to_play := move.previous_color_to_play
      half_move := move.previous_half_move
      en_passant_square := move.previous_en_passant_square
      white_castle_kingside := move.previous_white_castle_kingside
      white_castle_queenside := move.previous_white_castle_queenside
      black_castle_kingside := move.previous_black_castle_kingside
      black_castle_queenside := move.previous_black_castle_queenside
      zobrist_hash := move.previous_zobrist_hash
      history := b.history.dropLast }

/-! ### The legal move generator (move_generator.py) -/

/-- `WHITE_PIECES`. -/
def WHITE_PIECES : List Piece := [.K, .Q, .R, .B, .N, .P]

/-- `BLACK_PIECES`. -/
def BLACK_PIECES : List Piece := [.k, .q, .r, .b, .n, .p]

/-- `KING_DELTAS`. -/
def KING_DELTAS : List Int := [1, -1, 10, -10, 9, -9, 11, -11]

/-- `KNIGHT_DELTAS`. -/
def KNIGHT_DELTAS : List Int := [8, 12, 19, 21, -8, -12, -19, -21]

/-- `ROOK_DELTAS` (one inner list per direction, in the dict's insertion
order: up, down, right, left). -/
def ROOK_DELTAS : List (List Int) :=
  [ [-10, -20, -30, -40, -50, -60, -70],
    [10, 20, 30, 40, 50, 60, 70],
    [1, 2, 3, 4, 5, 6, 7],
    [-1, -2, -3, -4, -5, -6, -7] ]

/-- `BISHOP_DELTAS` (up-right, up-left, down-right, down-left). -/
def BISHOP_DELTAS : List (List Int) :=
  [ [-9, -18, -27, -36, -45, -54, -63],
    [-11, -22, -33, -44, -55, -66, -77],
    [11, 22, 33, 44, 55, 66, 77],
    [9, 18, 27, 36, 45, 54, 63] ]

/-- `QUEEN_DELTAS = ROOK_DELTAS | BISHOP_DELTAS` (dict union keeps the rook
directions first). -/
def QUEEN_DELTAS : List (List Int) := ROOK_DELTAS ++ BISHOP_DELTAS

/-- `WHITE_PAWN_DELTAS['attacks']`. -/
def WHITE_PAWN_ATTACKS : List Int := [-9, -11]

/-- `WHITE_PAWN_DELTAS['advances']`. -/
def WHITE_PAWN_ADVANCES : List Int := [-10, -20]

/-- `BLACK_PAWN_DELTAS['attacks']`. -/
def BLACK_PAWN_ATTACKS : List Int := [9, 11]

/-- `BLACK_PAWN_DELTAS['advances']`. -/
def BLACK_PAWN_ADVANCES : List Int := [10, 20]

/-- `DIRECTION_DELTAS`: direction names with their deltas, in dict order. -/
def DIRECTION_DELTAS : List (String × Int) :=
  [("N", -10), ("S", 10), ("E", 1), ("W", -1),
   ("NE", -9), ("NW", -11), ("SE", 11), ("SW", 9)]

/-- `non_sliding_moves`: pseudo-legal targets of kings and knights (all
non-out-of-bounds destinations). -/
def non_sliding_moves (position : Board) (source_index : Int)
    (deltas : List Int) : List Int :=
  deltas.filterMap (fun delta =>
    let target_index := source_index + delta
    if squareAt position.board target_index ≠ Sq.oob then some target_index
    else none)

/-- One direction of `sliding_moves`: walk the precomputed deltas, stop before
an out-of-bounds square, stop after (and include) the first occupied square. -/
def slideDir (bd : List Sq) (source_index : Int) : List Int → List Int
  | [] => []
  | delta :: ds =>
      let target_index := source_index + delta
      let target_square := squareAt bd target_index
      if target_square = Sq.oob then []
      else if target_square = Sq.empty then
        target_index :: slideDir bd source_index ds
      else [target_index]

/-- `sliding_moves`: pseudo-legal targets of bishops, rooks and queens. -/
def sliding_moves (position : Board) (source_index : Int)
    (deltas : List (List Int)) : List Int :=
  deltas.flatMap (slideDir position.board source_index)

/-- `king_moves`. -/
def king_moves (position : Board) (source_index : Int) : List Int :=
  non_sliding_moves position source_index KING_DELTAS

/-- `knight_moves`. -/
def knight_moves (position : Board) (source_index : Int) : List Int :=
  non_sliding_moves position source_index KNIGHT_DELTAS

/-- `rook_moves`. -/
def rook_moves (position : Board) (source_index : Int) : List Int :=
  sliding_moves position source_index ROOK_DELTAS

/-- `bishop_moves`. -/
def bishop_moves (position : Board) (source_index : Int) : List Int :=
  sliding_moves position source_index BISHOP_DELTAS

/-- `queen_moves`. -/
def queen_moves (position : Board) (source_index : Int) : List Int :=
  sliding_moves position source_index QUEEN_DELTAS

/-- Pawn advances: stop on the first non-empty square; a second advance is
only attempted from the home rank. -/
def pawnAdvances (bd : List Sq) (source_index : Int) (home : Bool) :
    List Int → List Int
  | [] => []
  | delta :: ds =>
      let target_index := source_index + delta
      if squareAt bd target_index ≠ Sq.empty then []
      else if home then target_index :: pawnAdvances bd source_index home ds
      else [target_index]

/-- Pawn diagonal attacks onto enemy-occupied squares. -/
def pawnAttacks (bd : List Sq) (source_index : Int) (enemy : List Piece)
    (deltas : List Int) : List Int :=
  deltas.filterMap (fun delta =>
    let target_index := source_index + delta
    match squareAt bd target_index with
    | Sq.pc x => if x ∈ enemy then some target_index else none
    | _ => none)

/-- Result record of `white_pawn_moves` / `black_pawn_moves`. -/
structure PawnMoves where
  attacks : List Int
  advances : List Int
deriving Repr

/-- `white_pawn_moves`. -/
def white_pawn_moves (position : Board) (source_index : Int) : PawnMoves :=
  { advances := pawnAdvances position.board source_index
      (81 ≤ source_index ∧ source_index ≤ 88 : Bool) WHITE_PAWN_ADVANCES
    attacks := pawnAttacks position.board source_index BLACK_PIECES
      WHITE_PAWN_ATTACKS }

/-- `black_pawn_moves`. -/
def black_pawn_moves (position : Board) (source_index : Int) : PawnMoves :=
  { advances := pawnAdvances position.board source_index
      (31 ≤ source_index ∧ source_index ≤ 38 : Bool) BLACK_PAWN_ADVANCES
    attacks := pawnAttacks position.board source_index WHITE_PIECES
      BLACK_PAWN_ATTACKS }

/-- `board.index(piece)`: index of the first occurrence (the sources only call
it when the piece is present). -/
def board_index (bd : List Sq) (v : Sq) : Int :=
  (bd.findIdx (· = v) : Int)

/-- One direction of the threat map for a sliding piece: rays pass *through*
the friendly king (x-ray) and stop at any other piece, which is included. -/
def threatRay (bd : List Sq) (friendly_king : Piece) (index : Int) :
    List Int → List Int
  | [] => []
  | delta :: ds =>
      let target_index := index + delta
      match squareAt bd target_index with
      | Sq.oob => []
      | Sq.empty => target_index :: threatRay bd friendly_king index ds
      | Sq.pc x =>
          if x = friendly_king then target_index :: threatRay bd friendly_king index ds
          else [target_index]

/-- Squares attacked by one enemy piece (the per-piece body of the
`get_threat_map` loop).  `friendly_king` is the king of the side to move. -/
def threatContrib (position : Board) (friendly_king : Piece)
    (enemy_pawn_attack_deltas : List Int) (index : Int) (piece : Piece) :
    List Int :=
  let piece_type := piece.lower
  if piece_type = Piece.n then knight_moves position index
  else if piece_type = Piece.k then king_moves position index
  else if piece_type = Piece.p then
    enemy_pawn_attack_deltas.filterMap (fun delta =>
      if squareAt position.board (index + delta) ≠ Sq.oob then some (index + delta)
      else none)
  else if piece_type = Piece.b then
    BISHOP_DELTAS.flatMap (threatRay position.board friendly_king index)
  else if piece_type = Piece.r then
    ROOK_DELTAS.flatMap (threatRay position.board friendly_king index)
  else
    QUEEN_DELTAS.flatMap (threatRay position.board friendly_king index)

/-- `get_threat_map`: all enemy-controlled squares, and the number of times
the friendly king is attacked (`check_count`). -/
def get_threat_map (position : Board) (enemy_color : Color) :
    List Int × Nat :=
  let enemy_pieces := if enemy_color = Color.white then WHITE_PIECES else BLACK_PIECES
  let friendly_king := if enemy_color = Color.white then Piece.k else Piece.K
  let enemy_pawn_attack_deltas :=
    if enemy_color = Color.white then WHITE_PAWN_ATTACKS else BLACK_PAWN_ATTACKS
  let threat_map := position.board.enum.flatMap (fun pr =>
    match pr.2 with
    | Sq.pc piece =>
        if piece ∈ enemy_pieces then
          threatContrib position friendly_king enemy_pawn_attack_deltas (pr.1 : Int) piece
        else []
    | _ => [])
  let friendly_king_index := board_index position.board (Sq.pc friendly_king)
  (threat_map, threat_map.count friendly_king_index)

/-- A check record of `get_checks_and_pins` (`check_path` is `None` for
non-sliding checks, which the consumer never reads). -/
structure CheckInfo where
  checker_index : Int
  check_path : Option (List Int)
  is_sliding : Bool
deriving DecidableEq, Repr

/-- A pin record of `get_checks_and_pins`. -/
structure PinInfo where
  pinner_index : Int
  pinned_piece_index : Int
  pin_path : List Int
deriving DecidableEq, Repr

/-- The per-direction while-loop of `get_checks_and_pins`.  The walk is fueled;
the mailbox border forces an exit long before the fuel (130 at the top call)
runs out, so the fuel never alters the result. -/
def ray_walk (bd : List Sq) (friendly_pieces enemy_pieces : List Piece)
    (enemy_kind : List Piece) :
    Nat → Int → Int → Nat → Option Int → List Int → List Int →
    Option PinInfo × Option CheckInfo
  | 0, _, _, _, _, _, _ => (none, none)
  | fuel + 1, delta, current_index, friendlies, closest, pin_path, check_path =>
      if squareAt bd current_index = Sq.oob then (none, none)
      else
        let ci := current_index + delta
        match squareAt bd ci with
        | Sq.oob =>
            -- the loop body ignores the border cell; the next condition exits
            ray_walk bd friendly_pieces enemy_pieces enemy_kind fuel delta ci
              friendlies closest pin_path check_path
        | Sq.empty =>
            if friendlies = 1 then
              ray_walk bd friendly_pieces enemy_pieces enemy_kind fuel delta ci
                friendlies closest (pin_path ++ [ci]) check_path
            else if friendlies = 0 then
              ray_walk bd friendly_pieces enemy_pieces enemy_kind fuel delta ci
                friendlies closest pin_path (check_path ++ [ci])
            else
              ray_walk bd friendly_pieces enemy_pieces enemy_kind fuel delta ci
                friendlies closest pin_path check_path
        | Sq.pc x =>
            if x ∈ friendly_pieces then
              if friendlies + 1 = 1 then
                ray_walk bd friendly_pieces enemy_pieces enemy_kind fuel delta ci
                  (friendlies + 1) (some ci) pin_path check_path
              else if friendlies + 1 = 2 then (none, none)
              else
                ray_walk bd friendly_pieces enemy_pieces enemy_kind fuel delta ci
                  (friendlies + 1) closest pin_path check_path
            else
              -- enemy piece
              if x ∈ enemy_kind then
                if friendlies = 0 then
                  (none, some { checker_index := ci, check_path := some check_path,
                                is_sliding := true })
                else if friendlies = 1 then
                  (some { pinner_index := ci,
                          pinned_piece_index := closest.getD 0,
                          pin_path := pin_path ++ check_path }, none)
                else
                  -- unreachable: the walk stops at two friendly pieces
                  ray_walk bd friendly_pieces enemy_pieces enemy_kind fuel delta ci
                    friendlies closest pin_path check_path
              else (none, none)

/-- `get_checks_and_pins`: ray-cast from the king in the eight directions, then
scan the knight and pawn attack squares. -/
def get_checks_and_pins (position : Board) (source_index : Int) :
    List CheckInfo × List PinInfo :=
  let white := position.color_to_play = Color.white
  let friendly_pieces := if white then WHITE_PIECES else BLACK_PIECES
  let enemy_pieces := if white then BLACK_PIECES else WHITE_PIECES
  let enemy_orthogonal : List Piece := if white then [.r, .q] else [.R, .Q]
  let enemy_diagonal : List Piece := if white then [.b, .q] else [.B, .Q]
  let enemy_pawn : Piece := if white then .p else .P
  let enemy_knight : Piece := if white then .n else .N
  let pawn_deltas := if white then WHITE_PAWN_ATTACKS else BLACK_PAWN_ATTACKS
  let ray_results := DIRECTION_DELTAS.map (fun dir =>
    let enemy_kind :=
      if dir.1 ∈ ["N", "S", "E", "W"] then enemy_orthogonal else enemy_diagonal
    ray_walk position.board friendly_pieces enemy_pieces enemy_kind
      130 dir.2 source_index 0 none [] [])
  let pins := ray_results.filterMap (·.1)
  let checks := ray_results.filterMap (·.2)
  let knight_checks := KNIGHT_DELTAS.filterMap (fun delta =>
    if squareAt position.board (source_index + delta) = Sq.pc enemy_knight then
      some { checker_index := source_index + delta, check_path := none,
             is_sliding := false : CheckInfo }
    else none)
  let pawn_checks := pawn_deltas.filterMap (fun delta =>
    if squareAt position.board (source_index + delta) = Sq.pc enemy_pawn then
      some { checker_index := source_index + delta, check_path := none,
             is_sliding := false : CheckInfo }
    else none)
  (checks ++ knight_checks ++ pawn_checks, pins)

/-- The color-dependent local variables of `generate_moves` (lines 49-92). -/
structure GenCtx where
  enemy_color : Color
  friendly_king : Piece
  friendly_knight : Piece
  friendly_bishop : Piece
  friendly_rook : Piece
  friendly_queen : Piece
  friendly_pawn : Piece
  enemy_pawn : Piece
  friendly_pieces : List Piece
  enemy_pieces : List Piece
  pawn_attack_deltas : List Int
  promotion_squares : List Int
  promotion_pieces : List Piece
  castle_kingside : Bool
  castle_queenside : Bool
  kingside_castle_path : List Int
  queenside_castle_path : List Int
  queenside_king_castle_path : List Int
  castle_kingside_destination : Int
  castle_queenside_destination : Int
  king_home_square : Int

/-- Build the `generate_moves` context for the side to move. -/
def genCtx (position : Board) : GenCtx :=
  if position.color_to_play = Color.white then
    { enemy_color := Color.black
      friendly_king := .K, friendly_knight := .N, friendly_bishop := .B
      friendly_rook := .R, friendly_queen := .Q, friendly_pawn := .P
      enemy_pawn := .p
      friendly_pieces := WHITE_PIECES, enemy_pieces := BLACK_PIECES
      pawn_attack_deltas := WHITE_PAWN_ATTACKS
      promotion_squares := [21, 22, 23, 24, 25, 26, 27, 28]
      promotion_pieces := [.B, .N, .R, .Q]
      castle_kingside := position.white_castle_kingside
      castle_queenside := position.white_castle_queenside
      kingside_castle_path := [96, 97]
      queenside_castle_path := [92, 93, 94]
      queenside_king_castle_path := [93, 94]
      castle_kingside_destination := 97
      castle_queenside_destination := 93
      king_home_square := 95 }
  else
    { enemy_color := Color.white
      friendly_king := .k, friendly_knight := .n, friendly_bishop := .b
      friendly_rook := .r, friendly_queen := .q, friendly_pawn := .p
      enemy_pawn := .P
      friendly_pieces := BLACK_PIECES, enemy_pieces := WHITE_PIECES
      pawn_attack_deltas := BLACK_PAWN_ATTACKS
      promotion_squares := [91, 92, 93, 94, 95, 96, 97, 98]
      promotion_pieces := [.b, .n, .r, .q]
      castle_kingside := position.black_castle_kingside
      castle_queenside := position.black_castle_queenside
      kingside_castle_path := [26, 27]
      queenside_castle_path := [22, 23, 24]
      queenside_king_castle_path := [23, 24]
      castle_kingside_destination := 27
      castle_queenside_destination := 23
      king_home_square := 25 }

/-- Pseudo-legal destinations of one friendly piece (the dispatch at
move_generator.py lines 122-143, including the en passant destinations). -/
def pseudo_moves (position : Board) (ctx : GenCtx) (index : Int)
    (piece : Piece) : List Int :=
  if piece = ctx.friendly_knight then knight_moves position index
  else if piece = ctx.friendly_bishop then bishop_moves position index
  else if piece = ctx.friendly_rook then rook_moves position index
  else if piece = ctx.friendly_queen then queen_moves position index
  else if piece = ctx.friendly_king then king_moves position index
  else if piece = ctx.friendly_pawn then
    let pawn_moves_dict :=
      if position.color_to_play = Color.white then white_pawn_moves position index
      else black_pawn_moves position index
    let base := pawn_moves_dict.attacks ++ pawn_moves_dict.advances
    base ++ ctx.pawn_attack_deltas.filterMap (fun delta =>
      match position.en_passant_square with
      | some e => if index + delta = e then some (index + delta) else none
      | none => none)
  else []

/-- The captured piece recorded for a destination square. -/
def captureAt (position : Board) (ctx : GenCtx) (destination : Int) :
    Option Piece :=
  match squareAt position.board destination with
  | Sq.pc x => if x ∈ ctx.enemy_pieces then some x else none
  | _ => none

/-- The four validation filters of `generate_moves` (lines 146-175) as one
predicate: check filter, king-threat filter, pin filter, friendly-occupancy
filter. -/
def dest_valid (position : Board) (ctx : GenCtx) (is_check : Bool)
    (chk : Option CheckInfo) (threat_map : List Int) (pins : List PinInfo)
    (index : Int) (piece : Piece) (destination : Int) : Bool :=
  let check_ok : Bool :=
    if is_check then
      if piece ≠ ctx.friendly_king then
        match chk with
        | some c =>
            if ¬ c.is_sliding then destination = c.checker_index
            else decide (destination ∈ c.check_path.getD []) ||
              decide (destination = c.checker_index)
        | none => true
      else true
    else true
  let king_ok : Bool :=
    if piece = ctx.friendly_king then ¬ destination ∈ threat_map else true
  let pin_ok : Bool :=
    match pins.find? (fun pin => pin.pinned_piece_index == index) with
    | some pin_info =>
        decide (destination ∈ pin_info.pin_path) ||
          decide (destination = pin_info.pinner_index)
    | none => true
  let friendly_ok : Bool :=
    match squareAt position.board destination with
    | Sq.pc x => ¬ x ∈ ctx.friendly_pieces
    | _ => true
  check_ok && king_ok && pin_ok && friendly_ok

/-- The move records appended for one validated destination (lines 178-249). -/
def moves_for_dest (position : Board) (ctx : GenCtx) (index : Int)
    (piece : Piece) (destination : Int) : List Move :=
  if piece ≠ ctx.friendly_pawn then
    [mkMove position piece index destination (captureAt position ctx destination)
      false false none]
  else
    -- `destination == position.en_passant_square` (int vs possibly-None)
    if (match position.en_passant_square with
        | some e => destination = e
        | none => False : Bool) then
      [mkMove position piece index destination (some ctx.enemy_pawn)
        true false none]
    else if destination ∈ ctx.promotion_squares then
      ctx.promotion_pieces.map (fun new_piece =>
        mkMove position piece index destination (captureAt position ctx destination)
          false false (some new_piece))
    else
      [mkMove position piece index destination (captureAt position ctx destination)
        false false none]

/-- Kingside castling moves (lines 252-275). -/
def castle_kingside_moves (position : Board) (ctx : GenCtx) (is_check : Bool)
    (threat_map : List Int) : List Move :=
  if ctx.castle_kingside then
    if ¬ is_check then
      let castle_path_clear := ctx.kingside_castle_path.all (fun i =>
        (squareAt position.board i = Sq.empty : Bool) && !(decide (i ∈ threat_map)))
      if castle_path_clear then
        [mkMove position ctx.friendly_king ctx.king_home_square
          ctx.castle_kingside_destination none false true none]
      else []
    else []
  else []

/-- Queenside castling moves (lines 277-301). -/
def castle_queenside_moves (position : Board) (ctx : GenCtx) (is_check : Bool)
    (threat_map : List Int) : List Move :=
  if ctx.castle_queenside then
    if ¬ is_check then
      let castle_path_clear :=
        (ctx.queenside_castle_path.all (fun i =>
          (squareAt position.board i = Sq.empty : Bool))) &&
        (ctx.queenside_king_castle_path.all (fun i => !(decide (i ∈ threat_map))))
      if castle_path_clear then
        [mkMove position ctx.friendly_king ctx.king_home_square
          ctx.castle_queenside_destination none false true none]
      else []
    else []
  else []

/-- `generate_moves`: all legal moves of the position.  NOTE: as shipped the
source returns *only* this list (move_generator.py line 329), although every
caller in engine.py and backend/engine.py unpacks a `(legal_moves,
check_count)` pair; the internally computed `check_count` is exposed
separately below as `check_count_of`. -/
def generate_moves (position : Board) : List Move :=
  let ctx := genCtx position
  let tm := get_threat_map position ctx.enemy_color
  let threat_map := tm.1
  let check_count := tm.2
  let king_index := board_index position.board (Sq.pc ctx.friendly_king)
  if check_count < 2 then
    let cp := get_checks_and_pins position king_index
    let checks := cp.1
    let pins := cp.2
    let is_check : Bool := decide (0 < checks.length)
    let chk := checks.head?
    let main_moves := position.board.enum.flatMap (fun pr =>
      match pr.2 with
      | Sq.pc piece =>
          if piece ∈ ctx.friendly_pieces then
            (pseudo_moves position ctx (pr.1 : Int) piece).flatMap (fun destination =>
              if dest_valid position ctx is_check chk threat_map pins
                  (pr.1 : Int) piece destination then
                moves_for_dest position ctx (pr.1 : Int) piece destination
              else [])
          else []
      | _ => [])
    main_moves ++ castle_kingside_moves position ctx is_check threat_map
      ++ castle_queenside_moves position ctx is_check threat_map
  else
    -- double check: only king moves
    (king_moves position king_index).flatMap (fun destination =>
      if destination ∈ threat_map then []
      else
        match squareAt position.board destination with
        | Sq.pc x =>
            if x ∈ ctx.friendly_pieces then []
            else [mkMove position ctx.friendly_king king_index destination
              (captureAt position ctx destination) false false none]
        | _ =>
            [mkMove position ctx.friendly_king king_index destination
              (captureAt position ctx destination) false false none])

/-- The check count `generate_moves` computes internally (move_generator.py
line 95) and that its callers expect as the second component of its result. -/
def check_count_of (position : Board) : Nat :=
  (get_threat_map position (genCtx position).enemy_color).2

/-- `Board.initialize_piece_lists` applied to a mailbox: scan the board and
append each piece's index to its list. -/
def init_piece_lists (bd : List Sq) : Piece → List Int :=
  bd.enum.foldl (fun pl pr =>
    match pr.2 with
    | Sq.pc x => plUpdate pl x (fun l => l ++ [(pr.1 : Int)])
    | _ => pl) (fun _ => [])

/-- Shorthand cells for writing mailbox literals. -/
def oo : Sq := Sq.oob

/-- Shorthand empty cell. -/
def ee : Sq := Sq.empty

/-- One border row of the 10x12 mailbox. -/
def BORDER_ROW : List Sq := [oo, oo, oo, oo, oo, oo, oo, oo, oo, oo]

/-- The `Board.__init__` mailbox: the standard chess starting position. -/
def START_MAILBOX : List Sq :=
  BORDER_ROW ++ BORDER_ROW ++
  [oo, Sq.pc Piece.r, Sq.pc Piece.n, Sq.pc Piece.b, Sq.pc Piece.q,
   Sq.pc Piece.k, Sq.pc Piece.b, Sq.pc Piece.n, Sq.pc Piece.r, oo] ++
  [oo, Sq.pc Piece.p, Sq.pc Piece.p, Sq.pc Piece.p, Sq.pc Piece.p,
   Sq.pc Piece.p, Sq.pc Piece.p, Sq.pc Piece.p, Sq.pc Piece.p, oo] ++
  [oo, ee, ee, ee, ee, ee, ee, ee, ee, oo] ++
  [oo, ee, ee, ee, ee, ee, ee, ee, ee, oo] ++
  [oo, ee, ee, ee, ee, ee, ee, ee, ee, oo] ++
  [oo, ee, ee, ee, ee, ee, ee, ee, ee, oo] ++
  [oo, Sq.pc Piece.P, Sq.pc Piece.P, Sq.pc Piece.P, Sq.pc Piece.P,
   Sq.pc Piece.P, Sq.pc Piece.P, Sq.pc Piece.P, Sq.pc Piece.P, oo] ++
  [oo, Sq.pc Piece.R, Sq.pc Piece.N, Sq.pc Piece.B, Sq.pc Piece.Q,
   Sq.pc Piece.K, Sq.pc Piece.B, Sq.pc Piece.N, Sq.pc Piece.R, oo] ++
  BORDER_ROW ++ BORDER_ROW

/-- Build a `Board` from a mailbox and game-state fields the way
`Board.__init__` / the FEN loader do: piece lists are rebuilt from the
mailbox, the hash is computed from scratch, and the history holds it.
(Test fixture; `init_board keys` below is the exact `Board.__init__`.) -/
def board_from (keys : ZobristKeys) (bd : List Sq) (color : Color)
    (wck wcq bck bcq : Bool) (ep : Option Int) : Board :=
  let b0 : Board :=
    { board := bd
      color_to_play := color
      white_castle_kingside := wck
      white_castle_queenside := wcq
      black_castle_kingside := bck
      black_castle_queenside := bcq
      half_move := 0
      ply := 0
      en_passant_square := ep
      piece_lists := init_piece_lists bd
      zobrist_hash := 0
      history := [] }
  let h := compute_hash keys b0
  { b0 with zobrist_hash := h, history := [h] }

/-- `Board.__init__`: the standard starting position. -/
def init_board (keys : ZobristKeys) : Board :=
  board_from keys START_MAILBOX Color.white true true true true none

/-! ### The static evaluator (evaluation.py) -/
/-- `FLIP` from evaluation.py. -/
def FLIP : List Int :=
  [ 0, 1, 2, 3, 4, 5, 6, 7, 8, 9,
    10, 11, 12, 13, 14, 15, 16, 17, 18, 19,
    20, 91, 92, 93, 94, 95, 96, 97, 98, 29,
    30, 81, 82, 83, 84, 85, 86, 87, 88, 39,
    40, 71, 72, 73, 74, 75, 76, 77, 78, 49,
    50, 61, 62, 63, 64, 65, 66, 67, 68, 59,
    60, 51, 52, 53, 54, 55, 56, 57, 58, 69,
    70, 41, 42, 43, 44, 45, 46, 47, 48, 79,
    80, 31, 32, 33, 34, 35, 36, 37, 38, 89,
    90, 21, 22, 23, 24, 25, 26, 27, 28, 99,
    100, 101, 102, 103, 104, 105, 106, 107, 108, 109,
    110, 111, 112, 113, 114, 115, 116, 117, 118, 119 ]

/-- `MG_PAWN_PST` from evaluation.py. -/
def MG_PAWN_PST : List Int :=
  [ 0, 0, 0, 0, 0, 0, 0, 0, 98, 134,
    61, 95, 68, 126, 34, -11, -6, 7, 26, 31,
    65, 56, 25, -20, -14, 13, 6, 21, 23, 12,
    17, -23, -27, -2, -5, 12, 17, 6, 10, -25,
    -26, -4, -4, -10, 3, 3, 33, -12, -35, -1,
    -20, -23, -15, 24, 38, -22, 0, 0, 0, 0,
    0, 0, 0, 0 ]

/-- `EG_PAWN_PST` from evaluation.py. -/
def EG_PAWN_PST : List Int :=
  [ 0, 0, 0, 0, 0, 0, 0, 0, 178, 173,
    158, 134, 147, 132, 165, 187, 94, 100, 85, 67,
    56, 53, 82, 84, 32, 24, 13, 5, -2, 4,
    17, 17, 13, 9, -3, -7, -7, -8, 3, -1,
    4, 7, -6, 1, 0, -5, -1, -8, 13, 8,
    8, 10, 13, 0, 2, -7, 0, 0, 0, 0,
    0, 0, 0, 0 ]

/-- `MG_KNIGHT_PST` from evaluation.py. -/
def MG_KNIGHT_PST : List Int :=
  [ -167, -89, -34, -49, 61, -97, -15, -107, -73, -41,
    72, 36, 23, 62, 7, -17, -47, 60, 37, 65,
    84, 129, 73, 44, -9, 17, 19, 53, 37, 69,
    18, 22, -13, 4, 16, 13, 28, 19, 21, -8,
    -23, -9, 12, 10, 19, 17, 25, -16, -29, -53,
    -12, -3, -1, 18, -14, -19, -105, -21, -58, -33,
    -17, -28, -19, -23 ]

/-- `EG_KNIGHT_PST` from evaluation.py. -/
def EG_KNIGHT_PST : List Int :=
  [ -58, -38, -13, -28, -31, -27, -63, -99, -25, -8,
    -25, -2, -9, -25, -24, -52, -24, -20, 10, 9,
    -1, -9, -19, -41, -17, 3, 22, 22, 22, 11,
    8, -18, -18, -6, 16, 25, 16, 17, 4, -18,
    -23, -3, -1, 15, 10, -3, -20, -22, -42, -20,
    -10, -5, -2, -20, -23, -44, -29, -51, -23, -15,
    -22, -18, -50, -64 ]

/-- `MG_BISHOP_PST` from evaluation.py. -/
def MG_BISHOP_PST : List Int :=
  [ -29, 4, -82, -37, -25, -42, 7, -8, -26, 16,
    -18, -13, 30, 59, 18, -47, -16, 37, 43, 40,
    35, 50, 37, -2, -4, 5, 19, 50, 37, 37,
    7, -2, -6, 13, 13, 26, 34, 12, 10, 4,
    0, 15, 15, 15, 14, 27, 18, 10, 4, 15,
    16, 0, 7, 21, 33, 1, -33, -3, -14, -21,
    -13, -12, -39, -21 ]

/-- `EG_BISHOP_PST` from evaluation.py. -/
def EG_BISHOP_PST : List Int :=
  [ -14, -21, -11, -8, -7, -9, -17, -24, -8, -4,
    7, -12, -3, -13, -4, -14, 2, -8, 0, -1,
    -2, 6, 0, 4, -3, 9, 12, 9, 14, 10,
    3, 2, -6, 3, 13, 19, 7, 10, -3, -9,
    -12, -3, 8, 10, 13, 3, -7, -15, -14, -18,
    -7, -1, 4, -9, -15, -27, -23, -9, -23, -5,
    -9, -16, -5, -17 ]

/-- `MG_ROOK_PST` from evaluation.py. -/
def MG_ROOK_PST : List Int :=
  [ 32, 42, 32, 51, 63, 9, 31, 43, 27, 32,
    58, 62, 80, 67, 26, 44, -5, 19, 26, 36,
    17, 45, 61, 16, -24, -11, 7, 26, 24, 35,
    -8, -20, -36, -26, -12, -1, 9, -7, 6, -23,
    -45, -25, -16, -17, 3, 0, -5, -33, -44, -16,
    -20, -9, -1, 11, -6, -71, -19, -13, 1, 17,
    16, 7, -37, -26 ]

/-- `EG_ROOK_PST` from evaluation.py. -/
def EG_ROOK_PST : List Int :=
  [ 13, 10, 18, 15, 12, 12, 8, 5, 11, 13,
    13, 11, -3, 3, 8, 3, 7, 7, 7, 5,
    4, -3, -5, -3, 4, 3, 13, 1, 2, 1,
    -1, 2, 3, 5, 8, 4, -5, -6, -8, -11,
    -4, 0, -5, -1, -7, -12, -8, -16, -6, -6,
    0, 2, -9, -9, -11, -3, -9, 2, 3, -1,
    -5, -13, 4, -20 ]

/-- `MG_QUEEN_PST` from evaluation.py. -/
def MG_QUEEN_PST : List Int :=
  [ -28, 0, 29, 12, 59, 44, 43, 45, -24, -39,
    -5, 1, -16, 57, 28, 54, -13, -17, 7, 8,
    29, 56, 47, 57, -27, -27, -16, -16, -1, 17,
    -2, 1, -9, -26, -9, -10, -2, -4, 3, -3,
    -14, 2, -11, -2, -5, 2, 14, 5, -35, -8,
    11, 2, 8, 15, -3, 1, -1, -18, -9, 10,
    -15, -25, -31, -50 ]

/-- `EG_QUEEN_PST` from evaluation.py. -/
def EG_QUEEN_PST : List Int :=
  [ -9, 22, 22, 27, 27, 19, 10, 20, -17, 20,
    32, 41, 58, 25, 30, 0, -20, 6, 9, 49,
    47, 35, 19, 9, 3, 22, 24, 45, 57, 40,
    57, 36, -18, 28, 19, 47, 31, 34, 39, 23,
    -16, -27, 15, 6, 9, 17, 10, 5, -22, -23,
    -30, -16, -16, -23, -36, -32, -33, -28, -22, -43,
    -5, -32, -20, -41 ]

/-- `MG_KING_PST` from evaluation.py. -/
def MG_KING_PST : List Int :=
  [ -65, 23, 16, -15, -56, -34, 2, 13, 29, -1,
    -20, -7, -8, -4, -38, -29, -9, 24, 2, -16,
    -20, 6, 22, -22, -17, -20, -12, -27, -30, -25,
    -14, -36, -49, -1, -27, -39, -46, -44, -33, -51,
    -14, -14, -22, -46, -44, -30, -15, -27, 1, 7,
    -8, -64, -43, -16, 9, 8, -15, 36, 12, -54,
    8, -28, 24, 14 ]

/-- `EG_KING_PST` from evaluation.py. -/
def EG_KING_PST : List Int :=
  [ -74, -35, -18, -18, -11, 15, 4, -17, -12, 17,
    14, 17, 17, 38, 23, 11, 10, 17, 23, 15,
    20, 45, 44, 13, -8, 22, 24, 27, 26, 33,
    26, 3, -18, -4, 21, 24, 27, 23, 9, -11,
    -19, -3, 11, 21, 23, 16, 7, -9, -27, -11,
    4, 13, 14, 4, -5, -17, -53, -34, -21, -11,
    -28, -14, -24, -43 ]

/-- `KING_ATTACK_PENALTIES` from evaluation.py. -/
def KING_ATTACK_PENALTIES : List Int :=
  [ 0, 5, 15, 40, 70, 100, 150, 200, 250, 300 ]

/-- Table lookup `tbl[i]` (the evaluator only reads indices `0..63` of the
PSTs and `0..119` of `FLIP` for pieces on playable squares). -/
def pstAt (tbl : List Int) (i : Int) : Int :=
  if 0 ≤ i then tbl.getD i.toNat 0 else 0

/-- Python `==` between a mailbox cell value and an int (as in
`target_square in b_king_ring`): the out-of-bounds cell holds the int `-1`,
every other cell holds a one-character string, and in Python a string never
equals an int. -/
def pyEqSqInt : Sq → Int → Bool
  | Sq.oob, i => i == -1
  | _, _ => false

/-- Python `target_square in ring` where `ring` is a list of board indices:
membership tested with Python `==` on a cell value against ints. -/
def sqInIntList (s : Sq) (ring : List Int) : Bool :=
  ring.any (fun i => pyEqSqInt s i)

/-- Mutable counters of `evaluate_position`'s piece-scan loops. -/
structure EvalState where
  game_phase : Int
  w_mg_eval : Int
  w_eg_eval : Int
  b_mg_eval : Int
  b_eg_eval : Int
  w_mobility : Int
  b_mobility : Int
  w_king_attack_score : Int
  b_king_attack_score : Int
deriving DecidableEq, Repr

/-- All-zero initial `EvalState`. -/
def EvalState.zero : EvalState :=
  { game_phase := 0, w_mg_eval := 0, w_eg_eval := 0, b_mg_eval := 0,
    b_eg_eval := 0, w_mobility := 0, b_mobility := 0,
    w_king_attack_score := 0, b_king_attack_score := 0 }

/-- One direction of a slider's mobility / king-attack scan
(evaluation.py lines 214-227 and the analogous rook/bishop loops): returns the
`(mobility, king_attack)` increments gathered along the ray.  The ring test
compares the *cell value* against the list of ring *indices* (`pyEqSqInt`),
exactly as the source does. -/
def slider_scan (bd : List Sq) (ring : List Int) (bonus : Int) (index : Int) :
    List Int → Int × Int
  | [] => (0, 0)
  | delta :: ds =>
      let target_index := index + delta
      let target_square := squareAt bd target_index
      if target_square = Sq.oob then (0, 0)
      else
        let atk := if sqInIntList target_square ring then bonus else 0
        if target_square = Sq.empty then
          let r := slider_scan bd ring bonus index ds
          (1 + r.1, atk + r.2)
        else (0, atk)

/-- Mobility / king-attack scan over all of a slider's directions. -/
def slider_scan_all (bd : List Sq) (ring : List Int) (bonus : Int)
    (index : Int) (deltas : List (List Int)) : Int × Int :=
  deltas.foldl (fun acc dir =>
    let r := slider_scan bd ring bonus index dir
    (acc.1 + r.1, acc.2 + r.2)) (0, 0)

/-- The knight's mobility / king-attack scan (evaluation.py lines 277-287):
out-of-bounds targets are skipped (`continue`), not ray-terminating. -/
def knight_scan (bd : List Sq) (ring : List Int) (bonus : Int) (index : Int) :
    List Int → Int × Int
  | [] => (0, 0)
  | delta :: ds =>
      let r := knight_scan bd ring bonus index ds
      let target_square := squareAt bd (index + delta)
      if target_square = Sq.oob then r
      else
        let atk := if sqInIntList target_square ring then bonus else 0
        let mob := if target_square = Sq.empty then 1 else 0
        (mob + r.1, atk + r.2)

/-- Body of the white piece-scan loop (evaluation.py lines 203-292) for one
piece of the given type at `index`. -/
def eval_white_piece (bd : List Sq) (b_king_ring : List Int) (st : EvalState)
    (piece : Piece) (index : Int) : EvalState :=
  let index_64 := to64 index
  if piece = Piece.K then
    { st with
        w_mg_eval := st.w_mg_eval + 20000 + pstAt MG_KING_PST index_64
        w_eg_eval := st.w_eg_eval + 20000 + pstAt EG_KING_PST index_64 }
  else if piece = Piece.Q then
    let r := slider_scan_all bd b_king_ring 5 index QUEEN_DELTAS
    { st with
        w_mg_eval := st.w_mg_eval + 900 + pstAt MG_QUEEN_PST index_64
        w_eg_eval := st.w_eg_eval + 900 + pstAt EG_QUEEN_PST index_64
        w_king_attack_score := st.w_king_attack_score + r.2
        w_mobility := st.w_mobility + r.1
        game_phase := st.game_phase + 4 }
  else if piece = Piece.R then
    let r := slider_scan_all bd b_king_ring 4 index ROOK_DELTAS
    { st with
        w_mg_eval := st.w_mg_eval + 500 + pstAt MG_ROOK_PST index_64
        w_eg_eval := st.w_eg_eval + 500 + pstAt EG_ROOK_PST index_64
        w_king_attack_score := st.w_king_attack_score + r.2
        w_mobility := st.w_mobility + r.1
        game_phase := st.game_phase + 2 }
  else if piece = Piece.B then
    let r := slider_scan_all bd b_king_ring 2 index BISHOP_DELTAS
    { st with
        w_mg_eval := st.w_mg_eval + 330 + pstAt MG_BISHOP_PST index_64
        w_eg_eval := st.w_eg_eval + 330 + pstAt EG_BISHOP_PST index_64
        w_king_attack_score := st.w_king_attack_score + r.2
        w_mobility := st.w_mobility + r.1
        game_phase := st.game_phase + 1 }
  else if piece = Piece.N then
    let r := knight_scan bd b_king_ring 2 index KNIGHT_DELTAS
    { st with
        w_mg_eval := st.w_mg_eval + 320 + pstAt MG_KNIGHT_PST index_64
        w_eg_eval := st.w_eg_eval + 320 + pstAt EG_KNIGHT_PST index_64
        w_king_attack_score := st.w_king_attack_score + r.2
        w_mobility := st.w_mobility + r.1
        game_phase := st.game_phase + 1 }
  else if piece = Piece.P then
    { st with
        w_mg_eval := st.w_mg_eval + 100 + pstAt MG_PAWN_PST index_64
        w_eg_eval := st.w_eg_eval + 100 + pstAt EG_PAWN_PST index_64 }
  else st

/-- Body of the black piece-scan loop (evaluation.py lines 294-384); PSTs are
read through the vertical `FLIP`. -/
def eval_black_piece (bd : List Sq) (w_king_ring : List Int) (st : EvalState)
    (piece : Piece) (index : Int) : EvalState :=
  let flipped_index := pstAt FLIP index
  let index_64 := to64 flipped_index
  if piece = Piece.k then
    { st with
        b_mg_eval := st.b_mg_eval + 20000 + pstAt MG_KING_PST index_64
        b_eg_eval := st.b_eg_eval + 20000 + pstAt EG_KING_PST index_64 }
  else if piece = Piece.q then
    let r := slider_scan_all bd w_king_ring 5 index QUEEN_DELTAS
    { st with
        b_mg_eval := st.b_mg_eval + 900 + pstAt MG_QUEEN_PST index_64
        b_eg_eval := st.b_eg_eval + 900 + pstAt EG_QUEEN_PST index_64
        b_king_attack_score := st.b_king_attack_score + r.2
        b_mobility := st.b_mobility + r.1
        game_phase := st.game_phase + 4 }
  else if piece = Piece.r then
    let r := slider_scan_all bd w_king_ring 4 index ROOK_DELTAS
    { st with
        b_mg_eval := st.b_mg_eval + 500 + pstAt MG_ROOK_PST index_64
        b_eg_eval := st.b_eg_eval + 500 + pstAt EG_ROOK_PST index_64
        b_king_attack_score := st.b_king_attack_score + r.2
        b_mobility := st.b_mobility + r.1
        game_phase := st.game_phase + 2 }
  else if piece = Piece.b then
    let r := slider_scan_all bd w_king_ring 2 index BISHOP_DELTAS
    { st with
        b_mg_eval := st.b_mg_eval + 330 + pstAt MG_BISHOP_PST index_64
        b_eg_eval := st.b_eg_eval + 330 + pstAt EG_BISHOP_PST index_64
        b_king_attack_score := st.b_king_attack_score + r.2
        b_mobility := st.b_mobility + r.1
        game_phase := st.game_phase + 1 }
  else if piece = Piece.n then
    let r := knight_scan bd w_king_ring 2 index KNIGHT_DELTAS
    { st with
        b_mg_eval := st.b_mg_eval + 320 + pstAt MG_KNIGHT_PST index_64
        b_eg_eval := st.b_eg_eval + 320 + pstAt EG_KNIGHT_PST index_64
        b_king_attack_score := st.b_king_attack_score + r.2
        b_mobility := st.b_mobility + r.1
        game_phase := st.game_phase + 1 }
  else if piece = Piece.p then
    { st with
        b_mg_eval := st.b_mg_eval + 100 + pstAt MG_PAWN_PST index_64
        b_eg_eval := st.b_eg_eval + 100 + pstAt EG_PAWN_PST index_64 }
  else st

/-- `w_king_index` (`piece_lists['K'][0]`). -/
def w_king_index_of (b : Board) : Int := (b.piece_lists Piece.K).headD 0

/-- `b_king_index` (`piece_lists['k'][0]`). -/
def b_king_index_of (b : Board) : Int := (b.piece_lists Piece.k).headD 0

/-- The two piece-scan loops of `evaluate_position`. -/
def eval_scan (b : Board) : EvalState :=
  let piece_lists := b.piece_lists
  let w_king_ring := KING_DELTAS.map (fun delta => w_king_index_of b + delta)
  let b_king_ring := KING_DELTAS.map (fun delta => b_king_index_of b + delta)
  let st := WHITE_PIECES.foldl (fun st piece =>
    (piece_lists piece).foldl (fun st index =>
      eval_white_piece b.board b_king_ring st piece index) st) EvalState.zero
  BLACK_PIECES.foldl (fun st piece =>
    (piece_lists piece).foldl (fun st index =>
      eval_black_piece b.board w_king_ring st piece index) st) st

/-- White pawn-shield penalty (evaluation.py lines 392-407). -/
def shield_white (bd : List Sq) (w_king_index : Int) : Int :=
  let king_file := w_king_index % 10
  let king_rank := w_king_index / 10
  if king_rank = 9 then
    [king_file - 1, king_file, king_file + 1].foldl (fun acc file =>
      let ideal_square_occupier := squareAt bd (80 + file)
      let pushed_square_occupier := squareAt bd (70 + file)
      if ideal_square_occupier ≠ Sq.pc Piece.P then
        if pushed_square_occupier ≠ Sq.pc Piece.P then acc + 25 else acc + 15
      else acc) 0
  else 0

/-- Black pawn-shield penalty (evaluation.py lines 410-425). -/
def shield_black (bd : List Sq) (b_king_index : Int) : Int :=
  let king_file := b_king_index % 10
  let king_rank := b_king_index / 10
  if king_rank = 2 then
    [king_file - 1, king_file, king_file + 1].foldl (fun acc file =>
      let ideal_square_occupier := squareAt bd (30 + file)
      let pushed_square_occupier := squareAt bd (40 + file)
      if ideal_square_occupier ≠ Sq.pc Piece.p then
        if pushed_square_occupier ≠ Sq.pc Piece.p then acc + 25 else acc + 15
      else acc) 0
  else 0

/-- The mobility adjustment of `evaluate_position` (evaluation.py line 434):
`2 * (w_mobility - b_mobility)`. -/
def mobility_adjustment (b : Board) : Int :=
  2 * ((eval_scan b).w_mobility - (eval_scan b).b_mobility)

/-- `evaluate_position`: the final assembly (evaluation.py lines 427-447).
Python's IEEE-double arithmetic is modelled with exact rationals; none of the
verified statements depend on float rounding. -/
def evaluate_position (position : Board) : ℚ :=
  let st := eval_scan position
  let game_phase := min st.game_phase 24
  let phase_frac : ℚ := (game_phase : ℚ) / (24 : ℚ)
  let w_interp_eval : ℚ :=
    (st.w_mg_eval : ℚ) * phase_frac + (st.w_eg_eval : ℚ) * (1 - phase_frac)
  let b_interp_eval : ℚ :=
    (st.b_mg_eval : ℚ) * phase_frac + (st.b_eg_eval : ℚ) * (1 - phase_frac)
  let w_king_safety_penalty :=
    shield_white position.board (w_king_index_of position) +
      pstAt KING_ATTACK_PENALTIES (min st.b_king_attack_score 9)
  let b_king_safety_penalty :=
    shield_black position.board (b_king_index_of position) +
      pstAt KING_ATTACK_PENALTIES (min st.w_king_attack_score 9)
  let w_tapered_king_penalty : ℚ := (w_king_safety_penalty : ℚ) * phase_frac
  let b_tapered_king_penalty : ℚ := (b_king_safety_penalty : ℚ) * phase_frac
  let king_safety_adjustment := b_tapered_king_penalty - w_tapered_king_penalty
  (w_interp_eval - b_interp_eval) + (mobility_adjustment position : ℚ) +
    king_safety_adjustment

/-- `evaluate_position` in explicit state-passing form: the source method
reads the `Board` and performs no writes, so the translated transition
returns the board unchanged together with the score. -/
def evaluate_position_st (position : Board) : Board × ℚ :=
  (position, evaluate_position position)

/-! ### Search-layer fragments (backend/engine.py)

The inner search's mutable machinery (node counters, wall-clock time checks)
is not observable in the properties verified here: time is modelled as an
unexhausted budget (the `time.time()` guard never fires) and the counters are
dropped. -/

/-- Python float scores: finite values (exact rationals here) and the two
infinities used as initial alpha-beta bounds (`INFINITY = float('inf')`). -/
inductive Score where
  | ninf
  | fin (x : ℚ)
  | inf
deriving DecidableEq, Repr

/-- Float `<=` on scores. -/
def Score.ble : Score → Score → Bool
  | .ninf, _ => true
  | _, .inf => true
  | .fin a, .fin b => a ≤ b
  | _, _ => false

/-- Float `max` (`max(a, b)` returns `a` when `a >= b`). -/
def Score.max (a b : Score) : Score := if Score.ble a b then b else a

/-- Float `min`. -/
def Score.min (a b : Score) : Score := if Score.ble a b then a else b

/-- `PIECE_VALUES` from backend/engine.py (MVV-LVA values, in pawns).  The
source's float literals `3.3` / `3.2` are modelled as exact rationals. -/
def PIECE_VALUES : Piece → ℚ
  | .k => 10 | .q => 9 | .r => 5 | .b => 33 / 10 | .n => 16 / 5 | .p => 1
  | _ => 0

/-- `HISTORY_OUTER_INDICES` from backend/engine.py. -/
def HISTORY_OUTER_INDICES : Piece → Nat
  | .P => 0 | .N => 1 | .B => 2 | .R => 3 | .Q => 4 | .K => 5
  | .p => 6 | .n => 7 | .b => 8 | .r => 9 | .q => 10 | .k => 11

/-- Python `==` between two `Move` objects.  The `Move` class defines no
equality method, so `==` falls back to object identity; every comparison the
search performs (`move == hash_move`, `move in killer_table[depth]`,
`best_move_last_depth in legal_moves`) compares a move freshly constructed by
`generate_moves` against a move stored from an *earlier* generator call, and
two such objects are never identical.  Those comparisons therefore always
evaluate to `False`, which is what this function returns. -/
def pyMoveEq : Move → Move → Bool := fun _ _ => false

/-- `DELTA` (quiescence delta-pruning margin). -/
def DELTA : ℚ := 100

/-- `Search.score_move`: move-ordering score.  `killer_table` and
`history_table` are the `Search` instance's tables, passed explicitly. -/
def score_move (killer_table : Nat → List (Option Move))
    (history_table : Nat → Int → Int) (move : Move) (depth : Nat)
    (hash_move : Option Move) : ℚ :=
  if (match hash_move with
      | some hm => pyMoveEq move hm
      | none => false) then 2000
  else if move.piece_captured.isSome then
    let victim_value := PIECE_VALUES ((move.piece_captured.getD Piece.p).lower)
    let attacker_value := PIECE_VALUES (move.moving_piece.lower)
    1000 + victim_value * 10 - attacker_value
  else if (killer_table depth).any (fun k =>
      match k with
      | some km => pyMoveEq move km
      | none => false) then 900
  else
    (history_table (HISTORY_OUTER_INDICES move.moving_piece)
      move.destination_index : ℚ)

/-- A transposition-table slot flag. -/
inductive TTFlag where
  | EXACT
  | LOWERBOUND
  | UPPERBOUND
deriving DecidableEq, Repr

/-- A transposition-table entry (the dict written at backend/engine.py lines
454-462 / 592-600; `best_move` is the optional `'best_move'` key). -/
structure TTEntry where
  hash : Nat
  evalValue : Score
  depth : Nat
  flag : TTFlag
  age : Nat
  best_move : Option Move
deriving DecidableEq, Repr

/-- The TT replacement decision of `Search.minimax` (backend/engine.py lines
441-451, identically 579-589): write iff the slot is empty, or the stored
entry is from an older search cycle, or the new depth is at least the stored
depth. -/
def should_write (tt_entry : Option TTEntry) (search_cycle : Nat)
    (depth : Nat) : Bool :=
  match tt_entry with
  | none => true
  | some e =>
      if e.age < search_cycle then true
      else if depth ≥ e.depth then true
      else false

/-- The resulting slot content after the store step (lines 453-464 / 591-602):
the new entry if `should_write`, the previous content otherwise. -/
def tt_store (tt_entry : Option TTEntry) (search_cycle : Nat) (depth : Nat)
    (new_entry : TTEntry) : Option TTEntry :=
  if should_write tt_entry search_cycle depth then some new_entry else tt_entry

/-- The terminal (no-legal-moves, in-check) score of `Search.minimax`
(backend/engine.py lines 252-256): the side to move is checkmated.
`search_root` invokes `minimax` on the root's children with `ply=0`
(lines 194, 215). -/
def minimax_terminal_score (color_to_play : Color) (ply : Nat) : Int :=
  if color_to_play = Color.white then -99999 + (ply : Int) else 99999 - (ply : Int)

/-- The delta-pruning test of `quiescence_search` for the maximizer
(backend/engine.py lines 667-673). -/
def delta_prune_white (stand_pat_eval : ℚ) (alpha : Score) (check_count : Nat)
    (move : Move) : Bool :=
  if check_count = 0 ∧ move.promotion_piece.isNone then
    let attacker_value := PIECE_VALUES (move.moving_piece.lower)
    let victim_value := PIECE_VALUES ((move.piece_captured.getD Piece.p).lower)
    let material_gain := (victim_value - attacker_value) * 100
    ¬ Score.ble alpha (Score.fin (stand_pat_eval + DELTA + material_gain))
  else false

/-- The delta-pruning test for the minimizer (lines 695-701). -/
def delta_prune_black (stand_pat_eval : ℚ) (beta : Score) (check_count : Nat)
    (move : Move) : Bool :=
  if check_count = 0 ∧ move.promotion_piece.isNone then
    let attacker_value := PIECE_VALUES (move.moving_piece.lower)
    let victim_value := PIECE_VALUES ((move.piece_captured.getD Piece.p).lower)
    let material_gain := (victim_value - attacker_value) * 100
    ¬ Score.ble (Score.fin (stand_pat_eval - DELTA - material_gain)) beta
  else false

mutual

/-- `Search.quiescence_search` (backend/engine.py lines 608-717).  The call
`legal_moves, check_count = generate_moves(current_position)` is embedded as
the pair `(generate_moves ..., check_count_of ...)` that the caller expects
(move_generator.py as shipped returns only the list, see claim C1); the
`keys` argument feeds `make_move`'s hash bookkeeping. -/
def quiescence_search (keys : ZobristKeys)
    (killer_table : Nat → List (Option Move))
    (history_table : Nat → Int → Int) (current_position : Board)
    (alpha beta : Score) (color_to_play : Color) (ply : Nat)
    (q_depth : Nat) (max_depth : Nat) : Score :=
  -- STEP 1: BASE CASES & MOVE GENERATION
  let legal_moves := generate_moves current_position
  let check_count := check_count_of current_position
  if legal_moves.length = 0 then
    if check_count > 0 then
      if current_position.color_to_play = Color.white then
        Score.fin (-99999 + (ply : ℚ))
      else Score.fin (99999 - (ply : ℚ))
    else Score.fin 0
  else
    -- with no checks, keep only captures and promotions
    let legal_moves :=
      if check_count = 0 then
        legal_moves.filter (fun move =>
          move.piece_captured.isSome || move.promotion_piece.isSome)
      else legal_moves
    if check_count = 0 ∧ legal_moves.length = 0 then
      Score.fin (evaluate_position current_position)
    else
      -- second base case: hardcoded depth limit reached
      if h : q_depth ≥ max_depth then Score.fin (evaluate_position current_position)
      else
        -- STEP 2: "STAND-PAT" PRUNING
        let stand_pat_eval := evaluate_position current_position
        if color_to_play = Color.white then
          if Score.ble beta (Score.fin stand_pat_eval) then Score.fin stand_pat_eval
          else
            q_after_stand_pat keys killer_table history_table current_position
              (Score.max alpha (Score.fin stand_pat_eval)) beta color_to_play
              ply q_depth max_depth legal_moves check_count stand_pat_eval
              (by omega)
        else
          if Score.ble (Score.fin stand_pat_eval) alpha then Score.fin stand_pat_eval
          else
            q_after_stand_pat keys killer_table history_table current_position
              alpha (Score.min beta (Score.fin stand_pat_eval)) color_to_play
              ply q_depth max_depth legal_moves check_count stand_pat_eval
              (by omega)

termination_by (4 * (max_depth - q_depth) + 3, 0)
decreasing_by
  all_goals simp_wf
  all_goals first
  | (apply Prod.Lex.left; omega)
  | (apply Prod.Lex.right; omega)

/-- The continuation of `quiescence_search` after the stand-pat window update
(lines 655-717): third base case, MVV-LVA ordering, and the capture /
check-evasion loop. -/
def q_after_stand_pat (keys : ZobristKeys)
    (killer_table : Nat → List (Option Move))
    (history_table : Nat → Int → Int) (current_position : Board)
    (alpha beta : Score) (color_to_play : Color) (ply : Nat)
    (q_depth : Nat) (max_depth : Nat) (legal_moves : List Move)
    (check_count : Nat) (stand_pat_eval : ℚ)
    (h : q_depth < max_depth) : Score :=
  if legal_moves.length = 0 then Score.fin stand_pat_eval
  else
    let sorted := legal_moves.mergeSort (fun a b =>
      Score.ble (Score.fin (score_move killer_table history_table b 0 none))
        (Score.fin (score_move killer_table history_table a 0 none)))
    if color_to_play = Color.white then
      q_loop_white keys killer_table history_table current_position alpha beta
        ply q_depth max_depth check_count stand_pat_eval
        (Score.fin stand_pat_eval) sorted h
    else
      q_loop_black keys killer_table history_table current_position alpha beta
        ply q_depth max_depth check_count stand_pat_eval
        (Score.fin stand_pat_eval) sorted h

termination_by (4 * (max_depth - q_depth) + 2, 0)
decreasing_by
  all_goals simp_wf
  all_goals first
  | (apply Prod.Lex.left; omega)
  | (apply Prod.Lex.right; omega)

/-- The maximizer's quiescence move loop (lines 663-689). -/
def q_loop_white (keys : ZobristKeys)
    (killer_table : Nat → List (Option Move))
    (history_table : Nat → Int → Int) (current_position : Board)
    (alpha beta : Score) (ply : Nat) (q_depth : Nat) (max_depth : Nat)
    (check_count : Nat) (stand_pat_eval : ℚ) (max_eval : Score)
    (moves : List Move) (h : q_depth < max_depth) : Score :=
  match moves with
  | [] => max_eval
  | move :: rest =>
      if delta_prune_white stand_pat_eval alpha check_count move then
        q_loop_white keys killer_table history_table current_position alpha beta
          ply q_depth max_depth check_count stand_pat_eval max_eval rest h
      else
        let returned_eval := quiescence_search keys killer_table history_table
          (make_move keys move current_position) alpha beta Color.black
          (ply + 1) (q_depth + 1) max_depth
        let max_eval := Score.max max_eval returned_eval
        let alpha := Score.max alpha returned_eval
        if Score.ble beta alpha then max_eval
        else
          q_loop_white keys killer_table history_table current_position alpha
            beta ply q_depth max_depth check_count stand_pat_eval max_eval rest h

termination_by (4 * (max_depth - q_depth) + 1, moves.length)
decreasing_by
  all_goals simp_wf
  all_goals first
  | (apply Prod.Lex.left; omega)
  | (apply Prod.Lex.right; omega)

/-- The minimizer's quiescence move loop (lines 691-717). -/
def q_loop_black (keys : ZobristKeys)
    (killer_table : Nat → List (Option Move))
    (history_table : Nat → Int → Int) (current_position : Board)
    (alpha beta : Score) (ply : Nat) (q_depth : Nat) (max_depth : Nat)
    (check_count : Nat) (stand_pat_eval : ℚ) (min_eval : Score)
    (moves : List Move) (h : q_depth < max_depth) : Score :=
  match moves with
  | [] => min_eval
  | move :: rest =>
      if delta_prune_black stand_pat_eval beta check_count move then
        q_loop_black keys killer_table history_table current_position alpha beta
          ply q_depth max_depth check_count stand_pat_eval min_eval rest h
      else
        let returned_eval := quiescence_search keys killer_table history_table
          (make_move keys move current_position) alpha beta Color.white
          (ply + 1) (q_depth + 1) max_depth
        let min_eval := Score.min min_eval returned_eval
        let beta := Score.min beta returned_eval
        if Score.ble beta alpha then min_eval
        else
          q_loop_black keys killer_table history_table current_position alpha
            beta ply q_depth max_depth check_count stand_pat_eval min_eval rest h

termination_by (4 * (max_depth - q_depth) + 1, moves.length)
decreasing_by
  all_goals simp_wf
  all_goals first
  | (apply Prod.Lex.left; omega)
  | (apply Prod.Lex.right; omega)

end

/-! ### The board invariant and the facts the generator guarantees -/

/-- The structural invariant of reachable `Board` states (spec §3): a 120-cell
mailbox, piece lists mirroring the mailbox, castling rights implying king and
rook on their home squares, and a valid en passant square (empty, with the
captured-in-passing pawn beside it). -/
def Inv (b : Board) : Prop :=
  b.board.length = 120 ∧
  (∀ x : Piece, ∀ i ∈ b.piece_lists x, squareAt b.board i = Sq.pc x) ∧
  (∀ x : Piece, ∀ j : Nat, j < 120 →
    squareAt b.board (j : Int) = Sq.pc x → (j : Int) ∈ b.piece_lists x) ∧
  (b.white_castle_kingside = true →
    squareAt b.board 95 = Sq.pc Piece.K ∧ squareAt b.board 98 = Sq.pc Piece.R) ∧
  (b.white_castle_queenside = true →
    squareAt b.board 95 = Sq.pc Piece.K ∧ squareAt b.board 91 = Sq.pc Piece.R) ∧
  (b.black_castle_kingside = true →
    squareAt b.board 25 = Sq.pc Piece.k ∧ squareAt b.board 28 = Sq.pc Piece.r) ∧
  (b.black_castle_queenside = true →
    squareAt b.board 25 = Sq.pc Piece.k ∧ squareAt b.board 21 = Sq.pc Piece.r) ∧
  (∀ e ∈ b.en_passant_square.toList,
    squareAt b.board e = Sq.empty ∧
    (b.color_to_play = Color.white → squareAt b.board (e + 10) = Sq.pc Piece.p) ∧
    (b.color_to_play = Color.black → squareAt b.board (e - 10) = Sq.pc Piece.P))

/-- The "time capsule" of a move generated in position `b` snapshots `b`'s
game-state fields. -/
def CapsuleFacts (b : Board) (m : Move) : Prop :=
  m.previous_white_castle_kingside = b.white_castle_kingside ∧
  m.previous_white_castle_queenside = b.white_castle_queenside ∧
  m.previous_black_castle_kingside = b.black_castle_kingside ∧
  m.previous_black_castle_queenside = b.black_castle_queenside ∧
  m.previous_en_passant_square = b.en_passant_square ∧
  m.previous_half_move = b.half_move ∧
  m.previous_color_to_play = b.color_to_play ∧
  m.previous_zobrist_hash = b.zobrist_hash

/-- Facts about a generated non-special move: the moving piece stands on the
source square; the destination holds exactly the recorded capture (or is
empty); a promotion piece differs from the pawn and from the capture. -/
def NormalFacts (b : Board) (m : Move) : Prop :=
  m.is_en_passant = false ∧ m.is_castle = false ∧
  squareAt b.board m.source_index = Sq.pc m.moving_piece ∧
  (m.piece_captured = none → squareAt b.board m.destination_index = Sq.empty) ∧
  (∀ cap ∈ m.piece_captured.toList,
    squareAt b.board m.destination_index = Sq.pc cap ∧ cap ≠ m.moving_piece) ∧
  (∀ promo ∈ m.promotion_piece.toList,
    promo ≠ m.moving_piece ∧ ∀ cap ∈ m.piece_captured.toList, promo ≠ cap)

/-- Facts about a generated en passant capture. -/
def EpFacts (b : Board) (m : Move) : Prop :=
  m.is_en_passant = true ∧ m.is_castle = false ∧ m.promotion_piece = none ∧
  squareAt b.board m.source_index = Sq.pc m.moving_piece ∧
  squareAt b.board m.destination_index = Sq.empty ∧
  ((b.color_to_play = Color.white ∧ m.moving_piece = Piece.P ∧
    m.piece_captured = some Piece.p ∧
    squareAt b.board (m.destination_index + 10) = Sq.pc Piece.p) ∨
   (b.color_to_play = Color.black ∧ m.moving_piece = Piece.p ∧
    m.piece_captured = some Piece.P ∧
    squareAt b.board (m.destination_index - 10) = Sq.pc Piece.P))

/-- Facts about a generated castling move: which of the four castles it is,
with king and rook on their home squares and the path empty. -/
def CastleFacts (b : Board) (m : Move) : Prop :=
  m.is_castle = true ∧ m.is_en_passant = false ∧ m.piece_captured = none ∧
  m.promotion_piece = none ∧
  ((m.destination_index = 97 ∧ m.source_index = 95 ∧
    m.moving_piece = Piece.K ∧ squareAt b.board 95 = Sq.pc Piece.K ∧
    squareAt b.board 96 = Sq.empty ∧ squareAt b.board 97 = Sq.empty ∧
    squareAt b.board 98 = Sq.pc Piece.R) ∨
   (m.destination_index = 93 ∧ m.source_index = 95 ∧
    m.moving_piece = Piece.K ∧ squareAt b.board 95 = Sq.pc Piece.K ∧
    squareAt b.board 92 = Sq.empty ∧ squareAt b.board 93 = Sq.empty ∧
    squareAt b.board 94 = Sq.empty ∧ squareAt b.board 91 = Sq.pc Piece.R) ∨
   (m.destination_index = 27 ∧ m.source_index = 25 ∧
    m.moving_piece = Piece.k ∧ squareAt b.board 25 = Sq.pc Piece.k ∧
    squareAt b.board 26 = Sq.empty ∧ squareAt b.board 27 = Sq.empty ∧
    squareAt b.board 28 = Sq.pc Piece.r) ∨
   (m.destination_index = 23 ∧ m.source_index = 25 ∧
    m.moving_piece = Piece.k ∧ squareAt b.board 25 = Sq.pc Piece.k ∧
    squareAt b.board 22 = Sq.empty ∧ squareAt b.board 23 = Sq.empty ∧
    squareAt b.board 24 = Sq.empty ∧ squareAt b.board 21 = Sq.pc Piece.r))

/-- Everything the round-trip proof needs about a move produced by the
generator in position `b`. -/
def MoveFacts (b : Board) (m : Move) : Prop :=
  CapsuleFacts b m ∧ (NormalFacts b m ∨ EpFacts b m ∨ CastleFacts b m)

/-! ### Field-effect lemmas for the phases of `make_move` / `unmake_move` -/

/-- Game-state fields (everything except mailbox, piece lists and hash). -/
def sameState (b1 b2 : Board) : Prop :=
  b1.color_to_play = b2.color_to_play ∧
  b1.white_castle_kingside = b2.white_castle_kingside ∧
  b1.white_castle_queenside = b2.white_castle_queenside ∧
  b1.black_castle_kingside = b2.black_castle_kingside ∧
  b1.black_castle_queenside = b2.black_castle_queenside ∧
  b1.half_move = b2.half_move ∧ b1.ply = b2.ply ∧
  b1.en_passant_square = b2.en_passant_square ∧ b1.history = b2.history

/-! ### Claim C2: make/unmake round trip -/

def ALL_PIECES : List Piece :=
  [.K, .Q, .R, .B, .N, .P, .k, .q, .r, .b, .n, .p]

def EMPTY_ROW : List Sq := [oo, ee, ee, ee, ee, ee, ee, ee, ee, oo]

/-- White Ke1, Pa2, Pb2 against black Ke8 (a reachable K+2P vs K ending). -/
def C2_MAILBOX : List Sq :=
  BORDER_ROW ++ BORDER_ROW ++
  [oo, ee, ee, ee, ee, Sq.pc Piece.k, ee, ee, ee, oo] ++
  EMPTY_ROW ++ EMPTY_ROW ++ EMPTY_ROW ++ EMPTY_ROW ++ EMPTY_ROW ++
  [oo, Sq.pc Piece.P, Sq.pc Piece.P, ee, ee, ee, ee, ee, ee, oo] ++
  [oo, ee, ee, ee, ee, Sq.pc Piece.K, ee, ee, ee, oo] ++
  BORDER_ROW ++ BORDER_ROW

def C2board : Board :=
  board_from keys0 C2_MAILBOX Color.white false false false false none

/-- The pawn advance a2a3 in `C2board`. -/
def C2move : Move := mkMove C2board Piece.P 81 71 none false false none

/-- The en passant key contribution of an optional ep square (0 when absent). -/
def epk (keys : ZobristKeys) : Option Int → Nat
  | some e => keys.ep_keys (to64 e % 8)
  | none => 0

/-- Step 1 of `compute_hash` as a function of the piece-lists table. -/
def plFold (keys : ZobristKeys) (pl : Piece → List Int) : Nat :=
  PIECE_ORDER.foldl (fun acc pt => plHash keys pt (pl pt) acc) 0

/-- The example board with a nonzero color key. -/
def C3board : Board :=
  board_from keysC C2_MAILBOX Color.white false false false false none

/-- The pawn advance a2a3 in `C3board`. -/
def C3move : Move := mkMove C3board Piece.P 81 71 none false false none

/-! ### Claims C1, C7, C10: fixtures and search-layer facts -/

/-- Mate-in-1 fixture: white Kg6 and Ra1 against black Kh8; Ra1-a8 mates. -/
def MATEB_MAILBOX : List Sq :=
  BORDER_ROW ++ BORDER_ROW ++
  [oo, ee, ee, ee, ee, ee, ee, ee, Sq.pc Piece.k, oo] ++
  EMPTY_ROW ++
  [oo, ee, ee, ee, ee, ee, ee, Sq.pc Piece.K, ee, oo] ++
  EMPTY_ROW ++ EMPTY_ROW ++ EMPTY_ROW ++ EMPTY_ROW ++
  [oo, Sq.pc Piece.R, ee, ee, ee, ee, ee, ee, ee, oo] ++
  BORDER_ROW ++ BORDER_ROW

def MATEB : Board :=
  board_from keys0 MATEB_MAILBOX Color.white false false false false none

/-- The mating rook lift a1-a8 in `MATEB`. -/
def mateMove : Move := mkMove MATEB Piece.R 91 21 none false false none

/-- The mated position after a1-a8. -/
def MATE_AFTER : Board := make_move keys0 mateMove MATEB

/-- In-check fixture: white Ke1 checked by the rook on e8; black Ka8. -/
def CHECKB_MAILBOX : List Sq :=
  BORDER_ROW ++ BORDER_ROW ++
  [oo, Sq.pc Piece.k, ee, ee, ee, Sq.pc Piece.r, ee, ee, ee, oo] ++
  EMPTY_ROW ++ EMPTY_ROW ++ EMPTY_ROW ++ EMPTY_ROW ++ EMPTY_ROW ++ EMPTY_ROW ++
  [oo, ee, ee, ee, ee, Sq.pc Piece.K, ee, ee, ee, oo] ++
  BORDER_ROW ++ BORDER_ROW

def CHECKB : Board :=
  board_from keys0 CHECKB_MAILBOX Color.white false false false false none

/-! ### Claim C5: the mobility term -/

/-- spec-modelled: the mobility the claim describes for one piece — every
empty square a slider, knight *or king* could attack (rays stop at the first
non-empty square or the border). -/
def spec_piece_mobility (bd : List Sq) (piece : Piece) (index : Int) : Int :=
  if piece.lower = Piece.q then (slider_scan_all bd [] 0 index QUEEN_DELTAS).1
  else if piece.lower = Piece.r then (slider_scan_all bd [] 0 index ROOK_DELTAS).1
  else if piece.lower = Piece.b then (slider_scan_all bd [] 0 index BISHOP_DELTAS).1
  else if piece.lower = Piece.n then (knight_scan bd [] 0 index KNIGHT_DELTAS).1
  else if piece.lower = Piece.k then (knight_scan bd [] 0 index KING_DELTAS).1
  else 0

/-- spec-modelled: one side's total mobility under the claim's words. -/
def spec_mobility (b : Board) (side : List Piece) : Int :=
  (side.map (fun piece =>
    ((b.piece_lists piece).map (spec_piece_mobility b.board piece)).sum)).sum

/-- spec-modelled: the claim's mobility adjustment,
`2 * (white_mobility - black_mobility)` with the king term included. -/
def spec_mobility_adjustment (b : Board) : Int :=
  2 * (spec_mobility b WHITE_PIECES - spec_mobility b BLACK_PIECES)

/-- What the source actually counts for one piece: sliders and knights only;
kings contribute no mobility. -/
def code_piece_mobility (bd : List Sq) (piece : Piece) (index : Int) : Int :=
  if piece.lower = Piece.q then (slider_scan_all bd [] 0 index QUEEN_DELTAS).1
  else if piece.lower = Piece.r then (slider_scan_all bd [] 0 index ROOK_DELTAS).1
  else if piece.lower = Piece.b then (slider_scan_all bd [] 0 index BISHOP_DELTAS).1
  else if piece.lower = Piece.n then (knight_scan bd [] 0 index KNIGHT_DELTAS).1
  else 0

/-- One side's total mobility as the source counts it. -/
def code_mobility (b : Board) (side : List Piece) : Int :=
  (side.map (fun piece =>
    ((b.piece_lists piece).map (code_piece_mobility b.board piece)).sum)).sum

/-- Two lone kings, white on e1 and black on a8. -/
def KINGSB_MAILBOX : List Sq :=
  BORDER_ROW ++ BORDER_ROW ++
  [oo, Sq.pc Piece.k, ee, ee, ee, ee, ee, ee, ee, oo] ++
  EMPTY_ROW ++ EMPTY_ROW ++ EMPTY_ROW ++ EMPTY_ROW ++ EMPTY_ROW ++ EMPTY_ROW ++
  [oo, ee, ee, ee, ee, Sq.pc Piece.K, ee, ee, ee, oo] ++
  BORDER_ROW ++ BORDER_ROW

def KINGSB : Board :=
  board_from keys0 KINGSB_MAILBOX Color.white false false false false none

/-! ### Basic lemmas about the mailbox and piece-list primitives -/

/-- A cell read that is not out-of-bounds pins the index into the live range
of the list. -/
theorem squareAt_ne_oob {bd : List Sq} {i : Int} (h : squareAt bd i ≠ Sq.oob) :
    0 ≤ i ∧ i < 120 ∧ i.toNat < bd.length := by
  unfold squareAt at h
  by_cases hb : 0 ≤ i ∧ i < 120
  · refine ⟨hb.1, hb.2, ?_⟩
    by_contra hlen
    push_neg at hlen
    rw [if_pos hb, List.getD_eq_default _ _ hlen] at h
    exact h rfl
  · rw [if_neg hb] at h
    exact absurd rfl h

/-- `setSquare` preserves the mailbox length. -/
theorem length_setSquare (bd : List Sq) (i : Int) (v : Sq) :
    (setSquare bd i v).length = bd.length := by
  unfold setSquare
  split <;> simp

/-- Reading back the square just written. -/
theorem squareAt_setSquare_self {bd : List Sq} {i : Int} (v : Sq)
    (h0 : 0 ≤ i) (h1 : i < 120) (h2 : i.toNat < bd.length) :
    squareAt (setSquare bd i v) i = v := by
  unfold squareAt setSquare
  rw [if_pos h0, if_pos ⟨h0, h1⟩, List.getD_eq_getElem?_getD,
    List.getElem?_set_self h2]
  rfl

/-- Writing one square does not change any other square. -/
theorem squareAt_setSquare_of_ne {bd : List Sq} {i j : Int} (v : Sq)
    (h : j ≠ i) : squareAt (setSquare bd i v) j = squareAt bd j := by
  unfold squareAt setSquare
  by_cases h0 : 0 ≤ i
  · rw [if_pos h0]
    by_cases hj : 0 ≤ j ∧ j < 120
    · rw [if_pos hj, if_pos hj, List.getD_eq_getElem?_getD,
        List.getD_eq_getElem?_getD, List.getElem?_set_ne]
      omega
    · rw [if_neg hj, if_neg hj]
  · rw [if_neg h0]

/-- Mailboxes of the same length (≤ 120 cells) that agree on every read are
equal. -/
theorem board_eq_of_squareAt {bd1 bd2 : List Sq}
    (hlen : bd1.length = bd2.length) (hle : bd1.length ≤ 120)
    (h : ∀ j : Int, squareAt bd1 j = squareAt bd2 j) : bd1 = bd2 := by
  apply List.ext_getElem?
  intro n
  by_cases hn : n < bd1.length
  · have hj := h n
    unfold squareAt at hj
    have hb : (0 : Int) ≤ (n : Int) ∧ (n : Int) < 120 := by
      constructor <;> omega
    rw [if_pos hb, if_pos hb] at hj
    simp only [Int.toNat_natCast] at hj
    rw [List.getD_eq_getElem?_getD, List.getD_eq_getElem?_getD] at hj
    rcases h1 : bd1[n]? with _ | a
    · rw [List.getElem?_eq_none_iff] at h1; omega
    rcases h2 : bd2[n]? with _ | c
    · rw [List.getElem?_eq_none_iff] at h2; omega
    rw [h1, h2] at hj
    simpa using hj
  · rw [List.getElem?_eq_none_iff.mpr (by omega),
      List.getElem?_eq_none_iff.mpr (by omega)]

/-- `plUpdate` read back. -/
theorem plUpdate_apply (pl : Piece → List Int) (x : Piece)
    (f : List Int → List Int) (y : Piece) :
    plUpdate pl x f y = if y = x then f (pl x) else pl y := rfl

/-! ### Multiset bookkeeping lemmas for the piece-list round trip -/

/-! ### Multiset bookkeeping lemmas for the piece-list round trip -/

/-- Lists with equal element counts are equal as multisets. -/
theorem list_count_ms {l1 l2 : List Int}
    (h : ∀ a : Int, List.count a l1 = List.count a l2) :
    (l1 : Multiset Int) = (l2 : Multiset Int) :=
  Multiset.coe_eq_coe.mpr (List.perm_iff_count.mpr h)

theorem ms_erase_append {l : List Int} {s : Int} (hs : s ∈ l) :
    ((l.erase s ++ [s] : List Int) : Multiset Int) = (l : Multiset Int) := by
  apply list_count_ms
  intro a
  have hc : 0 < List.count s l := List.count_pos_iff.mpr hs
  by_cases has : a = s
  · subst has
    rw [List.count_append, List.count_erase_self, List.count_singleton]
    simp
    omega
  · rw [List.count_append, List.count_erase_of_ne has, List.count_singleton]
    simp [Ne.symm has]

theorem ms_append_erase (l : List Int) (d : Int) :
    (((l ++ [d]).erase d : List Int) : Multiset Int) = (l : Multiset Int) := by
  apply list_count_ms
  intro a
  by_cases had : a = d
  · subst had
    rw [List.count_erase_self, List.count_append, List.count_singleton]
    simp
  · rw [List.count_erase_of_ne had, List.count_append, List.count_singleton]
    simp [Ne.symm had]

theorem ms_move_roundtrip {l : List Int} {s : Int} (d : Int) (hs : s ∈ l) :
    ((((l.erase s ++ [d]) ++ [s]).erase d : List Int) : Multiset Int) =
      (l : Multiset Int) := by
  apply list_count_ms
  intro a
  have hc : 0 < List.count s l := List.count_pos_iff.mpr hs
  by_cases had : a = d <;> by_cases has : a = s
  · subst had; subst has
    rw [List.count_erase_self, List.count_append, List.count_append,
      List.count_erase_self, List.count_singleton]
    simp
    omega
  · subst had
    rw [List.count_erase_self, List.count_append, List.count_append,
      List.count_erase_of_ne has, List.count_singleton, List.count_singleton]
    simp [Ne.symm has]
  · subst has
    rw [List.count_erase_of_ne had, List.count_append, List.count_append,
      List.count_erase_self, List.count_singleton, List.count_singleton]
    simp [Ne.symm had]
    omega
  · rw [List.count_erase_of_ne had, List.count_append, List.count_append,
      List.count_erase_of_ne has, List.count_singleton, List.count_singleton]
    simp [Ne.symm has, Ne.symm had]

theorem ms_castle_king_roundtrip {l : List Int} {s : Int} (d : Int)
    (hs : s ∈ l) :
    (((((l ++ [d]).erase s).erase d) ++ [s] : List Int) : Multiset Int) =
      (l : Multiset Int) := by
  apply list_count_ms
  intro a
  have hc : 0 < List.count s l := List.count_pos_iff.mpr hs
  by_cases had : a = d <;> by_cases has : a = s
  · subst had; subst has
    rw [List.count_append, List.count_erase_self, List.count_erase_self,
      List.count_append, List.count_singleton]
    simp
    omega
  · subst had
    rw [List.count_append, List.count_erase_self,
      List.count_erase_of_ne (by exact fun h => has h), List.count_append,
      List.count_singleton, List.count_singleton]
    simp [Ne.symm has]
  · subst has
    rw [List.count_append, List.count_erase_of_ne had, List.count_erase_self,
      List.count_append, List.count_singleton, List.count_singleton]
    simp [Ne.symm had]
    omega
  · rw [List.count_append, List.count_erase_of_ne had,
      List.count_erase_of_ne has, List.count_append, List.count_singleton,
      List.count_singleton]
    simp [Ne.symm has, Ne.symm had]

/-- The castling rook's list: erase its home square, append the landing
square; unmake erases the landing square and appends home again. -/
theorem ms_rook_roundtrip {l : List Int} {rf : Int} (rt : Int) (h : rf ∈ l) :
    (((((l.erase rf) ++ [rt]).erase rt) ++ [rf] : List Int) : Multiset Int) =
      (l : Multiset Int) := by
  apply list_count_ms
  intro a
  have hc : 0 < List.count rf l := List.count_pos_iff.mpr h
  by_cases hat : a = rt <;> by_cases haf : a = rf
  · subst hat; subst haf
    rw [List.count_append, List.count_erase_self, List.count_append,
      List.count_erase_self, List.count_singleton]
    simp
    omega
  · subst hat
    rw [List.count_append, List.count_erase_self, List.count_append,
      List.count_erase_of_ne haf, List.count_singleton, List.count_singleton]
    simp [Ne.symm haf]
  · subst haf
    rw [List.count_append, List.count_erase_of_ne hat, List.count_append,
      List.count_erase_self, List.count_singleton, List.count_singleton]
    simp [Ne.symm hat]
    omega
  · rw [List.count_append, List.count_erase_of_ne hat, List.count_append,
      List.count_erase_of_ne haf, List.count_singleton, List.count_singleton]
    simp [Ne.symm hat, Ne.symm haf]

/-- Under the invariant, piece-list membership is mailbox content. -/
theorem Inv.mem_pl_iff {b : Board} (h : Inv b) (x : Piece) (i : Int) :
    i ∈ b.piece_lists x ↔ squareAt b.board i = Sq.pc x := by
  constructor
  · exact fun hm => h.2.1 x i hm
  · intro hsq
    have hb : 0 ≤ i ∧ i < 120 ∧ i.toNat < b.board.length :=
      squareAt_ne_oob (by rw [hsq]; exact fun hx => Sq.noConfusion hx)
    have : ((i.toNat : Nat) : Int) = i := by omega
    rw [← this] at hsq ⊢
    exact h.2.2.1 x i.toNat (by omega) hsq

theorem make_normal_state (keys : ZobristKeys) (m : Move) (b : Board) :
    sameState (make_normal keys m b) b := by
  cases hc : m.piece_captured <;> cases hp : m.promotion_piece <;>
    simp [make_normal, hc, hp, sameState]

theorem make_ep_state (keys : ZobristKeys) (m : Move) (b : Board) :
    sameState (make_ep keys m b) b := by
  by_cases h : b.color_to_play = Color.white <;> simp [make_ep, h, sameState]

theorem make_castle_block_state (keys : ZobristKeys) (m : Move)
    (kp rp : Piece) (rf rt : Int) (b : Board) :
    sameState (make_castle_block keys m kp rp rf rt b) b :=
  ⟨rfl, rfl, rfl, rfl, rfl, rfl, rfl, rfl, rfl⟩

theorem sameState_refl (b : Board) : sameState b b :=
  ⟨rfl, rfl, rfl, rfl, rfl, rfl, rfl, rfl, rfl⟩

theorem make_castle_state (keys : ZobristKeys) (m : Move) (b : Board) :
    sameState (make_castle keys m b) b := by
  unfold make_castle
  split
  · exact make_castle_block_state ..
  split
  · exact make_castle_block_state ..
  split
  · exact make_castle_block_state ..
  split
  · exact make_castle_block_state ..
  exact sameState_refl b

theorem make_phase1_state (keys : ZobristKeys) (m : Move) (b : Board) :
    sameState (make_phase1 keys m b) b := by
  unfold make_phase1
  split
  · exact make_normal_state ..
  split
  · exact make_ep_state ..
  exact make_castle_state ..

theorem make_phase1_board (keys : ZobristKeys) (m : Move) (b : Board) :
    (make_phase1 keys m b).board =
      (if ¬ m.is_en_passant ∧ ¬ m.is_castle then make_normal keys m b
       else if m.is_en_passant then make_ep keys m b
       else make_castle keys m b).board := rfl

theorem make_ply_color_board (keys : ZobristKeys) (b : Board) :
    (make_ply_color keys b).board = b.board := by
  by_cases h : b.color_to_play = Color.white <;> simp [make_ply_color, h]

theorem make_ply_color_pl (keys : ZobristKeys) (b : Board) :
    (make_ply_color keys b).piece_lists = b.piece_lists := by
  by_cases h : b.color_to_play = Color.white <;> simp [make_ply_color, h]

theorem make_half_move_board (m : Move) (b : Board) :
    (make_half_move m b).board = b.board := by
  unfold make_half_move; split <;> rfl

theorem make_half_move_pl (m : Move) (b : Board) :
    (make_half_move m b).piece_lists = b.piece_lists := by
  unfold make_half_move; split <;> rfl

theorem xor_ep_key_board (keys : ZobristKeys) (b : Board) :
    (xor_ep_key keys b).board = b.board := by
  cases h : b.en_passant_square <;> simp [xor_ep_key, h]

theorem xor_ep_key_pl (keys : ZobristKeys) (b : Board) :
    (xor_ep_key keys b).piece_lists = b.piece_lists := by
  cases h : b.en_passant_square <;> simp [xor_ep_key, h]

theorem make_new_ep_board (m : Move) (b : Board) :
    (make_new_ep m b).board = b.board := by
  unfold make_new_ep; repeat' split
  all_goals rfl

theorem make_new_ep_pl (m : Move) (b : Board) :
    (make_new_ep m b).piece_lists = b.piece_lists := by
  unfold make_new_ep; repeat' split
  all_goals rfl

theorem xor_castle_key_board (keys : ZobristKeys) (b : Board) :
    (xor_castle_key keys b).board = b.board := rfl

theorem xor_castle_key_pl (keys : ZobristKeys) (b : Board) :
    (xor_castle_key keys b).piece_lists = b.piece_lists := rfl

theorem make_castle_rights_board (m : Move) (b : Board) :
    (make_castle_rights m b).board = b.board := by
  unfold make_castle_rights; split_ifs <;> simp_all [apply_ite Board.board]

theorem make_castle_rights_pl (m : Move) (b : Board) :
    (make_castle_rights m b).piece_lists = b.piece_lists := by
  unfold make_castle_rights; split_ifs <;> simp_all [apply_ite Board.piece_lists]

/-- The phase-2 steps of `make_move` change no mailbox cell and no piece
list. -/
theorem make_move_board_pl (keys : ZobristKeys) (m : Move) (b : Board) :
    (make_move keys m b).board = (make_phase1 keys m b).board ∧
    (make_move keys m b).piece_lists = (make_phase1 keys m b).piece_lists := by
  unfold make_move
  constructor <;>
    simp only [make_castle_rights_board, make_castle_rights_pl,
      xor_castle_key_board, xor_castle_key_pl, make_new_ep_board,
      make_new_ep_pl, xor_ep_key_board, xor_ep_key_pl, make_half_move_board,
      make_half_move_pl, make_ply_color_board, make_ply_color_pl]

theorem make_ply_color_ply (keys : ZobristKeys) (b : Board) :
    (make_ply_color keys b).ply = b.ply + 1 := by
  by_cases h : b.color_to_play = Color.white <;> simp [make_ply_color, h]

theorem make_ply_color_history (keys : ZobristKeys) (b : Board) :
    (make_ply_color keys b).history = b.history := by
  by_cases h : b.color_to_play = Color.white <;> simp [make_ply_color, h]

theorem make_half_move_ply (m : Move) (b : Board) :
    (make_half_move m b).ply = b.ply := by
  unfold make_half_move; split <;> rfl

theorem make_half_move_history (m : Move) (b : Board) :
    (make_half_move m b).history = b.history := by
  unfold make_half_move; split <;> rfl

theorem xor_ep_key_ply (keys : ZobristKeys) (b : Board) :
    (xor_ep_key keys b).ply = b.ply := by
  cases h : b.en_passant_square <;> simp [xor_ep_key, h]

theorem xor_ep_key_history (keys : ZobristKeys) (b : Board) :
    (xor_ep_key keys b).history = b.history := by
  cases h : b.en_passant_square <;> simp [xor_ep_key, h]

theorem make_new_ep_ply (m : Move) (b : Board) :
    (make_new_ep m b).ply = b.ply := by
  unfold make_new_ep; repeat' split
  all_goals rfl

theorem make_new_ep_history (m : Move) (b : Board) :
    (make_new_ep m b).history = b.history := by
  unfold make_new_ep; repeat' split
  all_goals rfl

theorem xor_castle_key_ply (keys : ZobristKeys) (b : Board) :
    (xor_castle_key keys b).ply = b.ply := rfl

theorem xor_castle_key_history (keys : ZobristKeys) (b : Board) :
    (xor_castle_key keys b).history = b.history := rfl

theorem make_castle_rights_ply (m : Move) (b : Board) :
    (make_castle_rights m b).ply = b.ply := by
  unfold make_castle_rights; split_ifs <;> simp_all [apply_ite Board.ply]

theorem make_castle_rights_history (m : Move) (b : Board) :
    (make_castle_rights m b).history = b.history := by
  unfold make_castle_rights; split_ifs <;> simp_all [apply_ite Board.history]

/-- `make_move` increments the ply counter. -/
theorem make_move_ply (keys : ZobristKeys) (m : Move) (b : Board) :
    (make_move keys m b).ply = b.ply + 1 := by
  unfold make_move
  simp only [make_castle_rights_ply, xor_castle_key_ply, make_new_ep_ply,
    xor_ep_key_ply, make_half_move_ply, make_ply_color_ply]
  exact congrArg (· + 1) (make_phase1_state keys m b).2.2.2.2.2.2.1

/-- `make_move` appends the new hash to the history. -/
theorem make_move_history (keys : ZobristKeys) (m : Move) (b : Board) :
    (make_move keys m b).history =
      b.history ++ [(make_move keys m b).zobrist_hash] := by
  conv_lhs => unfold make_move
  conv_rhs => rw [show (make_move keys m b).zobrist_hash =
    (make_move keys m b).zobrist_hash from rfl]
  unfold make_move
  simp only [make_castle_rights_history, xor_castle_key_history,
    make_new_ep_history, xor_ep_key_history, make_half_move_history,
    make_ply_color_history]
  rw [(make_phase1_state keys m b).2.2.2.2.2.2.2.2]

theorem unmake_normal_state (m : Move) (b : Board) :
    sameState (unmake_normal m b) b := by
  cases hc : m.piece_captured <;> cases hp : m.promotion_piece <;>
    simp [unmake_normal, hc, hp, sameState]

theorem unmake_ep_state (m : Move) (b : Board) :
    sameState (unmake_ep m b) b := by
  by_cases h : m.moving_piece = Piece.P <;> simp [unmake_ep, h, sameState]

theorem unmake_castle_block_state (m : Move) (kp rp : Piece)
    (rf rt kh : Int) (b : Board) :
    sameState (unmake_castle_block m kp rp rf rt kh b) b :=
  ⟨rfl, rfl, rfl, rfl, rfl, rfl, rfl, rfl, rfl⟩

theorem unmake_castle_state (m : Move) (b : Board) :
    sameState (unmake_castle m b) b := by
  unfold unmake_castle
  split
  · exact unmake_castle_block_state ..
  split
  · exact unmake_castle_block_state ..
  split
  · exact unmake_castle_block_state ..
  split
  · exact unmake_castle_block_state ..
  exact sameState_refl b

theorem unmake_phase1_state (m : Move) (b : Board) :
    sameState
      (if ¬ m.is_en_passant ∧ ¬ m.is_castle then unmake_normal m b
       else if m.is_en_passant then unmake_ep m b
       else unmake_castle m b) b := by
  split
  · exact unmake_normal_state ..
  split
  · exact unmake_ep_state ..
  exact unmake_castle_state ..

/-- `unmake_move` restores every game-state field from the move's time
capsule, decrements the ply, and pops the history. -/
theorem unmake_move_fields (m : Move) (b : Board) :
    (unmake_move m b).color_to_play = m.previous_color_to_play ∧
    (unmake_move m b).white_castle_kingside = m.previous_white_castle_kingside ∧
    (unmake_move m b).white_castle_queenside = m.previous_white_castle_queenside ∧
    (unmake_move m b).black_castle_kingside = m.previous_black_castle_kingside ∧
    (unmake_move m b).black_castle_queenside = m.previous_black_castle_queenside ∧
    (unmake_move m b).half_move = m.previous_half_move ∧
    (unmake_move m b).en_passant_square = m.previous_en_passant_square ∧
    (unmake_move m b).zobrist_hash = m.previous_zobrist_hash ∧
    (unmake_move m b).ply = b.ply - 1 ∧
    (unmake_move m b).history = b.history.dropLast := by
  refine ⟨rfl, rfl, rfl, rfl, rfl, rfl, rfl, rfl, ?_, ?_⟩
  · exact congrArg (· - 1) (unmake_phase1_state m b).2.2.2.2.2.2.1
  · exact congrArg List.dropLast (unmake_phase1_state m b).2.2.2.2.2.2.2.2

/-- `unmake_move` leaves the mailbox and piece lists of its phase-1 branch. -/
theorem unmake_move_board_pl (m : Move) (b : Board) :
    (unmake_move m b).board =
      (if ¬ m.is_en_passant ∧ ¬ m.is_castle then unmake_normal m b
       else if m.is_en_passant then unmake_ep m b
       else unmake_castle m b).board ∧
    (unmake_move m b).piece_lists =
      (if ¬ m.is_en_passant ∧ ¬ m.is_castle then unmake_normal m b
       else if m.is_en_passant then unmake_ep m b
       else unmake_castle m b).piece_lists :=
  ⟨rfl, rfl⟩

theorem squareAt_pc_bounds {bd : List Sq} {i : Int} {x : Piece}
    (h : squareAt bd i = Sq.pc x) :
    0 ≤ i ∧ i < 120 ∧ i.toNat < bd.length :=
  squareAt_ne_oob (by rw [h]; exact fun hx => Sq.noConfusion hx)

theorem squareAt_empty_bounds {bd : List Sq} {i : Int}
    (h : squareAt bd i = Sq.empty) :
    0 ≤ i ∧ i < 120 ∧ i.toNat < bd.length :=
  squareAt_ne_oob (by rw [h]; exact fun hx => Sq.noConfusion hx)

/-- Round trip of the mailbox and piece lists for a non-special move. -/
theorem roundtrip_normal (keys : ZobristKeys) {b : Board} {m : Move}
    (hInv : Inv b) (hf : NormalFacts b m) :
    (unmake_move m (make_move keys m b)).board = b.board ∧
    ∀ x : Piece,
      ((unmake_move m (make_move keys m b)).piece_lists x : Multiset Int) =
        (b.piece_lists x : Multiset Int) := by
  obtain ⟨hep, hcl, hs, hcapnone, hcapsome, hpromo⟩ := hf
  set b1 := make_move keys m b with hb1
  have hflag : (¬ (m.is_en_passant : Bool) ∧ ¬ (m.is_castle : Bool)) := by
    rw [hep, hcl]; exact ⟨Bool.false_ne_true, Bool.false_ne_true⟩
  have hub : (unmake_move m b1).board = (unmake_normal m b1).board := by
    rw [(unmake_move_board_pl m b1).1, if_pos hflag]
  have hup : (unmake_move m b1).piece_lists = (unmake_normal m b1).piece_lists := by
    rw [(unmake_move_board_pl m b1).2, if_pos hflag]
  have hmb : b1.board = (make_normal keys m b).board := by
    rw [hb1, (make_move_board_pl keys m b).1]
    unfold make_phase1
    rw [if_pos hflag]
  have hmp : b1.piece_lists = (make_normal keys m b).piece_lists := by
    rw [hb1, (make_move_board_pl keys m b).2]
    unfold make_phase1
    rw [if_pos hflag]
  have hsb := squareAt_pc_bounds hs
  constructor
  · -- the mailbox
    rw [hub]
    -- contents of the destination square before the move
    have hdfact : squareAt b.board m.destination_index =
        (match m.piece_captured with
         | some cap => Sq.pc cap
         | none => Sq.empty) := by
      cases hcap : m.piece_captured with
      | none => exact hcapnone hcap
      | some c => exact (hcapsome c (by simp [hcap])).1
    have hdb : 0 ≤ m.destination_index ∧ m.destination_index < 120 ∧
        m.destination_index.toNat < b.board.length := by
      cases hcap : m.piece_captured with
      | none => exact squareAt_empty_bounds (by rw [hdfact, hcap])
      | some c => exact squareAt_pc_bounds (x := c) (by rw [hdfact, hcap])
    have hsd : m.source_index ≠ m.destination_index := by
      intro hE
      rw [hE, hdfact] at hs
      cases hcap : m.piece_captured with
      | none => rw [hcap] at hs; exact Sq.noConfusion hs
      | some c =>
          rw [hcap] at hs
          exact (hcapsome c (by simp [hcap])).2 (by injection hs)
    -- the board after unmake_normal, cell by cell
    have hlen1 : b1.board.length = b.board.length := by
      rw [hmb]
      cases hcap : m.piece_captured <;> cases hprm : m.promotion_piece <;>
        simp [make_normal, hcap, hprm, length_setSquare]
    have hlen2 : (unmake_normal m b1).board.length = b.board.length := by
      cases hcap : m.piece_captured <;>
        simp [unmake_normal, hcap, length_setSquare, hlen1]
    apply board_eq_of_squareAt hlen2 (by rw [hlen2, hInv.1])
    intro j
    have hb1board : ∀ j : Int,
        squareAt b1.board j =
          if j = m.destination_index then
            (match m.promotion_piece with
             | some promo => Sq.pc promo
             | none => Sq.pc m.moving_piece)
          else if j = m.source_index then Sq.empty
          else squareAt b.board j := by
      intro j
      rw [hmb]
      by_cases hjd : j = m.destination_index <;>
        by_cases hjs : j = m.source_index
      · exact absurd (hjs ▸ hjd) hsd
      · cases hprm : m.promotion_piece with
        | none =>
            cases hcap : m.piece_captured <;>
              · simp only [make_normal, hcap, hprm]
                rw [if_pos hjd, hjd, squareAt_setSquare_self _ hdb.1 hdb.2.1
                  (by rw [length_setSquare]; exact hdb.2.2)]
        | some pr =>
            cases hcap : m.piece_captured <;>
              · simp only [make_normal, hcap, hprm]
                rw [if_pos hjd, hjd, squareAt_setSquare_self _ hdb.1 hdb.2.1
                  (by rw [length_setSquare, length_setSquare]; exact hdb.2.2)]
      · cases hprm : m.promotion_piece with
        | none =>
            cases hcap : m.piece_captured <;>
              · simp only [make_normal, hcap, hprm]
                rw [if_neg hjd, if_pos hjs,
                  squareAt_setSquare_of_ne _ (hjs ▸ hjd), hjs,
                  squareAt_setSquare_self _ hsb.1 hsb.2.1 hsb.2.2]
        | some pr =>
            cases hcap : m.piece_captured <;>
              · simp only [make_normal, hcap, hprm]
                rw [if_neg hjd, if_pos hjs,
                  squareAt_setSquare_of_ne _ (hjs ▸ hjd),
                  squareAt_setSquare_of_ne _ (hjs ▸ hjd), hjs,
                  squareAt_setSquare_self _ hsb.1 hsb.2.1 hsb.2.2]
      · cases hprm : m.promotion_piece with
        | none =>
            cases hcap : m.piece_captured <;>
              · simp only [make_normal, hcap, hprm]
                rw [if_neg hjd, if_neg hjs, squareAt_setSquare_of_ne _ hjd,
                  squareAt_setSquare_of_ne _ hjs]
        | some pr =>
            cases hcap : m.piece_captured <;>
              · simp only [make_normal, hcap, hprm]
                rw [if_neg hjd, if_neg hjs, squareAt_setSquare_of_ne _ hjd,
                  squareAt_setSquare_of_ne _ hjd,
                  squareAt_setSquare_of_ne _ hjs]
    -- now the unmake layer
    have hunb : (unmake_normal m b1).board =
        setSquare (setSquare b1.board m.source_index (Sq.pc m.moving_piece))
          m.destination_index
          (match m.piece_captured with
           | some cap => Sq.pc cap
           | none => Sq.empty) := by
      cases hcap : m.piece_captured <;>
        cases hprm : m.promotion_piece <;>
          simp [unmake_normal, hcap, hprm]
    rw [hunb]
    by_cases hjd : j = m.destination_index
    · rw [hjd, squareAt_setSquare_self _ hdb.1 hdb.2.1
        (by rw [length_setSquare, hlen1]; exact hdb.2.2), hdfact]
    · rw [squareAt_setSquare_of_ne _ hjd]
      by_cases hjs : j = m.source_index
      · rw [hjs, squareAt_setSquare_self _ hsb.1 hsb.2.1
          (by rw [hlen1]; exact hsb.2.2), hs]
      · rw [squareAt_setSquare_of_ne _ hjs, hb1board, if_neg hjd, if_neg hjs]
  · -- the piece lists
    intro x
    rw [hup]
    have hsmem : m.source_index ∈ b.piece_lists m.moving_piece :=
      (hInv.mem_pl_iff m.moving_piece m.source_index).mpr hs
    cases hcap : m.piece_captured with
    | none =>
        cases hprm : m.promotion_piece with
        | none =>
            simp only [unmake_normal, make_normal, hcap, hprm, hmp, plUpdate]
            by_cases hxm : x = m.moving_piece
            · simp only [if_pos hxm, if_pos rfl, hxm]
              exact ms_move_roundtrip _ hsmem
            · simp [hxm]
        | some pr =>
            have hprm_facts := hpromo pr (by simp [hprm])
            have hprmne : pr ≠ m.moving_piece := hprm_facts.1
            simp only [unmake_normal, make_normal, hcap, hprm, hmp, plUpdate]
            by_cases hxm : x = m.moving_piece
            · simp only [hxm, if_pos rfl, if_neg (Ne.symm hprmne),
                if_neg hprmne]
              exact ms_erase_append hsmem
            · by_cases hxp : x = pr
              · simp only [if_neg hxm, hxp, if_pos rfl,
                  if_neg (fun h => hxm (hxp ▸ h)), if_neg hprmne]
                exact ms_append_erase _ _
              · simp [hxm, hxp]
    | some c =>
        have hcfacts := hcapsome c (by simp [hcap])
        have hcm : c ≠ m.moving_piece := hcfacts.2
        have hdmem : m.destination_index ∈ b.piece_lists c :=
          (hInv.mem_pl_iff c m.destination_index).mpr hcfacts.1
        cases hprm : m.promotion_piece with
        | none =>
            simp only [unmake_normal, make_normal, hcap, hprm, hmp, plUpdate]
            by_cases hxm : x = m.moving_piece
            · simp only [hxm, if_pos rfl, if_neg (Ne.symm hcm)]
              exact ms_move_roundtrip _ hsmem
            · by_cases hxc : x = c
              · simp only [if_neg hxm, hxc, if_pos rfl, if_neg hcm]
                exact ms_erase_append hdmem
              · simp [hxm, hxc]
        | some pr =>
            have hprm_facts := hpromo pr (by simp [hprm])
            have hprmne : pr ≠ m.moving_piece := hprm_facts.1
            have hprc : pr ≠ c := hprm_facts.2 c (by simp [hcap])
            simp only [unmake_normal, make_normal, hcap, hprm, hmp, plUpdate]
            by_cases hxm : x = m.moving_piece
            · simp only [hxm, if_pos rfl, if_neg (Ne.symm hcm),
                if_neg (Ne.symm hprmne)]
              exact ms_erase_append hsmem
            · by_cases hxc : x = c
              · simp only [if_neg hxm, hxc, if_pos rfl, if_neg hcm,
                  if_neg (Ne.symm hprc)]
                exact ms_erase_append hdmem
              · by_cases hxp : x = pr
                · simp only [if_neg hxm, if_neg hxc, hxp, if_pos rfl,
                    if_neg hprmne, if_neg hprc]
                  exact ms_append_erase _ _
                · simp [hxm, hxc, hxp]

/-- Round trip of the mailbox and piece lists for an en passant capture. -/
theorem roundtrip_ep (keys : ZobristKeys) {b : Board} {m : Move}
    (hInv : Inv b) (hf : EpFacts b m) :
    (unmake_move m (make_move keys m b)).board = b.board ∧
    ∀ x : Piece,
      ((unmake_move m (make_move keys m b)).piece_lists x : Multiset Int) =
        (b.piece_lists x : Multiset Int) := by
  obtain ⟨hep, hcl, hprm, hs, hd, hside⟩ := hf
  set b1 := make_move keys m b with hb1
  have hflag : ¬ (¬ (m.is_en_passant : Bool) ∧ ¬ (m.is_castle : Bool)) := by
    rw [hep]; simp
  have hub : (unmake_move m b1).board = (unmake_ep m b1).board := by
    rw [(unmake_move_board_pl m b1).1, if_neg hflag, if_pos (by rw [hep])]
  have hup : (unmake_move m b1).piece_lists = (unmake_ep m b1).piece_lists := by
    rw [(unmake_move_board_pl m b1).2, if_neg hflag, if_pos (by rw [hep])]
  have hmb : b1.board = (make_ep keys m b).board := by
    rw [hb1, (make_move_board_pl keys m b).1]
    unfold make_phase1
    rw [if_neg hflag, if_pos (by rw [hep])]
  have hmp : b1.piece_lists = (make_ep keys m b).piece_lists := by
    rw [hb1, (make_move_board_pl keys m b).2]
    unfold make_phase1
    rw [if_neg hflag, if_pos (by rw [hep])]
  have hsb := squareAt_pc_bounds hs
  have hdb := squareAt_empty_bounds hd
  have hsd : m.source_index ≠ m.destination_index := by
    intro hE; rw [hE, hd] at hs; exact Sq.noConfusion hs
  rcases hside with ⟨hw, hmpc, hcap, hcp⟩ | ⟨hw, hmpc, hcap, hcp⟩
  · -- white captures en passant; the captured pawn sits on destination + 10
    have hcb := squareAt_pc_bounds hcp
    have hmbE : b1.board =
        setSquare (setSquare (setSquare b.board m.source_index Sq.empty)
          m.destination_index (Sq.pc Piece.P))
          (m.destination_index + 10) Sq.empty := by
      rw [hmb]; simp [make_ep, hw, hcap, hmpc]
    have hmpE : b1.piece_lists =
        plUpdate (plUpdate (plUpdate b.piece_lists Piece.P
          (fun l => l.erase m.source_index)) Piece.P
          (fun l => l ++ [m.destination_index])) Piece.p
          (fun l => l.erase (m.destination_index + 10)) := by
      rw [hmp]; simp [make_ep, hw, hcap, hmpc]
    have hlen1 : b1.board.length = b.board.length := by
      rw [hmbE]; simp [length_setSquare]
    constructor
    · rw [hub]
      have hunE : (unmake_ep m b1).board =
          setSquare (setSquare (setSquare b1.board m.source_index
            (Sq.pc Piece.P)) m.destination_index Sq.empty)
            (m.destination_index + 10) (Sq.pc Piece.p) := by
        simp [unmake_ep, hmpc]
      have hlen2 : (unmake_ep m b1).board.length = b.board.length := by
        rw [hunE]; simp [length_setSquare, hlen1]
      apply board_eq_of_squareAt hlen2 (by rw [hlen2, hInv.1])
      intro j
      rw [hunE]
      by_cases hjc : j = m.destination_index + 10
      · rw [hjc, squareAt_setSquare_self _ (by omega) hcb.2.1
          (by simp only [length_setSquare]; rw [hlen1]; exact hcb.2.2), hcp]
      · rw [squareAt_setSquare_of_ne _ hjc]
        by_cases hjd : j = m.destination_index
        · rw [hjd, squareAt_setSquare_self _ hdb.1 hdb.2.1
            (by simp only [length_setSquare]; rw [hlen1]; exact hdb.2.2), hd]
        · rw [squareAt_setSquare_of_ne _ hjd]
          by_cases hjs : j = m.source_index
          · rw [hjs, squareAt_setSquare_self _ hsb.1 hsb.2.1
              (by rw [hlen1]; exact hsb.2.2), ← hmpc, hs]
          · rw [squareAt_setSquare_of_ne _ hjs, hmbE,
              squareAt_setSquare_of_ne _ hjc,
              squareAt_setSquare_of_ne _ hjd,
              squareAt_setSquare_of_ne _ hjs]
    · intro x
      rw [hup]
      have hsmem : m.source_index ∈ b.piece_lists Piece.P := by
        rw [← hmpc]
        exact (hInv.mem_pl_iff m.moving_piece m.source_index).mpr hs
      have hcmem : m.destination_index + 10 ∈ b.piece_lists Piece.p :=
        (hInv.mem_pl_iff Piece.p _).mpr hcp
      have hunp : (unmake_ep m b1).piece_lists =
          plUpdate (plUpdate (plUpdate b1.piece_lists Piece.P
            (fun l => l ++ [m.source_index])) Piece.P
            (fun l => l.erase m.destination_index)) Piece.p
            (fun l => l ++ [m.destination_index + 10]) := by
        simp [unmake_ep, hmpc, hcap]
      rw [hunp, hmpE]
      by_cases hxP : x = Piece.P
      · subst hxP
        simp only [plUpdate, reduceIte]
        exact ms_move_roundtrip _ hsmem
      · by_cases hxp : x = Piece.p
        · subst hxp
          simp only [plUpdate, reduceIte]
          exact ms_erase_append hcmem
        · simp [plUpdate, hxP, hxp]
  · -- black captures en passant; the captured pawn sits on destination - 10
    have hcb := squareAt_pc_bounds hcp
    have hwne : b.color_to_play ≠ Color.white := by rw [hw]; decide
    have hmne : m.moving_piece ≠ Piece.P := by rw [hmpc]; decide
    have hmbE : b1.board =
        setSquare (setSquare (setSquare b.board m.source_index Sq.empty)
          m.destination_index (Sq.pc Piece.p))
          (m.destination_index - 10) Sq.empty := by
      rw [hmb]; simp [make_ep, hwne, hcap, hmpc]
    have hmpE : b1.piece_lists =
        plUpdate (plUpdate (plUpdate b.piece_lists Piece.p
          (fun l => l.erase m.source_index)) Piece.p
          (fun l => l ++ [m.destination_index])) Piece.P
          (fun l => l.erase (m.destination_index - 10)) := by
      rw [hmp]; simp [make_ep, hwne, hcap, hmpc]
    have hlen1 : b1.board.length = b.board.length := by
      rw [hmbE]; simp [length_setSquare]
    constructor
    · rw [hub]
      have hunE : (unmake_ep m b1).board =
          setSquare (setSquare (setSquare b1.board m.source_index
            (Sq.pc Piece.p)) m.destination_index Sq.empty)
            (m.destination_index - 10) (Sq.pc Piece.P) := by
        simp [unmake_ep, hmne, hmpc]
      have hlen2 : (unmake_ep m b1).board.length = b.board.length := by
        rw [hunE]; simp [length_setSquare, hlen1]
      apply board_eq_of_squareAt hlen2 (by rw [hlen2, hInv.1])
      intro j
      rw [hunE]
      by_cases hjc : j = m.destination_index - 10
      · rw [hjc, squareAt_setSquare_self _ hcb.1 hcb.2.1
          (by simp only [length_setSquare]; rw [hlen1]; exact hcb.2.2), hcp]
      · rw [squareAt_setSquare_of_ne _ hjc]
        by_cases hjd : j = m.destination_index
        · rw [hjd, squareAt_setSquare_self _ hdb.1 hdb.2.1
            (by simp only [length_setSquare]; rw [hlen1]; exact hdb.2.2), hd]
        · rw [squareAt_setSquare_of_ne _ hjd]
          by_cases hjs : j = m.source_index
          · rw [hjs, squareAt_setSquare_self _ hsb.1 hsb.2.1
              (by rw [hlen1]; exact hsb.2.2), ← hmpc, hs]
          · rw [squareAt_setSquare_of_ne _ hjs, hmbE,
              squareAt_setSquare_of_ne _ hjc,
              squareAt_setSquare_of_ne _ hjd,
              squareAt_setSquare_of_ne _ hjs]
    · intro x
      rw [hup]
      have hsmem : m.source_index ∈ b.piece_lists Piece.p := by
        rw [← hmpc]
        exact (hInv.mem_pl_iff m.moving_piece m.source_index).mpr hs
      have hcmem : m.destination_index - 10 ∈ b.piece_lists Piece.P :=
        (hInv.mem_pl_iff Piece.P _).mpr hcp
      have hunp : (unmake_ep m b1).piece_lists =
          plUpdate (plUpdate (plUpdate b1.piece_lists Piece.p
            (fun l => l ++ [m.source_index])) Piece.p
            (fun l => l.erase m.destination_index)) Piece.P
            (fun l => l ++ [m.destination_index - 10]) := by
        simp [unmake_ep, hmne, hmpc, hcap]
      rw [hunp, hmpE]
      by_cases hxp : x = Piece.p
      · subst hxp
        simp only [plUpdate, reduceIte]
        exact ms_move_roundtrip _ hsmem
      · by_cases hxP : x = Piece.P
        · subst hxP
          simp only [plUpdate, reduceIte]
          exact ms_erase_append hcmem
        · simp [plUpdate, hxP, hxp]

/-- Round trip of one castling block: the king returns home, the rook returns
to its corner, and everything else is untouched. -/
theorem roundtrip_castle_block (keys : ZobristKeys) {b : Board} (m : Move)
    (kp rp : Piece) (rf rt kh : Int) (hInv : Inv b)
    (hkr : kp ≠ rp)
    (hsrc : m.source_index = kh)
    (hs : squareAt b.board kh = Sq.pc kp)
    (hrf : squareAt b.board rf = Sq.pc rp)
    (hrt : squareAt b.board rt = Sq.empty)
    (hd : squareAt b.board m.destination_index = Sq.empty)
    (hne1 : m.destination_index ≠ kh) (hne2 : m.destination_index ≠ rf)
    (hne3 : m.destination_index ≠ rt) (hne4 : kh ≠ rf) (hne5 : kh ≠ rt)
    (hne6 : rf ≠ rt) :
    (unmake_castle_block m kp rp rf rt kh
        (make_castle_block keys m kp rp rf rt b)).board = b.board ∧
    ∀ x : Piece,
      ((unmake_castle_block m kp rp rf rt kh
          (make_castle_block keys m kp rp rf rt b)).piece_lists x :
        Multiset Int) = (b.piece_lists x : Multiset Int) := by
  have hsb := squareAt_pc_bounds hs
  have hrfb := squareAt_pc_bounds hrf
  have hrtb := squareAt_empty_bounds hrt
  have hdb := squareAt_empty_bounds hd
  set b1 := make_castle_block keys m kp rp rf rt b with hb1
  have hmbE : b1.board =
      setSquare (setSquare (setSquare (setSquare b.board m.destination_index
        (Sq.pc kp)) m.source_index Sq.empty) rf Sq.empty) rt (Sq.pc rp) := rfl
  have hmpE : b1.piece_lists =
      plUpdate (plUpdate (plUpdate (plUpdate b.piece_lists kp
        (fun l => l ++ [m.destination_index])) kp
        (fun l => l.erase m.source_index)) rp
        (fun l => l.erase rf)) rp (fun l => l ++ [rt]) := rfl
  have hlen1 : b1.board.length = b.board.length := by
    rw [hmbE]; simp [length_setSquare]
  constructor
  · have hunE : (unmake_castle_block m kp rp rf rt kh b1).board =
        setSquare (setSquare (setSquare (setSquare b1.board
          m.destination_index Sq.empty) rt Sq.empty) kh (Sq.pc kp)) rf
          (Sq.pc rp) := rfl
    have hlen2 : (unmake_castle_block m kp rp rf rt kh b1).board.length =
        b.board.length := by
      rw [hunE]; simp [length_setSquare, hlen1]
    apply board_eq_of_squareAt hlen2 (by rw [hlen2, hInv.1])
    intro j
    rw [hunE]
    by_cases hjrf : j = rf
    · rw [hjrf, squareAt_setSquare_self _ hrfb.1 hrfb.2.1
        (by simp only [length_setSquare]; rw [hlen1]; exact hrfb.2.2), hrf]
    · rw [squareAt_setSquare_of_ne _ hjrf]
      by_cases hjkh : j = kh
      · rw [hjkh, squareAt_setSquare_self _ hsb.1 hsb.2.1
          (by simp only [length_setSquare]; rw [hlen1]; exact hsb.2.2), hs]
      · rw [squareAt_setSquare_of_ne _ hjkh]
        by_cases hjrt : j = rt
        · rw [hjrt, squareAt_setSquare_self _ hrtb.1 hrtb.2.1
            (by simp only [length_setSquare]; rw [hlen1]; exact hrtb.2.2), hrt]
        · rw [squareAt_setSquare_of_ne _ hjrt]
          by_cases hjd : j = m.destination_index
          · rw [hjd, squareAt_setSquare_self _ hdb.1 hdb.2.1
              (by rw [hlen1]; exact hdb.2.2), hd]
          · rw [squareAt_setSquare_of_ne _ hjd, hmbE,
              squareAt_setSquare_of_ne _ hjrt,
              squareAt_setSquare_of_ne _ hjrf,
              squareAt_setSquare_of_ne _ (hsrc ▸ hjkh),
              squareAt_setSquare_of_ne _ hjd]
  · intro x
    have hsmem : kh ∈ b.piece_lists kp := (hInv.mem_pl_iff kp kh).mpr hs
    have hrfmem : rf ∈ b.piece_lists rp := (hInv.mem_pl_iff rp rf).mpr hrf
    have hunp : (unmake_castle_block m kp rp rf rt kh b1).piece_lists =
        plUpdate (plUpdate (plUpdate (plUpdate b1.piece_lists kp
          (fun l => l.erase m.destination_index)) rp
          (fun l => l.erase rt)) kp (fun l => l ++ [kh])) rp
          (fun l => l ++ [rf]) := rfl
    rw [hunp, hmpE]
    by_cases hxk : x = kp
    · subst hxk
      simp only [plUpdate, if_pos rfl, if_neg hkr, hsrc]
      exact ms_castle_king_roundtrip _ hsmem
    · by_cases hxr : x = rp
      · subst hxr
        simp only [plUpdate, if_pos rfl, if_neg (Ne.symm hkr)]
        exact ms_rook_roundtrip _ hrfmem
      · simp [plUpdate, hxk, hxr]

/-- Plumbing for one castling variant: route `make_move`/`unmake_move`
through the matching castle blocks and apply the block round trip. -/
theorem roundtrip_castle_case (keys : ZobristKeys) {b : Board} {m : Move}
    (hInv : Inv b) (kp rp : Piece) (rf rt kh : Int) (hkr : kp ≠ rp)
    (hcl : m.is_castle = true) (hep : m.is_en_passant = false)
    (hmc : make_castle keys m b = make_castle_block keys m kp rp rf rt b)
    (huc : ∀ b' : Board,
      unmake_castle m b' = unmake_castle_block m kp rp rf rt kh b')
    (hsrc : m.source_index = kh)
    (hs : squareAt b.board kh = Sq.pc kp)
    (hrf : squareAt b.board rf = Sq.pc rp)
    (hrt : squareAt b.board rt = Sq.empty)
    (hd : squareAt b.board m.destination_index = Sq.empty)
    (hne1 : m.destination_index ≠ kh) (hne2 : m.destination_index ≠ rf)
    (hne3 : m.destination_index ≠ rt) (hne4 : kh ≠ rf) (hne5 : kh ≠ rt)
    (hne6 : rf ≠ rt) :
    (unmake_move m (make_move keys m b)).board = b.board ∧
    ∀ x : Piece,
      ((unmake_move m (make_move keys m b)).piece_lists x : Multiset Int) =
        (b.piece_lists x : Multiset Int) := by
  set b1 := make_move keys m b with hb1
  have hflag : ¬ (¬ (m.is_en_passant : Bool) ∧ ¬ (m.is_castle : Bool)) := by
    rw [hcl]; simp
  have hub : (unmake_move m b1).board =
      (unmake_castle_block m kp rp rf rt kh b1).board := by
    rw [(unmake_move_board_pl m b1).1, if_neg hflag,
      if_neg (by rw [hep]; simp), huc]
  have hup : (unmake_move m b1).piece_lists =
      (unmake_castle_block m kp rp rf rt kh b1).piece_lists := by
    rw [(unmake_move_board_pl m b1).2, if_neg hflag,
      if_neg (by rw [hep]; simp), huc]
  have hmb : b1.board = (make_castle_block keys m kp rp rf rt b).board := by
    rw [hb1, (make_move_board_pl keys m b).1]
    unfold make_phase1
    rw [if_neg hflag, if_neg (by rw [hep]; simp), hmc]
  have hmp : b1.piece_lists =
      (make_castle_block keys m kp rp rf rt b).piece_lists := by
    rw [hb1, (make_move_board_pl keys m b).2]
    unfold make_phase1
    rw [if_neg hflag, if_neg (by rw [hep]; simp), hmc]
  have key := roundtrip_castle_block keys m kp rp rf rt kh hInv hkr hsrc hs
    hrf hrt hd hne1 hne2 hne3 hne4 hne5 hne6
  constructor
  · rw [hub]
    have hcg : (unmake_castle_block m kp rp rf rt kh b1).board =
        (unmake_castle_block m kp rp rf rt kh
          (make_castle_block keys m kp rp rf rt b)).board := by
      simp only [unmake_castle_block]; rw [hmb]
    rw [hcg]; exact key.1
  · intro x
    rw [hup]
    have hcg : (unmake_castle_block m kp rp rf rt kh b1).piece_lists =
        (unmake_castle_block m kp rp rf rt kh
          (make_castle_block keys m kp rp rf rt b)).piece_lists := by
      simp only [unmake_castle_block]; rw [hmp]
    rw [hcg]; exact key.2 x

/-- Castling moves round-trip: board restored exactly, piece lists as
multisets. -/
theorem roundtrip_castle (keys : ZobristKeys) {b : Board} {m : Move}
    (hInv : Inv b) (hf : CastleFacts b m) :
    (unmake_move m (make_move keys m b)).board = b.board ∧
    ∀ x : Piece,
      ((unmake_move m (make_move keys m b)).piece_lists x : Multiset Int) =
        (b.piece_lists x : Multiset Int) := by
  obtain ⟨hcl, hep, _, _, hside⟩ := hf
  rcases hside with ⟨hdd, hsrc, _, hks, hrt, hde, hrf⟩ |
    ⟨hdd, hsrc, _, hks, _, hde, hrt, hrf⟩ |
    ⟨hdd, hsrc, _, hks, hrt, hde, hrf⟩ |
    ⟨hdd, hsrc, _, hks, _, hde, hrt, hrf⟩
  · exact roundtrip_castle_case keys hInv Piece.K Piece.R 98 96 95
      (by decide) hcl hep
      (by unfold make_castle; rw [if_pos hdd])
      (fun b' => by unfold unmake_castle; rw [if_pos hdd])
      hsrc hks hrf hrt (by rw [hdd]; exact hde)
      (by rw [hdd]; decide) (by rw [hdd]; decide) (by rw [hdd]; decide)
      (by decide) (by decide) (by decide)
  · exact roundtrip_castle_case keys hInv Piece.K Piece.R 91 94 95
      (by decide) hcl hep
      (by unfold make_castle
          rw [if_neg (by rw [hdd]; decide), if_pos hdd])
      (fun b' => by unfold unmake_castle
                    rw [if_neg (by rw [hdd]; decide), if_pos hdd])
      hsrc hks hrf hrt (by rw [hdd]; exact hde)
      (by rw [hdd]; decide) (by rw [hdd]; decide) (by rw [hdd]; decide)
      (by decide) (by decide) (by decide)
  · exact roundtrip_castle_case keys hInv Piece.k Piece.r 28 26 25
      (by decide) hcl hep
      (by unfold make_castle
          rw [if_neg (by rw [hdd]; decide), if_neg (by rw [hdd]; decide),
            if_pos hdd])
      (fun b' => by unfold unmake_castle
                    rw [if_neg (by rw [hdd]; decide),
                      if_neg (by rw [hdd]; decide), if_pos hdd])
      hsrc hks hrf hrt (by rw [hdd]; exact hde)
      (by rw [hdd]; decide) (by rw [hdd]; decide) (by rw [hdd]; decide)
      (by decide) (by decide) (by decide)
  · exact roundtrip_castle_case keys hInv Piece.k Piece.r 21 24 25
      (by decide) hcl hep
      (by unfold make_castle
          rw [if_neg (by rw [hdd]; decide), if_neg (by rw [hdd]; decide),
            if_neg (by rw [hdd]; decide), if_pos hdd])
      (fun b' => by unfold unmake_castle
                    rw [if_neg (by rw [hdd]; decide),
                      if_neg (by rw [hdd]; decide),
                      if_neg (by rw [hdd]; decide), if_pos hdd])
      hsrc hks hrf hrt (by rw [hdd]; exact hde)
      (by rw [hdd]; decide) (by rw [hdd]; decide) (by rw [hdd]; decide)
      (by decide) (by decide) (by decide)

/-! ### Generator inversion: facts about every generated move -/

/-- Mailbox lookup of an `enum` member. -/
theorem squareAt_enum {bd : List Sq} (hlen : bd.length = 120) {pr : Nat × Sq}
    (h : pr ∈ bd.enum) : squareAt bd (pr.1 : Int) = pr.2 := by
  rw [List.mem_enum_iff_getElem?] at h
  have hlt : pr.1 < bd.length := by
    by_contra hge
    rw [List.getElem?_eq_none (by omega)] at h
    exact Option.noConfusion h
  unfold squareAt
  rw [if_pos ⟨by exact_mod_cast Nat.zero_le _,
    by exact_mod_cast (show pr.1 < 120 by omega)⟩]
  simp [List.getD_eq_getElem?_getD, h]

/-- Non-sliding destinations are never out of bounds. -/
theorem mem_non_sliding {position : Board} {i d : Int} {deltas : List Int}
    (h : d ∈ non_sliding_moves position i deltas) :
    squareAt position.board d ≠ Sq.oob := by
  unfold non_sliding_moves at h
  rw [List.mem_filterMap] at h
  obtain ⟨delta, _, hd⟩ := h
  by_cases hc : squareAt position.board (i + delta) ≠ Sq.oob
  · rw [if_pos hc] at hd
    exact (Option.some.inj hd) ▸ hc
  · rw [if_neg hc] at hd
    exact Option.noConfusion hd

/-- Sliding-ray destinations are never out of bounds. -/
theorem mem_slideDir {bd : List Sq} {i d : Int} :
    ∀ {ds : List Int}, d ∈ slideDir bd i ds → squareAt bd d ≠ Sq.oob := by
  intro ds
  induction ds with
  | nil => intro h; simp [slideDir] at h
  | cons delta ds ih =>
      intro h
      have he : slideDir bd i (delta :: ds) =
          (if squareAt bd (i + delta) = Sq.oob then []
           else if squareAt bd (i + delta) = Sq.empty then
             (i + delta) :: slideDir bd i ds
           else [i + delta]) := rfl
      rw [he] at h
      by_cases h1 : squareAt bd (i + delta) = Sq.oob
      · rw [if_pos h1] at h; simp at h
      · rw [if_neg h1] at h
        by_cases h2 : squareAt bd (i + delta) = Sq.empty
        · rw [if_pos h2] at h
          rcases List.mem_cons.mp h with rfl | hmem
          · exact h1
          · exact ih hmem
        · rw [if_neg h2] at h
          rw [List.mem_singleton.mp h]
          exact h1

/-- Pawn advance destinations are empty squares. -/
theorem mem_pawnAdvances {bd : List Sq} {i d : Int} {home : Bool} :
    ∀ {ds : List Int}, d ∈ pawnAdvances bd i home ds →
      squareAt bd d = Sq.empty := by
  intro ds
  induction ds with
  | nil => intro h; simp [pawnAdvances] at h
  | cons delta ds ih =>
      intro h
      have he : pawnAdvances bd i home (delta :: ds) =
          (if squareAt bd (i + delta) ≠ Sq.empty then []
           else if home then (i + delta) :: pawnAdvances bd i home ds
           else [i + delta]) := rfl
      rw [he] at h
      by_cases h1 : squareAt bd (i + delta) ≠ Sq.empty
      · rw [if_pos h1] at h; simp at h
      · rw [if_neg h1] at h
        push_neg at h1
        by_cases h2 : home
        · rw [if_pos h2] at h
          rcases List.mem_cons.mp h with rfl | hmem
          · exact h1
          · exact ih hmem
        · rw [if_neg h2] at h
          rw [List.mem_singleton.mp h]
          exact h1

/-- Pawn attack destinations hold an enemy piece. -/
theorem mem_pawnAttacks {bd : List Sq} {i d : Int} {enemy : List Piece}
    {ds : List Int} (h : d ∈ pawnAttacks bd i enemy ds) :
    ∃ x, squareAt bd d = Sq.pc x ∧ x ∈ enemy := by
  unfold pawnAttacks at h
  rw [List.mem_filterMap] at h
  obtain ⟨delta, _, hd⟩ := h
  replace hd : (match squareAt bd (i + delta) with
      | Sq.pc x => if x ∈ enemy then some (i + delta) else none
      | _ => none) = some d := hd
  rcases hcell : squareAt bd (i + delta) with _ | _ | x <;> rw [hcell] at hd
  · exact Option.noConfusion hd
  · exact Option.noConfusion hd
  · replace hd : (if x ∈ enemy then some (i + delta) else none) = some d := hd
    by_cases hx : x ∈ enemy
    · rw [if_pos hx] at hd
      exact ⟨x, (Option.some.inj hd) ▸ hcell, hx⟩
    · rw [if_neg hx] at hd
      exact Option.noConfusion hd

/-- Threat-map ray squares are never out of bounds. -/
theorem mem_threatRay {bd : List Sq} {k : Piece} {i d : Int} :
    ∀ {ds : List Int}, d ∈ threatRay bd k i ds → squareAt bd d ≠ Sq.oob := by
  intro ds
  induction ds with
  | nil => intro h; simp [threatRay] at h
  | cons delta ds ih =>
      intro h
      have he : threatRay bd k i (delta :: ds) =
          (match squareAt bd (i + delta) with
           | Sq.oob => []
           | Sq.empty => (i + delta) :: threatRay bd k i ds
           | Sq.pc x =>
               if x = k then (i + delta) :: threatRay bd k i ds
               else [i + delta]) := rfl
      rw [he] at h
      rcases hcell : squareAt bd (i + delta) with _ | _ | x <;> rw [hcell] at h
      · simp at h
      · rcases List.mem_cons.mp h with rfl | hmem
        · rw [hcell]; exact fun hx => Sq.noConfusion hx
        · exact ih hmem
      · replace h : d ∈ (if x = k then (i + delta) :: threatRay bd k i ds
            else [i + delta]) := h
        by_cases hx : x = k
        · rw [if_pos hx] at h
          rcases List.mem_cons.mp h with rfl | hmem
          · rw [hcell]; exact fun hx => Sq.noConfusion hx
          · exact ih hmem
        · rw [if_neg hx] at h
          rw [List.mem_singleton.mp h, hcell]
          exact fun hx => Sq.noConfusion hx

/-- Every pseudo-move destination is an in-bounds square (the en passant
destination is empty by the board invariant). -/
theorem pseudo_dest {position : Board} {ctx : GenCtx} {i d : Int}
    {piece : Piece} (hInv : Inv position)
    (h : d ∈ pseudo_moves position ctx i piece) :
    squareAt position.board d ≠ Sq.oob := by
  unfold pseudo_moves at h
  by_cases h1 : piece = ctx.friendly_knight
  · rw [if_pos h1] at h
    unfold knight_moves at h
    exact mem_non_sliding h
  rw [if_neg h1] at h
  by_cases h2 : piece = ctx.friendly_bishop
  · rw [if_pos h2] at h
    unfold bishop_moves sliding_moves at h
    rw [List.mem_flatMap] at h
    obtain ⟨ds, _, hds⟩ := h
    exact mem_slideDir hds
  rw [if_neg h2] at h
  by_cases h3 : piece = ctx.friendly_rook
  · rw [if_pos h3] at h
    unfold rook_moves sliding_moves at h
    rw [List.mem_flatMap] at h
    obtain ⟨ds, _, hds⟩ := h
    exact mem_slideDir hds
  rw [if_neg h3] at h
  by_cases h4 : piece = ctx.friendly_queen
  · rw [if_pos h4] at h
    unfold queen_moves sliding_moves at h
    rw [List.mem_flatMap] at h
    obtain ⟨ds, _, hds⟩ := h
    exact mem_slideDir hds
  rw [if_neg h4] at h
  by_cases h5 : piece = ctx.friendly_king
  · rw [if_pos h5] at h
    unfold king_moves at h
    exact mem_non_sliding h
  rw [if_neg h5] at h
  by_cases h6 : piece = ctx.friendly_pawn
  · rw [if_pos h6] at h
    replace h : d ∈
        (((if position.color_to_play = Color.white then white_pawn_moves position i
           else black_pawn_moves position i).attacks ++
          (if position.color_to_play = Color.white then white_pawn_moves position i
           else black_pawn_moves position i).advances) ++
         ctx.pawn_attack_deltas.filterMap (fun delta =>
           match position.en_passant_square with
           | some e => if i + delta = e then some (i + delta) else none
           | none => none)) := h
    rcases List.mem_append.mp h with h | h
    · rcases List.mem_append.mp h with h | h
      · by_cases hc : position.color_to_play = Color.white
        · rw [if_pos hc] at h
          unfold white_pawn_moves at h
          obtain ⟨x, hx, _⟩ := mem_pawnAttacks h
          rw [hx]
          exact fun hh => Sq.noConfusion hh
        · rw [if_neg hc] at h
          unfold black_pawn_moves at h
          obtain ⟨x, hx, _⟩ := mem_pawnAttacks h
          rw [hx]
          exact fun hh => Sq.noConfusion hh
      · by_cases hc : position.color_to_play = Color.white
        · rw [if_pos hc] at h
          unfold white_pawn_moves at h
          rw [mem_pawnAdvances h]
          exact fun hh => Sq.noConfusion hh
        · rw [if_neg hc] at h
          unfold black_pawn_moves at h
          rw [mem_pawnAdvances h]
          exact fun hh => Sq.noConfusion hh
    · rw [List.mem_filterMap] at h
      obtain ⟨delta, _, hd⟩ := h
      cases hep : position.en_passant_square with
      | none => rw [hep] at hd; exact Option.noConfusion hd
      | some e =>
          rw [hep] at hd
          replace hd : (if i + delta = e then some (i + delta) else none) =
            some d := hd
          by_cases heq : i + delta = e
          · rw [if_pos heq] at hd
            have hde : d = e := by
              have := Option.some.inj hd
              omega
            have hclause := hInv.2.2.2.2.2.2.2 e (by rw [hep]; simp)
            rw [hde, hclause.1]
            exact fun hh => Sq.noConfusion hh
          · rw [if_neg heq] at hd
            exact Option.noConfusion hd
  rw [if_neg h6] at h
  simp at h

/-- All squares attacked by one enemy piece are in bounds. -/
theorem threatContrib_not_oob {position : Board} {k : Piece} {epad : List Int}
    {i d : Int} {piece : Piece}
    (h : d ∈ threatContrib position k epad i piece) :
    squareAt position.board d ≠ Sq.oob := by
  replace h : d ∈
      (if piece.lower = Piece.n then knight_moves position i
       else if piece.lower = Piece.k then king_moves position i
       else if piece.lower = Piece.p then
         epad.filterMap (fun delta =>
           if squareAt position.board (i + delta) ≠ Sq.oob then some (i + delta)
           else none)
       else if piece.lower = Piece.b then
         BISHOP_DELTAS.flatMap (threatRay position.board k i)
       else if piece.lower = Piece.r then
         ROOK_DELTAS.flatMap (threatRay position.board k i)
       else QUEEN_DELTAS.flatMap (threatRay position.board k i)) := h
  by_cases h1 : piece.lower = Piece.n
  · rw [if_pos h1] at h
    unfold knight_moves at h
    exact mem_non_sliding h
  rw [if_neg h1] at h
  by_cases h2 : piece.lower = Piece.k
  · rw [if_pos h2] at h
    unfold king_moves at h
    exact mem_non_sliding h
  rw [if_neg h2] at h
  by_cases h3 : piece.lower = Piece.p
  · rw [if_pos h3] at h
    rw [List.mem_filterMap] at h
    obtain ⟨delta, _, hd⟩ := h
    by_cases hc : squareAt position.board (i + delta) ≠ Sq.oob
    · rw [if_pos hc] at hd
      exact (Option.some.inj hd) ▸ hc
    · rw [if_neg hc] at hd
      exact Option.noConfusion hd
  rw [if_neg h3] at h
  by_cases h4 : piece.lower = Piece.b
  · rw [if_pos h4] at h
    rw [List.mem_flatMap] at h
    obtain ⟨ds, _, hds⟩ := h
    exact mem_threatRay hds
  rw [if_neg h4] at h
  by_cases h5 : piece.lower = Piece.r
  · rw [if_pos h5] at h
    rw [List.mem_flatMap] at h
    obtain ⟨ds, _, hds⟩ := h
    exact mem_threatRay hds
  rw [if_neg h5] at h
  rw [List.mem_flatMap] at h
  obtain ⟨ds, _, hds⟩ := h
  exact mem_threatRay hds

/-- Every square in the threat map is in bounds. -/
theorem mem_threat_map {position : Board} {c : Color} {d : Int}
    (h : d ∈ (get_threat_map position c).1) :
    squareAt position.board d ≠ Sq.oob := by
  replace h : d ∈ position.board.enum.flatMap (fun pr =>
      match pr.2 with
      | Sq.pc piece =>
          if piece ∈ (if c = Color.white then WHITE_PIECES else BLACK_PIECES) then
            threatContrib position (if c = Color.white then Piece.k else Piece.K)
              (if c = Color.white then WHITE_PAWN_ATTACKS else BLACK_PAWN_ATTACKS)
              (pr.1 : Int) piece
          else []
      | _ => []) := h
  rw [List.mem_flatMap] at h
  obtain ⟨pr, _, hpr⟩ := h
  rcases pr with ⟨n, sq⟩
  rcases sq with _ | _ | piece
  · simp at hpr
  · simp at hpr
  · replace hpr : d ∈
        (if piece ∈ (if c = Color.white then WHITE_PIECES else BLACK_PIECES) then
          threatContrib position (if c = Color.white then Piece.k else Piece.K)
            (if c = Color.white then WHITE_PAWN_ATTACKS else BLACK_PAWN_ATTACKS)
            (n : Int) piece
        else []) := hpr
    by_cases hin : piece ∈ (if c = Color.white then WHITE_PIECES else BLACK_PIECES)
    · rw [if_pos hin] at hpr
      exact threatContrib_not_oob hpr
    · rw [if_neg hin] at hpr
      simp at hpr

/-- `board.index` finds the piece when its square is not out of bounds. -/
theorem king_on_board {bd : List Sq} (hlen : bd.length = 120) {x : Piece}
    (hno : squareAt bd (board_index bd (Sq.pc x)) ≠ Sq.oob) :
    squareAt bd (board_index bd (Sq.pc x)) = Sq.pc x := by
  unfold board_index at *
  by_cases hlt : bd.findIdx (· = Sq.pc x) < bd.length
  · have hp := List.findIdx_getElem (w := hlt)
    have hq : bd[bd.findIdx (· = Sq.pc x)] = Sq.pc x := of_decide_eq_true hp
    unfold squareAt
    rw [if_pos ⟨by exact_mod_cast Nat.zero_le _,
      by exact_mod_cast (show bd.findIdx (· = Sq.pc x) < 120 by omega)⟩]
    simp [List.getD_eq_getElem?_getD, List.getElem?_eq_getElem hlt, hq]
  · exfalso
    apply hno
    unfold squareAt
    rw [if_neg]
    intro ⟨_, hc2⟩
    have : bd.findIdx (· = Sq.pc x) < 120 := by exact_mod_cast hc2
    omega

/-- Every piece is white or black. -/
theorem piece_WB (x : Piece) : x ∈ WHITE_PIECES ∨ x ∈ BLACK_PIECES := by
  cases x <;> simp [WHITE_PIECES, BLACK_PIECES]

/-- The two piece sets are disjoint. -/
theorem WB_disj : ∀ x ∈ WHITE_PIECES, x ∉ BLACK_PIECES := by decide

/-- Inverting a successful capture lookup. -/
theorem captureAt_some {position : Board} {ctx : GenCtx} {d : Int} {c : Piece}
    (h : captureAt position ctx d = some c) :
    squareAt position.board d = Sq.pc c ∧ c ∈ ctx.enemy_pieces := by
  unfold captureAt at h
  rcases hcell : squareAt position.board d with _ | _ | x <;> rw [hcell] at h
  · exact Option.noConfusion h
  · exact Option.noConfusion h
  · replace h : (if x ∈ ctx.enemy_pieces then some x else none) = some c := h
    by_cases hx : x ∈ ctx.enemy_pieces
    · rw [if_pos hx] at h
      obtain rfl := Option.some.inj h
      exact ⟨rfl, hx⟩
    · rw [if_neg hx] at h
      exact Option.noConfusion h

/-- A capture-free destination that passed the friendly-occupancy filter is
empty. -/
theorem captureAt_none {position : Board} {ctx : GenCtx} {d : Int}
    (hno : squareAt position.board d ≠ Sq.oob)
    (hfr : ∀ x, squareAt position.board d = Sq.pc x → x ∉ ctx.friendly_pieces)
    (hWB : ctx.friendly_pieces = WHITE_PIECES ∧ ctx.enemy_pieces = BLACK_PIECES ∨
      ctx.friendly_pieces = BLACK_PIECES ∧ ctx.enemy_pieces = WHITE_PIECES)
    (h : captureAt position ctx d = none) :
    squareAt position.board d = Sq.empty := by
  rcases hcell : squareAt position.board d with _ | _ | x
  · exact absurd hcell hno
  · rfl
  · exfalso
    unfold captureAt at h
    rw [hcell] at h
    replace h : (if x ∈ ctx.enemy_pieces then some x else none) = none := h
    by_cases hx : x ∈ ctx.enemy_pieces
    · rw [if_pos hx] at h
      exact Option.noConfusion h
    · have hxf := hfr x hcell
      rcases hWB with ⟨hf, he⟩ | ⟨hf, he⟩
      · rw [hf] at hxf
        rw [he] at hx
        rcases piece_WB x with hw | hb
        · exact hxf hw
        · exact hx hb
      · rw [hf] at hxf
        rw [he] at hx
        rcases piece_WB x with hw | hb
        · exact hx hw
        · exact hxf hb

/-- Every move the generator builds snapshots the position's state. -/
theorem capsuleFacts_mk (position : Board) (mp : Piece) (i d : Int)
    (cap : Option Piece) (ep cs : Bool) (po : Option Piece) :
    CapsuleFacts position (mkMove position mp i d cap ep cs po) :=
  ⟨rfl, rfl, rfl, rfl, rfl, rfl, rfl, rfl⟩

/-- Capture of an `Option.toList` membership. -/
theorem opt_eq_of_mem_toList {α : Type} {o : Option α} {a : α}
    (h : a ∈ o.toList) : o = some a := by
  cases o <;> simp_all

/-- Shape of the non-special moves the generator emits: the recorded capture
matches the destination square and promotions are consistent. -/
theorem normalFacts_mk {position : Board} {ctx : GenCtx} {mp : Piece}
    {i d : Int} {po : Option Piece}
    (hsq : squareAt position.board i = Sq.pc mp)
    (hno : squareAt position.board d ≠ Sq.oob)
    (hfr : ∀ x, squareAt position.board d = Sq.pc x → x ∉ ctx.friendly_pieces)
    (hWB : ctx.friendly_pieces = WHITE_PIECES ∧ ctx.enemy_pieces = BLACK_PIECES ∨
      ctx.friendly_pieces = BLACK_PIECES ∧ ctx.enemy_pieces = WHITE_PIECES)
    (hmp : mp ∈ ctx.friendly_pieces)
    (hpo : ∀ np ∈ po.toList, np ≠ mp ∧ ∀ c ∈ ctx.enemy_pieces, np ≠ c) :
    NormalFacts position (mkMove position mp i d (captureAt position ctx d)
      false false po) := by
  refine ⟨rfl, rfl, hsq, ?_, ?_, ?_⟩
  · intro hnone
    exact captureAt_none hno hfr hWB hnone
  · intro cap hcap
    obtain ⟨hc1, hc2⟩ := captureAt_some (opt_eq_of_mem_toList hcap)
    refine ⟨hc1, ?_⟩
    intro hEq
    replace hEq : cap = mp := hEq
    rcases hWB with ⟨hf, he⟩ | ⟨hf, he⟩
    · rw [hf] at hmp
      rw [he] at hc2
      exact WB_disj mp hmp (hEq ▸ hc2)
    · rw [hf] at hmp
      rw [he] at hc2
      exact WB_disj cap hc2 (hEq ▸ hmp)
  · intro promo hpromo
    obtain ⟨hp1, hp2⟩ := hpo promo hpromo
    refine ⟨hp1, ?_⟩
    intro cap hcap
    obtain ⟨_, hc2⟩ := captureAt_some (opt_eq_of_mem_toList hcap)
    exact hp2 cap hc2

/-- Every move emitted for one validated pseudo destination satisfies the
capsule facts and either the normal or the en passant facts. -/
theorem main_move_facts {position : Board} {ctx : GenCtx} {i d : Int}
    {piece : Piece} {m : Move}
    (hInv : Inv position)
    (hside : (position.color_to_play = Color.white ∧
        ctx.friendly_pieces = WHITE_PIECES ∧ ctx.enemy_pieces = BLACK_PIECES ∧
        ctx.friendly_pawn = Piece.P ∧ ctx.enemy_pawn = Piece.p ∧
        ctx.promotion_pieces = [Piece.B, Piece.N, Piece.R, Piece.Q]) ∨
      (position.color_to_play = Color.black ∧
        ctx.friendly_pieces = BLACK_PIECES ∧ ctx.enemy_pieces = WHITE_PIECES ∧
        ctx.friendly_pawn = Piece.p ∧ ctx.enemy_pawn = Piece.P ∧
        ctx.promotion_pieces = [Piece.b, Piece.n, Piece.r, Piece.q]))
    (hpiece : piece ∈ ctx.friendly_pieces)
    (hsq : squareAt position.board i = Sq.pc piece)
    (hpd : d ∈ pseudo_moves position ctx i piece)
    (hfr : ∀ x, squareAt position.board d = Sq.pc x → x ∉ ctx.friendly_pieces)
    (hm : m ∈ moves_for_dest position ctx i piece d) :
    CapsuleFacts position m ∧ (NormalFacts position m ∨ EpFacts position m) := by
  have hno := pseudo_dest hInv hpd
  have hWB : ctx.friendly_pieces = WHITE_PIECES ∧
      ctx.enemy_pieces = BLACK_PIECES ∨
      ctx.friendly_pieces = BLACK_PIECES ∧ ctx.enemy_pieces = WHITE_PIECES := by
    rcases hside with ⟨_, hf, he, _⟩ | ⟨_, hf, he, _⟩
    · exact Or.inl ⟨hf, he⟩
    · exact Or.inr ⟨hf, he⟩
  unfold moves_for_dest at hm
  by_cases hpw : piece ≠ ctx.friendly_pawn
  · rw [if_pos hpw] at hm
    rw [List.mem_singleton] at hm
    subst hm
    exact ⟨capsuleFacts_mk position piece i d _ false false none,
      Or.inl (normalFacts_mk hsq hno hfr hWB hpiece (by simp))⟩
  · rw [if_neg hpw] at hm
    push_neg at hpw
    split at hm
    · -- en passant: the guard forces the destination onto the ep square
      rename_i hg
      rw [List.mem_singleton] at hm
      subst hm
      obtain ⟨e, hep, hde⟩ : ∃ e, position.en_passant_square = some e ∧ d = e := by
        cases hE : position.en_passant_square with
        | none => rw [hE] at hg; simp at hg
        | some e => rw [hE] at hg; simp at hg; exact ⟨e, rfl, hg⟩
      subst hde
      have hclause := hInv.2.2.2.2.2.2.2 d (by rw [hep]; simp)
      refine ⟨capsuleFacts_mk position piece i d _ true false none,
        Or.inr ⟨rfl, rfl, rfl, hsq, hclause.1, ?_⟩⟩
      rcases hside with ⟨hc, _, _, hfp, hep2, _⟩ | ⟨hc, _, _, hfp, hep2, _⟩
      · refine Or.inl ⟨hc, ?_, ?_, hclause.2.1 hc⟩
        · show piece = Piece.P
          rw [hpw, hfp]
        · show some ctx.enemy_pawn = some Piece.p
          rw [hep2]
      · refine Or.inr ⟨hc, ?_, ?_, hclause.2.2 hc⟩
        · show piece = Piece.p
          rw [hpw, hfp]
        · show some ctx.enemy_pawn = some Piece.P
          rw [hep2]
    · split at hm
      · -- promotion
        rw [List.mem_map] at hm
        obtain ⟨np, hnp, rfl⟩ := hm
        refine ⟨capsuleFacts_mk position piece i d _ false false (some np),
          Or.inl (normalFacts_mk hsq hno hfr hWB hpiece ?_)⟩
        intro np' hnp'
        rw [Option.toList_some, List.mem_singleton] at hnp'
        subst hnp'
        rcases hside with ⟨_, _, he, hfp, _, hpp⟩ | ⟨_, _, he, hfp, _, hpp⟩
        · rw [hpp] at hnp
          rw [hpw, hfp, he]
          have hall : ∀ y ∈ [Piece.B, Piece.N, Piece.R, Piece.Q],
              y ≠ Piece.P ∧ ∀ c ∈ BLACK_PIECES, y ≠ c := by decide
          exact hall _ hnp
        · rw [hpp] at hnp
          rw [hpw, hfp, he]
          have hall : ∀ y ∈ [Piece.b, Piece.n, Piece.r, Piece.q],
              y ≠ Piece.p ∧ ∀ c ∈ WHITE_PIECES, y ≠ c := by decide
          exact hall _ hnp
      · rw [List.mem_singleton] at hm
        subst hm
        exact ⟨capsuleFacts_mk position piece i d _ false false none,
          Or.inl (normalFacts_mk hsq hno hfr hWB hpiece (by simp))⟩

/-- Facts about kingside castling moves the generator emits. -/
theorem castle_kingside_facts {position : Board} {ctx : GenCtx}
    {is_check : Bool} {threat_map : List Int} {m : Move}
    (hInv : Inv position)
    (hside :
      (ctx.castle_kingside = position.white_castle_kingside ∧
       ctx.friendly_king = Piece.K ∧ ctx.king_home_square = 95 ∧
       ctx.castle_kingside_destination = 97 ∧
       ctx.kingside_castle_path = [96, 97]) ∨
      (ctx.castle_kingside = position.black_castle_kingside ∧
       ctx.friendly_king = Piece.k ∧ ctx.king_home_square = 25 ∧
       ctx.castle_kingside_destination = 27 ∧
       ctx.kingside_castle_path = [26, 27]))
    (hm : m ∈ castle_kingside_moves position ctx is_check threat_map) :
    CapsuleFacts position m ∧ CastleFacts position m := by
  replace hm : m ∈ (if ctx.castle_kingside then
      if ¬ is_check then
        if ctx.kingside_castle_path.all (fun i =>
            (squareAt position.board i = Sq.empty : Bool) &&
            !(decide (i ∈ threat_map))) then
          [mkMove position ctx.friendly_king ctx.king_home_square
            ctx.castle_kingside_destination none false true none]
        else []
      else []
    else []) := hm
  by_cases h1 : ctx.castle_kingside = true
  · rw [if_pos h1] at hm
    by_cases h2 : is_check = true
    · rw [if_neg (by simp [h2])] at hm
      simp at hm
    · rw [if_pos (by simp at h2 ⊢; exact h2)] at hm
      by_cases h3 : ctx.kingside_castle_path.all (fun i =>
          (squareAt position.board i = Sq.empty : Bool) &&
          !(decide (i ∈ threat_map))) = true
      · rw [if_pos h3] at hm
        rw [List.mem_singleton] at hm
        subst hm
        rcases hside with ⟨hck, hfk, hkh, hkd, hkp⟩ | ⟨hck, hfk, hkh, hkd, hkp⟩
        · rw [hkp] at h3
          simp [List.all_cons] at h3
          have hwc : position.white_castle_kingside = true := by rw [← hck]; exact h1
          obtain ⟨hK, hR⟩ := hInv.2.2.2.1 hwc
          refine ⟨capsuleFacts_mk position ctx.friendly_king ctx.king_home_square
            ctx.castle_kingside_destination none false true none,
            rfl, rfl, rfl, rfl, Or.inl ⟨hkd, hkh, hfk, hK, h3.1.1, h3.2.1, hR⟩⟩
        · rw [hkp] at h3
          simp [List.all_cons] at h3
          have hbc : position.black_castle_kingside = true := by rw [← hck]; exact h1
          obtain ⟨hk, hr⟩ := hInv.2.2.2.2.2.1 hbc
          refine ⟨capsuleFacts_mk position ctx.friendly_king ctx.king_home_square
            ctx.castle_kingside_destination none false true none,
            rfl, rfl, rfl, rfl, Or.inr (Or.inr (Or.inl
              ⟨hkd, hkh, hfk, hk, h3.1.1, h3.2.1, hr⟩))⟩
      · rw [if_neg h3] at hm
        simp at hm
  · rw [if_neg h1] at hm
    simp at hm

/-- Facts about queenside castling moves the generator emits. -/
theorem castle_queenside_facts {position : Board} {ctx : GenCtx}
    {is_check : Bool} {threat_map : List Int} {m : Move}
    (hInv : Inv position)
    (hside :
      (ctx.castle_queenside = position.white_castle_queenside ∧
       ctx.friendly_king = Piece.K ∧ ctx.king_home_square = 95 ∧
       ctx.castle_queenside_destination = 93 ∧
       ctx.queenside_castle_path = [92, 93, 94]) ∨
      (ctx.castle_queenside = position.black_castle_queenside ∧
       ctx.friendly_king = Piece.k ∧ ctx.king_home_square = 25 ∧
       ctx.castle_queenside_destination = 23 ∧
       ctx.queenside_castle_path = [22, 23, 24]))
    (hm : m ∈ castle_queenside_moves position ctx is_check threat_map) :
    CapsuleFacts position m ∧ CastleFacts position m := by
  replace hm : m ∈ (if ctx.castle_queenside then
      if ¬ is_check then
        if (ctx.queenside_castle_path.all (fun i =>
              (squareAt position.board i = Sq.empty : Bool))) &&
            (ctx.queenside_king_castle_path.all (fun i =>
              !(decide (i ∈ threat_map)))) then
          [mkMove position ctx.friendly_king ctx.king_home_square
            ctx.castle_queenside_destination none false true none]
        else []
      else []
    else []) := hm
  by_cases h1 : ctx.castle_queenside = true
  · rw [if_pos h1] at hm
    by_cases h2 : is_check = true
    · rw [if_neg (by simp [h2])] at hm
      simp at hm
    · rw [if_pos (by simp at h2 ⊢; exact h2)] at hm
      by_cases h3 : ((ctx.queenside_castle_path.all (fun i =>
            (squareAt position.board i = Sq.empty : Bool))) &&
          (ctx.queenside_king_castle_path.all (fun i =>
            !(decide (i ∈ threat_map))))) = true
      · rw [if_pos h3] at hm
        rw [List.mem_singleton] at hm
        subst hm
        rw [Bool.and_eq_true] at h3
        obtain ⟨h3, _⟩ := h3
        rcases hside with ⟨hck, hfk, hkh, hkd, hkp⟩ | ⟨hck, hfk, hkh, hkd, hkp⟩
        · rw [hkp] at h3
          simp [List.all_cons] at h3
          have hwc : position.white_castle_queenside = true := by
            rw [← hck]; exact h1
          obtain ⟨hK, hR⟩ := hInv.2.2.2.2.1 hwc
          refine ⟨capsuleFacts_mk position ctx.friendly_king ctx.king_home_square
            ctx.castle_queenside_destination none false true none,
            rfl, rfl, rfl, rfl, Or.inr (Or.inl
              ⟨hkd, hkh, hfk, hK, h3.1, h3.2.1, h3.2.2, hR⟩)⟩
        · rw [hkp] at h3
          simp [List.all_cons] at h3
          have hbc : position.black_castle_queenside = true := by
            rw [← hck]; exact h1
          obtain ⟨hk, hr⟩ := hInv.2.2.2.2.2.2.1 hbc
          refine ⟨capsuleFacts_mk position ctx.friendly_king ctx.king_home_square
            ctx.castle_queenside_destination none false true none,
            rfl, rfl, rfl, rfl, Or.inr (Or.inr (Or.inr
              ⟨hkd, hkh, hfk, hk, h3.1, h3.2.1, h3.2.2, hr⟩))⟩
      · rw [if_neg h3] at hm
        simp at hm
  · rw [if_neg h1] at hm
    simp at hm

/-- A validated destination never holds a friendly piece (the fourth filter of
`dest_valid`). -/
theorem dest_valid_friendly {position : Board} {ctx : GenCtx} {is_check : Bool}
    {chk : Option CheckInfo} {threat_map : List Int} {pins : List PinInfo}
    {i d : Int} {piece : Piece}
    (h : dest_valid position ctx is_check chk threat_map pins i piece d = true) :
    ∀ x, squareAt position.board d = Sq.pc x → x ∉ ctx.friendly_pieces := by
  intro x hx hmem
  have hfalse : dest_valid position ctx is_check chk threat_map pins i piece d
      = false := by
    simp [dest_valid, hx, hmem]
  rw [h] at hfalse
  exact Bool.noConfusion hfalse

/-- Under a double check the first mailbox cell found for the friendly king
really holds that king. -/
theorem double_check_king {b : Board} {c : Color} (hInv : Inv b)
    (hcc : 2 ≤ (get_threat_map b c).2) :
    squareAt b.board (board_index b.board
      (Sq.pc (if c = Color.white then Piece.k else Piece.K))) =
    Sq.pc (if c = Color.white then Piece.k else Piece.K) := by
  have h2 : (get_threat_map b c).2 = (get_threat_map b c).1.count
      (board_index b.board
        (Sq.pc (if c = Color.white then Piece.k else Piece.K))) := rfl
  have hmem : board_index b.board
      (Sq.pc (if c = Color.white then Piece.k else Piece.K)) ∈
      (get_threat_map b c).1 :=
    List.count_pos_iff.mp (by rw [← h2]; omega)
  exact king_on_board hInv.1 (mem_threat_map hmem)

/-- Every move `generate_moves` emits satisfies `MoveFacts`. -/
theorem generate_moves_facts {b : Board} {m : Move} (hInv : Inv b)
    (hm : m ∈ generate_moves b) : MoveFacts b m := by
  have hgc : b.color_to_play = Color.white →
      genCtx b =
        { enemy_color := Color.black,
          friendly_king := .K, friendly_knight := .N, friendly_bishop := .B,
          friendly_rook := .R, friendly_queen := .Q, friendly_pawn := .P,
          enemy_pawn := .p,
          friendly_pieces := WHITE_PIECES, enemy_pieces := BLACK_PIECES,
          pawn_attack_deltas := WHITE_PAWN_ATTACKS,
          promotion_squares := [21, 22, 23, 24, 25, 26, 27, 28],
          promotion_pieces := [.B, .N, .R, .Q],
          castle_kingside := b.white_castle_kingside,
          castle_queenside := b.white_castle_queenside,
          kingside_castle_path := [96, 97],
          queenside_castle_path := [92, 93, 94],
          queenside_king_castle_path := [93, 94],
          castle_kingside_destination := 97,
          castle_queenside_destination := 93,
          king_home_square := 95 } := by
    intro hc
    unfold genCtx
    rw [if_pos hc]
  have hgc2 : b.color_to_play = Color.black →
      genCtx b =
        { enemy_color := Color.white,
          friendly_king := .k, friendly_knight := .n, friendly_bishop := .b,
          friendly_rook := .r, friendly_queen := .q, friendly_pawn := .p,
          enemy_pawn := .P,
          friendly_pieces := BLACK_PIECES, enemy_pieces := WHITE_PIECES,
          pawn_attack_deltas := BLACK_PAWN_ATTACKS,
          promotion_squares := [91, 92, 93, 94, 95, 96, 97, 98],
          promotion_pieces := [.b, .n, .r, .q],
          castle_kingside := b.black_castle_kingside,
          castle_queenside := b.black_castle_queenside,
          kingside_castle_path := [26, 27],
          queenside_castle_path := [22, 23, 24],
          queenside_king_castle_path := [23, 24],
          castle_kingside_destination := 27,
          castle_queenside_destination := 23,
          king_home_square := 25 } := by
    intro hc
    unfold genCtx
    rw [if_neg (by rw [hc]; exact fun hx => Color.noConfusion hx)]
  have hcolor : b.color_to_play = Color.white ∨ b.color_to_play = Color.black := by
    cases hcv : b.color_to_play
    · exact Or.inl rfl
    · exact Or.inr rfl
  have hsideM : (b.color_to_play = Color.white ∧
      (genCtx b).friendly_pieces = WHITE_PIECES ∧
      (genCtx b).enemy_pieces = BLACK_PIECES ∧
      (genCtx b).friendly_pawn = Piece.P ∧ (genCtx b).enemy_pawn = Piece.p ∧
      (genCtx b).promotion_pieces = [Piece.B, Piece.N, Piece.R, Piece.Q]) ∨
    (b.color_to_play = Color.black ∧
      (genCtx b).friendly_pieces = BLACK_PIECES ∧
      (genCtx b).enemy_pieces = WHITE_PIECES ∧
      (genCtx b).friendly_pawn = Piece.p ∧ (genCtx b).enemy_pawn = Piece.P ∧
      (genCtx b).promotion_pieces = [Piece.b, Piece.n, Piece.r, Piece.q]) := by
    rcases hcolor with hc | hc
    · exact Or.inl ⟨hc, by rw [hgc hc], by rw [hgc hc], by rw [hgc hc],
        by rw [hgc hc], by rw [hgc hc]⟩
    · exact Or.inr ⟨hc, by rw [hgc2 hc], by rw [hgc2 hc], by rw [hgc2 hc],
        by rw [hgc2 hc], by rw [hgc2 hc]⟩
  simp only [generate_moves] at hm
  by_cases hcc : (get_threat_map b (genCtx b).enemy_color).2 < 2
  · rw [if_pos hcc] at hm
    rcases List.mem_append.mp hm with hm1 | hmq
    · rcases List.mem_append.mp hm1 with hmm | hmk
      · -- the main per-piece loop
        rw [List.mem_flatMap] at hmm
        obtain ⟨pr, hpr, hin⟩ := hmm
        have hsq := squareAt_enum hInv.1 hpr
        rcases pr with ⟨n, sq⟩
        rcases sq with _ | _ | piece
        · simp at hin
        · simp at hin
        · replace hin : m ∈ (if piece ∈ (genCtx b).friendly_pieces then
              (pseudo_moves b (genCtx b) (n : Int) piece).flatMap
                (fun destination =>
                  if dest_valid b (genCtx b)
                      (decide (0 < (get_checks_and_pins b (board_index b.board
                        (Sq.pc (genCtx b).friendly_king))).1.length))
                      (get_checks_and_pins b (board_index b.board
                        (Sq.pc (genCtx b).friendly_king))).1.head?
                      (get_threat_map b (genCtx b).enemy_color).1
                      (get_checks_and_pins b (board_index b.board
                        (Sq.pc (genCtx b).friendly_king))).2
                      (n : Int) piece destination then
                    moves_for_dest b (genCtx b) (n : Int) piece destination
                  else [])
            else []) := hin
          by_cases hpin : piece ∈ (genCtx b).friendly_pieces
          · rw [if_pos hpin] at hin
            rw [List.mem_flatMap] at hin
            obtain ⟨d, hd, hmov⟩ := hin
            by_cases hdv : dest_valid b (genCtx b)
                (decide (0 < (get_checks_and_pins b (board_index b.board
                  (Sq.pc (genCtx b).friendly_king))).1.length))
                (get_checks_and_pins b (board_index b.board
                  (Sq.pc (genCtx b).friendly_king))).1.head?
                (get_threat_map b (genCtx b).enemy_color).1
                (get_checks_and_pins b (board_index b.board
                  (Sq.pc (genCtx b).friendly_king))).2
                (n : Int) piece d = true
            · rw [if_pos hdv] at hmov
              obtain ⟨hcap, hne⟩ := main_move_facts hInv hsideM hpin hsq hd
                (dest_valid_friendly hdv) hmov
              rcases hne with hn | he
              · exact ⟨hcap, Or.inl hn⟩
              · exact ⟨hcap, Or.inr (Or.inl he)⟩
            · rw [if_neg hdv] at hmov
              simp at hmov
          · rw [if_neg hpin] at hin
            simp at hin
      · -- kingside castling
        have hside : ((genCtx b).castle_kingside = b.white_castle_kingside ∧
            (genCtx b).friendly_king = Piece.K ∧
            (genCtx b).king_home_square = 95 ∧
            (genCtx b).castle_kingside_destination = 97 ∧
            (genCtx b).kingside_castle_path = [96, 97]) ∨
          ((genCtx b).castle_kingside = b.black_castle_kingside ∧
            (genCtx b).friendly_king = Piece.k ∧
            (genCtx b).king_home_square = 25 ∧
            (genCtx b).castle_kingside_destination = 27 ∧
            (genCtx b).kingside_castle_path = [26, 27]) := by
          rcases hcolor with hc | hc
          · exact Or.inl ⟨by rw [hgc hc], by rw [hgc hc], by rw [hgc hc],
              by rw [hgc hc], by rw [hgc hc]⟩
          · exact Or.inr ⟨by rw [hgc2 hc], by rw [hgc2 hc], by rw [hgc2 hc],
              by rw [hgc2 hc], by rw [hgc2 hc]⟩
        obtain ⟨hcap, hcf⟩ := castle_kingside_facts hInv hside hmk
        exact ⟨hcap, Or.inr (Or.inr hcf)⟩
    · -- queenside castling
      have hside : ((genCtx b).castle_queenside = b.white_castle_queenside ∧
          (genCtx b).friendly_king = Piece.K ∧
          (genCtx b).king_home_square = 95 ∧
          (genCtx b).castle_queenside_destination = 93 ∧
          (genCtx b).queenside_castle_path = [92, 93, 94]) ∨
        ((genCtx b).castle_queenside = b.black_castle_queenside ∧
          (genCtx b).friendly_king = Piece.k ∧
          (genCtx b).king_home_square = 25 ∧
          (genCtx b).castle_queenside_destination = 23 ∧
          (genCtx b).queenside_castle_path = [22, 23, 24]) := by
        rcases hcolor with hc | hc
        · exact Or.inl ⟨by rw [hgc hc], by rw [hgc hc], by rw [hgc hc],
            by rw [hgc hc], by rw [hgc hc]⟩
        · exact Or.inr ⟨by rw [hgc2 hc], by rw [hgc2 hc], by rw [hgc2 hc],
            by rw [hgc2 hc], by rw [hgc2 hc]⟩
      obtain ⟨hcap, hcf⟩ := castle_queenside_facts hInv hside hmq
      exact ⟨hcap, Or.inr (Or.inr hcf)⟩
  · -- double check: only king moves
    rw [if_neg hcc] at hm
    have hfk : (if (genCtx b).enemy_color = Color.white then Piece.k
        else Piece.K) = (genCtx b).friendly_king := by
      rcases hcolor with hc | hc
      · rw [hgc hc]; simp
      · rw [hgc2 hc]; simp
    have hksq : squareAt b.board (board_index b.board
        (Sq.pc (genCtx b).friendly_king)) = Sq.pc (genCtx b).friendly_king := by
      have := double_check_king (c := (genCtx b).enemy_color) hInv (by omega)
      rw [hfk] at this
      exact this
    have hWB : (genCtx b).friendly_pieces = WHITE_PIECES ∧
        (genCtx b).enemy_pieces = BLACK_PIECES ∨
        (genCtx b).friendly_pieces = BLACK_PIECES ∧
        (genCtx b).enemy_pieces = WHITE_PIECES := by
      rcases hsideM with ⟨_, hf, he, _⟩ | ⟨_, hf, he, _⟩
      · exact Or.inl ⟨hf, he⟩
      · exact Or.inr ⟨hf, he⟩
    have hkmem : (genCtx b).friendly_king ∈ (genCtx b).friendly_pieces := by
      rcases hcolor with hc | hc
      · rw [hgc hc]; simp [WHITE_PIECES]
      · rw [hgc2 hc]; simp [BLACK_PIECES]
    rw [List.mem_flatMap] at hm
    obtain ⟨d, hd, hmm⟩ := hm
    have hno : squareAt b.board d ≠ Sq.oob := by
      unfold king_moves at hd
      exact mem_non_sliding hd
    by_cases htm : d ∈ (get_threat_map b (genCtx b).enemy_color).1
    · rw [if_pos htm] at hmm
      simp at hmm
    · rw [if_neg htm] at hmm
      rcases hcell : squareAt b.board d with _ | _ | x <;> rw [hcell] at hmm
      · replace hmm : m ∈ [mkMove b (genCtx b).friendly_king
            (board_index b.board (Sq.pc (genCtx b).friendly_king)) d
            (captureAt b (genCtx b) d) false false none] := hmm
        rw [List.mem_singleton] at hmm
        subst hmm
        exact ⟨capsuleFacts_mk b (genCtx b).friendly_king _ d _ false false none,
          Or.inl (normalFacts_mk hksq hno
            (fun x hx => absurd (hx ▸ hcell) (fun hh => Sq.noConfusion hh))
            hWB hkmem (by simp))⟩
      · replace hmm : m ∈ [mkMove b (genCtx b).friendly_king
            (board_index b.board (Sq.pc (genCtx b).friendly_king)) d
            (captureAt b (genCtx b) d) false false none] := hmm
        rw [List.mem_singleton] at hmm
        subst hmm
        exact ⟨capsuleFacts_mk b (genCtx b).friendly_king _ d _ false false none,
          Or.inl (normalFacts_mk hksq hno
            (fun x hx => absurd (hcell.symm.trans hx) (fun hh => Sq.noConfusion hh))
            hWB hkmem (by simp))⟩
      · replace hmm : m ∈ (if x ∈ (genCtx b).friendly_pieces then []
            else [mkMove b (genCtx b).friendly_king
              (board_index b.board (Sq.pc (genCtx b).friendly_king)) d
              (captureAt b (genCtx b) d) false false none]) := hmm
        by_cases hx : x ∈ (genCtx b).friendly_pieces
        · rw [if_pos hx] at hmm
          simp at hmm
        · rw [if_neg hx] at hmm
          rw [List.mem_singleton] at hmm
          subst hmm
          refine ⟨capsuleFacts_mk b (genCtx b).friendly_king _ d _ false false none,
            Or.inl (normalFacts_mk hksq hno ?_ hWB hkmem (by simp))⟩
          intro x' hx'
          have hxx : x' = x := by
            have := hcell.symm.trans hx'
            exact (Sq.pc.inj this).symm
          rw [hxx]
          exact hx

/-- A bounded reformulation of the two piece-list clauses of `Inv`. -/
theorem Inv_of_checks {b : Board}
    (h1 : b.board.length = 120)
    (h2 : ∀ x ∈ ALL_PIECES, ∀ i ∈ b.piece_lists x,
      squareAt b.board i = Sq.pc x)
    (h3 : ∀ x ∈ ALL_PIECES, ∀ j : Nat, j < 120 →
      squareAt b.board (j : Int) = Sq.pc x → (j : Int) ∈ b.piece_lists x)
    (h4 : b.white_castle_kingside = true →
      squareAt b.board 95 = Sq.pc Piece.K ∧ squareAt b.board 98 = Sq.pc Piece.R)
    (h5 : b.white_castle_queenside = true →
      squareAt b.board 95 = Sq.pc Piece.K ∧ squareAt b.board 91 = Sq.pc Piece.R)
    (h6 : b.black_castle_kingside = true →
      squareAt b.board 25 = Sq.pc Piece.k ∧ squareAt b.board 28 = Sq.pc Piece.r)
    (h7 : b.black_castle_queenside = true →
      squareAt b.board 25 = Sq.pc Piece.k ∧ squareAt b.board 21 = Sq.pc Piece.r)
    (h8 : ∀ e ∈ b.en_passant_square.toList,
      squareAt b.board e = Sq.empty ∧
      (b.color_to_play = Color.white →
        squareAt b.board (e + 10) = Sq.pc Piece.p) ∧
      (b.color_to_play = Color.black →
        squareAt b.board (e - 10) = Sq.pc Piece.P)) : Inv b := by
  have hall : ∀ x : Piece, x ∈ ALL_PIECES := by
    intro x
    cases x <;> simp [ALL_PIECES]
  exact ⟨h1, fun x => h2 x (hall x), fun x => h3 x (hall x),
    h4, h5, h6, h7, h8⟩

/-- The example board satisfies the invariant. -/
theorem Inv_C2board : Inv C2board := by
  apply Inv_of_checks
  · decide
  · decide
  · decide
  · intro h; exact Bool.noConfusion h
  · intro h; exact Bool.noConfusion h
  · intro h; exact Bool.noConfusion h
  · intro h; exact Bool.noConfusion h
  · intro e he; simp [C2board, board_from] at he

/-- C2 counterexample: in `C2board` the generated pawn advance a2-a3, made
and then unmade, leaves the white pawn list reordered ([82, 81] instead of
[81, 82]), so the Board is not restored bit-identically. -/
theorem C2_counterexample :
    C2move ∈ generate_moves C2board ∧
    (unmake_move C2move (make_move keys0 C2move C2board)).piece_lists Piece.P ≠
      C2board.piece_lists Piece.P := by
  constructor
  · decide
  · decide

/-- C2 (amended): for every invariant-satisfying position and every generated
move, make followed by unmake restores the mailbox, castling rights,
en passant square, half-move clock, side to move, zobrist hash, ply and
history exactly, and restores each piece list up to order (as a multiset). -/
theorem C2_roundtrip (keys : ZobristKeys) (b : Board) (m : Move)
    (hInv : Inv b) (hm : m ∈ generate_moves b) :
    (unmake_move m (make_move keys m b)).board = b.board ∧
    (∀ x : Piece,
      ((unmake_move m (make_move keys m b)).piece_lists x : Multiset Int) =
        (b.piece_lists x : Multiset Int)) ∧
    (unmake_move m (make_move keys m b)).white_castle_kingside =
      b.white_castle_kingside ∧
    (unmake_move m (make_move keys m b)).white_castle_queenside =
      b.white_castle_queenside ∧
    (unmake_move m (make_move keys m b)).black_castle_kingside =
      b.black_castle_kingside ∧
    (unmake_move m (make_move keys m b)).black_castle_queenside =
      b.black_castle_queenside ∧
    (unmake_move m (make_move keys m b)).en_passant_square =
      b.en_passant_square ∧
    (unmake_move m (make_move keys m b)).half_move = b.half_move ∧
    (unmake_move m (make_move keys m b)).color_to_play = b.color_to_play ∧
    (unmake_move m (make_move keys m b)).zobrist_hash = b.zobrist_hash ∧
    (unmake_move m (make_move keys m b)).ply = b.ply ∧
    (unmake_move m (make_move keys m b)).history = b.history := by
  obtain ⟨hcap, hkind⟩ := generate_moves_facts hInv hm
  have hbp : (unmake_move m (make_move keys m b)).board = b.board ∧
      ∀ x : Piece,
        ((unmake_move m (make_move keys m b)).piece_lists x : Multiset Int) =
          (b.piece_lists x : Multiset Int) := by
    rcases hkind with hn | he | hc
    · exact roundtrip_normal keys hInv hn
    · exact roundtrip_ep keys hInv he
    · exact roundtrip_castle keys hInv hc
  obtain ⟨f1, f2, f3, f4, f5, f6, f7, f8, f9, f10⟩ :=
    unmake_move_fields m (make_move keys m b)
  obtain ⟨c1, c2, c3, c4, c5, c6, c7, c8⟩ := hcap
  refine ⟨hbp.1, hbp.2, f2.trans c1, f3.trans c2, f4.trans c3, f5.trans c4,
    f7.trans c5, f6.trans c6, f1.trans c7, f8.trans c8, ?_, ?_⟩
  · rw [f9, make_move_ply keys m b]
    omega
  · rw [f10, make_move_history keys m b, List.dropLast_concat]

/-- Witness for C2: the amended round trip evaluated at `C2board` and the
generated move a2-a3. -/
theorem C2_roundtrip_witness :
    Inv C2board ∧ C2move ∈ generate_moves C2board ∧
    (unmake_move C2move (make_move keys0 C2move C2board)).board =
      C2board.board ∧
    ((unmake_move C2move (make_move keys0 C2move C2board)).piece_lists
      Piece.P : Multiset Int) = (C2board.piece_lists Piece.P : Multiset Int) :=
  have h1 : Inv C2board := Inv_C2board
  have h2 : C2move ∈ generate_moves C2board := by decide
  ⟨h1, h2, (C2_roundtrip keys0 C2board C2move h1 h2).1,
    (C2_roundtrip keys0 C2board C2move h1 h2).2.1 Piece.P⟩

/-! ### Claim C3: incremental hash vs. full recomputation -/

theorem xor_left_comm (a b c : Nat) : a ^^^ (b ^^^ c) = b ^^^ (a ^^^ c) := by
  rw [← Nat.xor_assoc, Nat.xor_comm a b, Nat.xor_assoc]

theorem xor_cancel_left (a b : Nat) : a ^^^ (a ^^^ b) = b := by
  rw [← Nat.xor_assoc, Nat.xor_self, Nat.zero_xor]

/-- The XOR fold of one piece list factors out its accumulator. -/
theorem plHash_shift (keys : ZobristKeys) (pt : Piece) :
    ∀ (l : List Int) (h : Nat), plHash keys pt l h = h ^^^ plHash keys pt l 0 := by
  intro l
  induction l with
  | nil => intro h; simp [plHash]
  | cons s l ih =>
      intro h
      have he : ∀ a, plHash keys pt (s :: l) a =
          plHash keys pt l (a ^^^ keys.piece_keys (to64 s) (PIECE_CODES pt)) := by
        intro a; rfl
      rw [he, he, ih, ih (0 ^^^ _)]
      simp [Nat.xor_assoc, Nat.xor_comm, xor_left_comm, xor_cancel_left]

/-- The XOR fold is invariant under permutations of the list. -/
theorem plHash_perm (keys : ZobristKeys) (pt : Piece) {l1 l2 : List Int}
    (h : l1.Perm l2) (a : Nat) : plHash keys pt l1 a = plHash keys pt l2 a := by
  unfold plHash
  haveI : RightCommutative (fun (acc : Nat) (s : Int) =>
      acc ^^^ keys.piece_keys (to64 s) (PIECE_CODES pt)) :=
    ⟨fun acc s t => by simp [Nat.xor_assoc, Nat.xor_comm, xor_left_comm]⟩
  exact h.foldl_eq a

/-- Appending one square XORs in its key. -/
theorem plHash_append (keys : ZobristKeys) (pt : Piece) (l : List Int)
    (s : Int) : plHash keys pt (l ++ [s]) 0 =
      plHash keys pt l 0 ^^^ keys.piece_keys (to64 s) (PIECE_CODES pt) := by
  unfold plHash
  rw [List.foldl_append]
  rfl

/-- Erasing one present square XORs out its key. -/
theorem plHash_erase (keys : ZobristKeys) (pt : Piece) {l : List Int} {s : Int}
    (hs : s ∈ l) : plHash keys pt (l.erase s) 0 =
      plHash keys pt l 0 ^^^ keys.piece_keys (to64 s) (PIECE_CODES pt) := by
  have hmain : plHash keys pt l 0 =
      keys.piece_keys (to64 s) (PIECE_CODES pt) ^^^
        plHash keys pt (l.erase s) 0 := by
    rw [plHash_perm keys pt (List.perm_cons_erase hs) 0]
    have he : plHash keys pt (s :: l.erase s) 0 =
        plHash keys pt (l.erase s) (0 ^^^ keys.piece_keys (to64 s)
          (PIECE_CODES pt)) := rfl
    rw [he, plHash_shift keys pt (l.erase s)
      (0 ^^^ keys.piece_keys (to64 s) (PIECE_CODES pt))]
    simp [Nat.xor_assoc, Nat.xor_comm, xor_left_comm, xor_cancel_left]
  rw [hmain]
  simp [Nat.xor_assoc, Nat.xor_comm, xor_left_comm, xor_cancel_left]

/-- Factoring the accumulator out of a fold over a list of piece types. -/
theorem pieceFold_shift (keys : ZobristKeys) (pl : Piece → List Int) :
    ∀ (l : List Piece) (h : Nat),
      l.foldl (fun acc pt => plHash keys pt (pl pt) acc) h =
        h ^^^ l.foldl (fun acc pt => plHash keys pt (pl pt) acc) 0 := by
  intro l
  induction l with
  | nil => intro h; simp
  | cons y l ih =>
      intro h
      rw [List.foldl_cons, List.foldl_cons, ih, ih (plHash keys y (pl y) 0),
        plHash_shift keys y (pl y) h]
      simp [Nat.xor_assoc, Nat.xor_comm, xor_left_comm, xor_cancel_left]

/-- Updating one entry of the piece-lists table changes the fold by the old
and new contributions of that entry. -/
theorem pieceFold_update (keys : ZobristKeys) (pl : Piece → List Int)
    (x : Piece) (f : List Int → List Int) :
    ∀ (l : List Piece), x ∈ l → l.Nodup → ∀ (a : Nat),
      l.foldl (fun acc pt => plHash keys pt (plUpdate pl x f pt) acc) a =
        l.foldl (fun acc pt => plHash keys pt (pl pt) acc) a ^^^
        plHash keys x (pl x) 0 ^^^ plHash keys x (f (pl x)) 0 := by
  intro l
  induction l with
  | nil => intro hx; simp at hx
  | cons y l ih =>
      intro hx hnd a
      rcases List.mem_cons.mp hx with rfl | hxl
      · have hnotin : x ∉ l := (List.nodup_cons.mp hnd).1
        rw [List.foldl_cons, List.foldl_cons]
        have hcongr : l.foldl (fun acc pt => plHash keys pt
            (plUpdate pl x f pt) acc) (plHash keys x (plUpdate pl x f x) a) =
            l.foldl (fun acc pt => plHash keys pt (pl pt) acc)
              (plHash keys x (plUpdate pl x f x) a) := by
          apply List.foldl_ext
          intro acc pt hpt
          have hne : pt ≠ x := fun hE => hnotin (hE ▸ hpt)
          rw [show plUpdate pl x f pt = pl pt from if_neg hne]
        rw [hcongr]
        have hself : plUpdate pl x f x = f (pl x) := if_pos rfl
        rw [hself, plHash_shift keys x (f (pl x)) a,
          pieceFold_shift keys pl l (a ^^^ plHash keys x (f (pl x)) 0),
          plHash_shift keys x (pl x) a,
          pieceFold_shift keys pl l (a ^^^ plHash keys x (pl x) 0)]
        simp [Nat.xor_assoc, Nat.xor_comm, xor_left_comm, xor_cancel_left]
      · have hne : y ≠ x := fun hE =>
          (List.nodup_cons.mp hnd).1 (hE ▸ hxl)
        rw [List.foldl_cons, List.foldl_cons,
          show plUpdate pl x f y = pl y from if_neg hne,
          ih hxl (List.nodup_cons.mp hnd).2]

/-- `plFold` under a single `plUpdate`. -/
theorem plFold_update (keys : ZobristKeys) (pl : Piece → List Int) (x : Piece)
    (f : List Int → List Int) :
    plFold keys (plUpdate pl x f) = plFold keys pl ^^^
      plHash keys x (pl x) 0 ^^^ plHash keys x (f (pl x)) 0 := by
  unfold plFold
  exact pieceFold_update keys pl x f PIECE_ORDER
    (by cases x <;> simp [PIECE_ORDER]) (by decide) 0

/-- `compute_hash` split into its four contributions. -/
theorem compute_hash_decomp (keys : ZobristKeys) (b : Board) :
    compute_hash keys b = plFold keys b.piece_lists ^^^
      keys.castling_keys (get_castle_rights_code b) ^^^
      epk keys b.en_passant_square ^^^ keys.color_key := by
  unfold compute_hash plFold epk
  cases hep : b.en_passant_square with
  | none => simp
  | some e => rfl

/-- Flag-equal boards share their castling-rights code. -/
theorem code_eq_of_flags {b1 b2 : Board}
    (h1 : b1.white_castle_kingside = b2.white_castle_kingside)
    (h2 : b1.white_castle_queenside = b2.white_castle_queenside)
    (h3 : b1.black_castle_kingside = b2.black_castle_kingside)
    (h4 : b1.black_castle_queenside = b2.black_castle_queenside) :
    get_castle_rights_code b1 = get_castle_rights_code b2 := by
  unfold get_castle_rights_code
  rw [h1, h2, h3, h4]

/-- Hash, ep and rights code through `make_ply_color`. -/
theorem make_ply_color_hec (keys : ZobristKeys) (b : Board) :
    (make_ply_color keys b).zobrist_hash = b.zobrist_hash ^^^ keys.color_key ∧
    (make_ply_color keys b).en_passant_square = b.en_passant_square ∧
    get_castle_rights_code (make_ply_color keys b) =
      get_castle_rights_code b := by
  refine ⟨?_, ?_, code_eq_of_flags ?_ ?_ ?_ ?_⟩ <;>
    (by_cases h : b.color_to_play = Color.white <;> simp [make_ply_color, h])

/-- Hash, ep and rights code through `make_half_move`. -/
theorem make_half_move_hec (m : Move) (b : Board) :
    (make_half_move m b).zobrist_hash = b.zobrist_hash ∧
    (make_half_move m b).en_passant_square = b.en_passant_square ∧
    get_castle_rights_code (make_half_move m b) = get_castle_rights_code b := by
  refine ⟨?_, ?_, code_eq_of_flags ?_ ?_ ?_ ?_⟩ <;>
    (unfold make_half_move; split <;> rfl)

/-- Hash, ep and rights code through `xor_ep_key`. -/
theorem xor_ep_key_hec (keys : ZobristKeys) (b : Board) :
    (xor_ep_key keys b).zobrist_hash =
      b.zobrist_hash ^^^ epk keys b.en_passant_square ∧
    (xor_ep_key keys b).en_passant_square = b.en_passant_square ∧
    get_castle_rights_code (xor_ep_key keys b) = get_castle_rights_code b := by
  refine ⟨?_, ?_, code_eq_of_flags ?_ ?_ ?_ ?_⟩ <;>
    (cases hep : b.en_passant_square <;> simp [xor_ep_key, epk, hep])

/-- Hash and rights code through `make_new_ep`. -/
theorem make_new_ep_hc (m : Move) (b : Board) :
    (make_new_ep m b).zobrist_hash = b.zobrist_hash ∧
    get_castle_rights_code (make_new_ep m b) = get_castle_rights_code b := by
  refine ⟨?_, code_eq_of_flags ?_ ?_ ?_ ?_⟩ <;>
    (unfold make_new_ep; repeat' split
     all_goals rfl)

/-- Hash, ep and rights code through `xor_castle_key`. -/
theorem xor_castle_key_hec (keys : ZobristKeys) (b : Board) :
    (xor_castle_key keys b).zobrist_hash =
      b.zobrist_hash ^^^ keys.castling_keys (get_castle_rights_code b) ∧
    (xor_castle_key keys b).en_passant_square = b.en_passant_square ∧
    get_castle_rights_code (xor_castle_key keys b) =
      get_castle_rights_code b :=
  ⟨rfl, rfl, code_eq_of_flags rfl rfl rfl rfl⟩

/-- Hash and ep through `make_castle_rights`. -/
theorem make_castle_rights_he (m : Move) (b : Board) :
    (make_castle_rights m b).zobrist_hash = b.zobrist_hash ∧
    (make_castle_rights m b).en_passant_square = b.en_passant_square := by
  constructor
  · unfold make_castle_rights
    split_ifs <;> simp_all [apply_ite Board.zobrist_hash]
  · unfold make_castle_rights
    split_ifs <;> simp_all [apply_ite Board.en_passant_square]

/-- The incremental hash after `make_move`: the phase-1 piece XORs, the color
key, old and new en passant keys, and old and new castling-rights keys. -/
theorem make_move_hash_shape (keys : ZobristKeys) (m : Move) (b : Board) :
    (make_move keys m b).zobrist_hash =
      (make_phase1 keys m b).zobrist_hash ^^^ keys.color_key ^^^
      epk keys b.en_passant_square ^^^
      epk keys (make_move keys m b).en_passant_square ^^^
      keys.castling_keys (get_castle_rights_code b) ^^^
      keys.castling_keys (get_castle_rights_code (make_move keys m b)) := by
  set b1 := make_phase1 keys m b with hb1
  set b2 := make_ply_color keys b1 with hb2
  set b3 := make_half_move m b2 with hb3
  set b4 := xor_ep_key keys b3 with hb4
  set b5 := make_new_ep m b4 with hb5
  set b6 := xor_ep_key keys b5 with hb6
  set b7 := xor_castle_key keys b6 with hb7
  set b8 := make_castle_rights m b7 with hb8
  set b9 := xor_castle_key keys b8 with hb9
  have hfin : make_move keys m b =
      { b9 with history := b9.history ++ [b9.zobrist_hash] } := rfl
  have hst := make_phase1_state keys m b
  have hepfin : (make_move keys m b).en_passant_square =
      b5.en_passant_square := by
    rw [hfin]
    show b9.en_passant_square = b5.en_passant_square
    rw [hb9]
    rw [(xor_castle_key_hec keys b8).2.1, hb8,
      (make_castle_rights_he m b7).2, hb7,
      (xor_castle_key_hec keys b6).2.1, hb6,
      (xor_ep_key_hec keys b5).2.1]
  have hep3 : b3.en_passant_square = b.en_passant_square := by
    rw [hb3, (make_half_move_hec m b2).2.1, hb2,
      (make_ply_color_hec keys b1).2.1, hb1]
    exact hst.2.2.2.2.2.2.2.1
  have hcode6 : get_castle_rights_code b6 = get_castle_rights_code b := by
    rw [hb6, (xor_ep_key_hec keys b5).2.2, hb5, (make_new_ep_hc m b4).2, hb4,
      (xor_ep_key_hec keys b3).2.2, hb3, (make_half_move_hec m b2).2.2, hb2,
      (make_ply_color_hec keys b1).2.2, hb1]
    exact code_eq_of_flags hst.2.1 hst.2.2.1 hst.2.2.2.1 hst.2.2.2.2.1
  have hcodefin : get_castle_rights_code (make_move keys m b) =
      get_castle_rights_code b8 := by
    rw [hfin]
    have : get_castle_rights_code
        { b9 with history := b9.history ++ [b9.zobrist_hash] } =
        get_castle_rights_code b9 := code_eq_of_flags rfl rfl rfl rfl
    rw [this, hb9]
    exact (xor_castle_key_hec keys b8).2.2
  have hhash : (make_move keys m b).zobrist_hash = b9.zobrist_hash := by
    rw [hfin]
  rw [hhash, hepfin, hcodefin, hb9]
  rw [(xor_castle_key_hec keys b8).1, hb8, (make_castle_rights_he m b7).1,
    hb7, (xor_castle_key_hec keys b6).1, hb6, (xor_ep_key_hec keys b5).1,
    hb5, (make_new_ep_hc m b4).1, hb4, (xor_ep_key_hec keys b3).1, hb3,
    (make_half_move_hec m b2).1, hb2, (make_ply_color_hec keys b1).1]
  rw [← hb2, ← hb3, ← hb4, ← hb5, ← hb6]
  rw [hep3, hcode6]

/-- Phase-1 hash delta equals the piece-fold delta: non-special moves. -/
theorem phase1_hash_normal (keys : ZobristKeys) {b : Board} {m : Move}
    (hInv : Inv b) (hf : NormalFacts b m) :
    plFold keys (make_phase1 keys m b).piece_lists ^^^
      plFold keys b.piece_lists =
      (make_phase1 keys m b).zobrist_hash ^^^ b.zobrist_hash := by
  obtain ⟨hep, hcl, hs, hcapnone, hcapsome, hpromo⟩ := hf
  have hflag : (¬ (m.is_en_passant : Bool) ∧ ¬ (m.is_castle : Bool)) := by
    rw [hep, hcl]; exact ⟨Bool.false_ne_true, Bool.false_ne_true⟩
  have hred : make_phase1 keys m b = make_normal keys m b := by
    unfold make_phase1; rw [if_pos hflag]
  rw [hred]
  have hsmem : m.source_index ∈ b.piece_lists m.moving_piece :=
    (hInv.mem_pl_iff _ _).mpr hs
  cases hcap : m.piece_captured with
  | none =>
      cases hprm : m.promotion_piece with
      | none =>
          have hplE : (make_normal keys m b).piece_lists =
              plUpdate (plUpdate b.piece_lists m.moving_piece
                (fun l => l.erase m.source_index)) m.moving_piece
                (fun l => l ++ [m.destination_index]) := by
            simp [make_normal, hcap, hprm]
          have hhE : (make_normal keys m b).zobrist_hash =
              b.zobrist_hash ^^^
                keys.piece_keys (to64 m.source_index)
                  (PIECE_CODES m.moving_piece) ^^^
                keys.piece_keys (to64 m.destination_index)
                  (PIECE_CODES m.moving_piece) := by
            simp [make_normal, hcap, hprm]
          rw [hplE, hhE, plFold_update, plFold_update]
          simp [plUpdate, plHash_append,
            plHash_erase keys m.moving_piece hsmem,
            Nat.xor_assoc, Nat.xor_comm, xor_left_comm, xor_cancel_left]
      | some pr =>
          have hprmp : pr ≠ m.moving_piece :=
            (hpromo pr (by simp [hprm])).1
          have hplE : (make_normal keys m b).piece_lists =
              plUpdate (plUpdate b.piece_lists m.moving_piece
                (fun l => l.erase m.source_index)) pr
                (fun l => l ++ [m.destination_index]) := by
            simp [make_normal, hcap, hprm]
          have hhE : (make_normal keys m b).zobrist_hash =
              b.zobrist_hash ^^^
                keys.piece_keys (to64 m.source_index)
                  (PIECE_CODES m.moving_piece) ^^^
                keys.piece_keys (to64 m.destination_index)
                  (PIECE_CODES pr) := by
            simp [make_normal, hcap, hprm]
          rw [hplE, hhE, plFold_update, plFold_update]
          simp [plUpdate, hprmp, plHash_append,
            plHash_erase keys m.moving_piece hsmem,
            Nat.xor_assoc, Nat.xor_comm, xor_left_comm, xor_cancel_left]
  | some c =>
      have hcfact := hcapsome c (by simp [hcap])
      have hcmne : c ≠ m.moving_piece := hcfact.2
      have hdmem : m.destination_index ∈ b.piece_lists c :=
        (hInv.mem_pl_iff _ _).mpr hcfact.1
      cases hprm : m.promotion_piece with
      | none =>
          have hplE : (make_normal keys m b).piece_lists =
              plUpdate (plUpdate (plUpdate b.piece_lists m.moving_piece
                (fun l => l.erase m.source_index)) c
                (fun l => l.erase m.destination_index)) m.moving_piece
                (fun l => l ++ [m.destination_index]) := by
            simp [make_normal, hcap, hprm]
          have hhE : (make_normal keys m b).zobrist_hash =
              b.zobrist_hash ^^^
                keys.piece_keys (to64 m.source_index)
                  (PIECE_CODES m.moving_piece) ^^^
                keys.piece_keys (to64 m.destination_index)
                  (PIECE_CODES c) ^^^
                keys.piece_keys (to64 m.destination_index)
                  (PIECE_CODES m.moving_piece) := by
            simp [make_normal, hcap, hprm]
          rw [hplE, hhE, plFold_update, plFold_update, plFold_update]
          simp [plUpdate, hcmne, Ne.symm hcmne, plHash_append,
            plHash_erase keys m.moving_piece hsmem,
            plHash_erase keys c hdmem,
            Nat.xor_assoc, Nat.xor_comm, xor_left_comm, xor_cancel_left]
      | some pr =>
          have hprmp : pr ≠ m.moving_piece :=
            (hpromo pr (by simp [hprm])).1
          have hprc : pr ≠ c :=
            (hpromo pr (by simp [hprm])).2 c (by simp [hcap])
          have hplE : (make_normal keys m b).piece_lists =
              plUpdate (plUpdate (plUpdate b.piece_lists m.moving_piece
                (fun l => l.erase m.source_index)) c
                (fun l => l.erase m.destination_index)) pr
                (fun l => l ++ [m.destination_index]) := by
            simp [make_normal, hcap, hprm]
          have hhE : (make_normal keys m b).zobrist_hash =
              b.zobrist_hash ^^^
                keys.piece_keys (to64 m.source_index)
                  (PIECE_CODES m.moving_piece) ^^^
                keys.piece_keys (to64 m.destination_index)
                  (PIECE_CODES c) ^^^
                keys.piece_keys (to64 m.destination_index)
                  (PIECE_CODES pr) := by
            simp [make_normal, hcap, hprm]
          rw [hplE, hhE, plFold_update, plFold_update, plFold_update]
          simp [plUpdate, hcmne, Ne.symm hcmne, hprmp, hprc, plHash_append,
            plHash_erase keys m.moving_piece hsmem,
            plHash_erase keys c hdmem,
            Nat.xor_assoc, Nat.xor_comm, xor_left_comm, xor_cancel_left]

/-- Phase-1 hash delta equals the piece-fold delta: en passant captures. -/
theorem phase1_hash_ep (keys : ZobristKeys) {b : Board} {m : Move}
    (hInv : Inv b) (hf : EpFacts b m) :
    plFold keys (make_phase1 keys m b).piece_lists ^^^
      plFold keys b.piece_lists =
      (make_phase1 keys m b).zobrist_hash ^^^ b.zobrist_hash := by
  obtain ⟨hep, hcl, hprm, hs, hd, hside⟩ := hf
  have hflag : ¬ (¬ (m.is_en_passant : Bool) ∧ ¬ (m.is_castle : Bool)) := by
    rw [hep]; simp
  have hred : make_phase1 keys m b = make_ep keys m b := by
    unfold make_phase1; rw [if_neg hflag, if_pos (by rw [hep])]
  rw [hred]
  have hsmem : m.source_index ∈ b.piece_lists m.moving_piece :=
    (hInv.mem_pl_iff _ _).mpr hs
  rcases hside with ⟨hw, hmpc, hcap, hcp⟩ | ⟨hw, hmpc, hcap, hcp⟩
  · have hcmem : m.destination_index + 10 ∈ b.piece_lists Piece.p :=
      (hInv.mem_pl_iff _ _).mpr hcp
    rw [hmpc] at hsmem
    have hplE : (make_ep keys m b).piece_lists =
        plUpdate (plUpdate (plUpdate b.piece_lists Piece.P
          (fun l => l.erase m.source_index)) Piece.P
          (fun l => l ++ [m.destination_index])) Piece.p
          (fun l => l.erase (m.destination_index + 10)) := by
      simp [make_ep, hw, hcap, hmpc]
    have hhE : (make_ep keys m b).zobrist_hash =
        b.zobrist_hash ^^^
          keys.piece_keys (to64 m.source_index) (PIECE_CODES Piece.P) ^^^
          keys.piece_keys (to64 m.destination_index) (PIECE_CODES Piece.P) ^^^
          keys.piece_keys (to64 (m.destination_index + 10))
            (PIECE_CODES Piece.p) := by
      simp [make_ep, hw, hcap, hmpc]
    rw [hplE, hhE, plFold_update, plFold_update, plFold_update]
    simp [plUpdate, plHash_append, plHash_erase keys Piece.P hsmem,
      plHash_erase keys Piece.p hcmem,
      Nat.xor_assoc, Nat.xor_comm, xor_left_comm, xor_cancel_left]
  · have hcmem : m.destination_index - 10 ∈ b.piece_lists Piece.P :=
      (hInv.mem_pl_iff _ _).mpr hcp
    rw [hmpc] at hsmem
    have hwne : ¬ b.color_to_play = Color.white := by
      rw [hw]; exact fun hx => Color.noConfusion hx
    have hplE : (make_ep keys m b).piece_lists =
        plUpdate (plUpdate (plUpdate b.piece_lists Piece.p
          (fun l => l.erase m.source_index)) Piece.p
          (fun l => l ++ [m.destination_index])) Piece.P
          (fun l => l.erase (m.destination_index - 10)) := by
      simp [make_ep, hwne, hcap, hmpc]
    have hhE : (make_ep keys m b).zobrist_hash =
        b.zobrist_hash ^^^
          keys.piece_keys (to64 m.source_index) (PIECE_CODES Piece.p) ^^^
          keys.piece_keys (to64 m.destination_index) (PIECE_CODES Piece.p) ^^^
          keys.piece_keys (to64 (m.destination_index - 10))
            (PIECE_CODES Piece.P) := by
      simp [make_ep, hwne, hcap, hmpc]
    rw [hplE, hhE, plFold_update, plFold_update, plFold_update]
    simp [plUpdate, plHash_append, plHash_erase keys Piece.p hsmem,
      plHash_erase keys Piece.P hcmem,
      Nat.xor_assoc, Nat.xor_comm, xor_left_comm, xor_cancel_left]

/-- Phase-1 hash delta equals the piece-fold delta: one castling block. -/
theorem phase1_hash_castle_block (keys : ZobristKeys) (m : Move)
    (kp rp : Piece) (rf rt : Int) {b : Board} (hkr : kp ≠ rp)
    (hsmem : m.source_index ∈ b.piece_lists kp)
    (hrfmem : rf ∈ b.piece_lists rp) :
    plFold keys (make_castle_block keys m kp rp rf rt b).piece_lists ^^^
      plFold keys b.piece_lists =
      (make_castle_block keys m kp rp rf rt b).zobrist_hash ^^^
        b.zobrist_hash := by
  have hplE : (make_castle_block keys m kp rp rf rt b).piece_lists =
      plUpdate (plUpdate (plUpdate (plUpdate b.piece_lists kp
        (fun l => l ++ [m.destination_index])) kp
        (fun l => l.erase m.source_index)) rp
        (fun l => l.erase rf)) rp (fun l => l ++ [rt]) := rfl
  have hhE : (make_castle_block keys m kp rp rf rt b).zobrist_hash =
      b.zobrist_hash ^^^
        keys.piece_keys (to64 m.destination_index) (PIECE_CODES kp) ^^^
        keys.piece_keys (to64 m.source_index) (PIECE_CODES kp) ^^^
        keys.piece_keys (to64 rf) (PIECE_CODES rp) ^^^
        keys.piece_keys (to64 rt) (PIECE_CODES rp) := rfl
  have hsmem2 : m.source_index ∈
      b.piece_lists kp ++ [m.destination_index] :=
    List.mem_append_left _ hsmem
  rw [hplE, hhE, plFold_update, plFold_update, plFold_update, plFold_update]
  simp [plUpdate, hkr, Ne.symm hkr, plHash_append,
    plHash_erase keys kp hsmem2, plHash_erase keys rp hrfmem,
    Nat.xor_assoc, Nat.xor_comm, xor_left_comm, xor_cancel_left]

/-- Phase-1 hash delta equals the piece-fold delta: castling moves. -/
theorem phase1_hash_castle (keys : ZobristKeys) {b : Board} {m : Move}
    (hInv : Inv b) (hf : CastleFacts b m) :
    plFold keys (make_phase1 keys m b).piece_lists ^^^
      plFold keys b.piece_lists =
      (make_phase1 keys m b).zobrist_hash ^^^ b.zobrist_hash := by
  obtain ⟨hcl, hep, _, _, hside⟩ := hf
  have hflag : ¬ (¬ (m.is_en_passant : Bool) ∧ ¬ (m.is_castle : Bool)) := by
    rw [hcl]; simp
  have hred : make_phase1 keys m b = make_castle keys m b := by
    unfold make_phase1; rw [if_neg hflag, if_neg (by rw [hep]; simp)]
  rw [hred]
  rcases hside with ⟨hdd, hsrc, _, hks, _, _, hr⟩ |
    ⟨hdd, hsrc, _, hks, _, _, _, hr⟩ |
    ⟨hdd, hsrc, _, hks, _, _, hr⟩ |
    ⟨hdd, hsrc, _, hks, _, _, _, hr⟩
  · rw [show make_castle keys m b =
        make_castle_block keys m Piece.K Piece.R 98 96 b from by
      unfold make_castle; rw [if_pos hdd]]
    exact phase1_hash_castle_block keys m Piece.K Piece.R 98 96 (by decide)
      (by rw [hsrc]; exact (hInv.mem_pl_iff _ _).mpr hks)
      ((hInv.mem_pl_iff _ _).mpr hr)
  · rw [show make_castle keys m b =
        make_castle_block keys m Piece.K Piece.R 91 94 b from by
      unfold make_castle
      rw [if_neg (by rw [hdd]; decide), if_pos hdd]]
    exact phase1_hash_castle_block keys m Piece.K Piece.R 91 94 (by decide)
      (by rw [hsrc]; exact (hInv.mem_pl_iff _ _).mpr hks)
      ((hInv.mem_pl_iff _ _).mpr hr)
  · rw [show make_castle keys m b =
        make_castle_block keys m Piece.k Piece.r 28 26 b from by
      unfold make_castle
      rw [if_neg (by rw [hdd]; decide), if_neg (by rw [hdd]; decide),
        if_pos hdd]]
    exact phase1_hash_castle_block keys m Piece.k Piece.r 28 26 (by decide)
      (by rw [hsrc]; exact (hInv.mem_pl_iff _ _).mpr hks)
      ((hInv.mem_pl_iff _ _).mpr hr)
  · rw [show make_castle keys m b =
        make_castle_block keys m Piece.k Piece.r 21 24 b from by
      unfold make_castle
      rw [if_neg (by rw [hdd]; decide), if_neg (by rw [hdd]; decide),
        if_neg (by rw [hdd]; decide), if_pos hdd]]
    exact phase1_hash_castle_block keys m Piece.k Piece.r 21 24 (by decide)
      (by rw [hsrc]; exact (hInv.mem_pl_iff _ _).mpr hks)
      ((hInv.mem_pl_iff _ _).mpr hr)

/-- The piece fold only depends on the lists up to permutation. -/
theorem plFold_perm (keys : ZobristKeys) {pl1 pl2 : Piece → List Int}
    (h : ∀ x : Piece, (pl1 x : Multiset Int) = (pl2 x : Multiset Int)) :
    plFold keys pl1 = plFold keys pl2 := by
  unfold plFold
  apply List.foldl_ext
  intro a pt _
  exact plHash_perm keys pt (Multiset.coe_eq_coe.mp (h pt)) a

/-- `compute_hash` only reads the piece lists (up to order), the castling
flags and the ep square. -/
theorem compute_hash_congr (keys : ZobristKeys) {b1 b2 : Board}
    (hpl : ∀ x : Piece,
      (b1.piece_lists x : Multiset Int) = (b2.piece_lists x : Multiset Int))
    (h1 : b1.white_castle_kingside = b2.white_castle_kingside)
    (h2 : b1.white_castle_queenside = b2.white_castle_queenside)
    (h3 : b1.black_castle_kingside = b2.black_castle_kingside)
    (h4 : b1.black_castle_queenside = b2.black_castle_queenside)
    (hep : b1.en_passant_square = b2.en_passant_square) :
    compute_hash keys b1 = compute_hash keys b2 := by
  rw [compute_hash_decomp, compute_hash_decomp,
    code_eq_of_flags h1 h2 h3 h4, hep, plFold_perm keys hpl]

/-- The example board satisfies the invariant. -/
theorem Inv_C3board : Inv C3board := by
  apply Inv_of_checks
  · decide
  · decide
  · decide
  · intro h; exact Bool.noConfusion h
  · intro h; exact Bool.noConfusion h
  · intro h; exact Bool.noConfusion h
  · intro h; exact Bool.noConfusion h
  · intro e he; simp [C3board, board_from] at he

/-- C3 counterexample: with tables whose only nonzero key is the color key,
a hash-correct position and the generated move a2-a3 yield an incremental
hash that differs from the full recomputation on the resulting position. -/
theorem C3_counterexample :
    C3move ∈ generate_moves C3board ∧
    C3board.zobrist_hash = compute_hash keysC C3board ∧
    (make_move keysC C3move C3board).zobrist_hash ≠
      compute_hash keysC (make_move keysC C3move C3board) := by
  refine ⟨?_, ?_, ?_⟩
  · decide
  · decide
  · decide

/-- C3 (amended): from a hash-correct invariant position, after `make_move`
the incremental hash equals the full recomputation XOR the color key (the
color key is XORed unconditionally by `compute_hash`, so it cancels on the
side to move); after the subsequent `unmake_move` the incremental hash again
equals the full recomputation exactly. -/
theorem C3_hash (keys : ZobristKeys) (b : Board) (m : Move)
    (hInv : Inv b) (hhc : b.zobrist_hash = compute_hash keys b)
    (hm : m ∈ generate_moves b) :
    (make_move keys m b).zobrist_hash =
      compute_hash keys (make_move keys m b) ^^^ keys.color_key ∧
    (unmake_move m (make_move keys m b)).zobrist_hash =
      compute_hash keys (unmake_move m (make_move keys m b)) := by
  obtain ⟨hcap, hkind⟩ := generate_moves_facts hInv hm
  have hdelta : plFold keys (make_phase1 keys m b).piece_lists ^^^
      plFold keys b.piece_lists =
      (make_phase1 keys m b).zobrist_hash ^^^ b.zobrist_hash := by
    rcases hkind with hn | he | hc
    · exact phase1_hash_normal keys hInv hn
    · exact phase1_hash_ep keys hInv he
    · exact phase1_hash_castle keys hInv hc
  have hph : (make_phase1 keys m b).zobrist_hash =
      plFold keys (make_phase1 keys m b).piece_lists ^^^
      plFold keys b.piece_lists ^^^ b.zobrist_hash := by
    rw [hdelta]
    simp [Nat.xor_assoc, Nat.xor_comm, xor_left_comm, xor_cancel_left]
  constructor
  · rw [make_move_hash_shape keys m b, hph,
      compute_hash_decomp keys (make_move keys m b),
      show (make_move keys m b).piece_lists =
        (make_phase1 keys m b).piece_lists from (make_move_board_pl keys m b).2]
    conv_lhs => rw [hhc, compute_hash_decomp keys b]
    simp [Nat.xor_assoc, Nat.xor_comm, xor_left_comm, xor_cancel_left]
  · have hfields := unmake_move_fields m (make_move keys m b)
    have hrt : (unmake_move m (make_move keys m b)).board = b.board ∧
        ∀ x : Piece,
          ((unmake_move m (make_move keys m b)).piece_lists x : Multiset Int) =
            (b.piece_lists x : Multiset Int) := by
      rcases hkind with hn | he | hc
      · exact roundtrip_normal keys hInv hn
      · exact roundtrip_ep keys hInv he
      · exact roundtrip_castle keys hInv hc
    have hcongr : compute_hash keys (unmake_move m (make_move keys m b)) =
        compute_hash keys b :=
      compute_hash_congr keys hrt.2
        (hfields.2.1.trans hcap.1) (hfields.2.2.1.trans hcap.2.1)
        (hfields.2.2.2.1.trans hcap.2.2.1)
        (hfields.2.2.2.2.1.trans hcap.2.2.2.1)
        (hfields.2.2.2.2.2.2.1.trans hcap.2.2.2.2.1)
    rw [hfields.2.2.2.2.2.2.2.1, hcap.2.2.2.2.2.2.2, hhc, hcongr]

/-- Witness for C3: the amended hash relation at `C3board` and the generated
move a2-a3, under the color-key-only tables. -/
theorem C3_hash_witness :
    Inv C3board ∧ C3board.zobrist_hash = compute_hash keysC C3board ∧
    C3move ∈ generate_moves C3board ∧
    (make_move keysC C3move C3board).zobrist_hash =
      compute_hash keysC (make_move keysC C3move C3board) ^^^
        keysC.color_key ∧
    (unmake_move C3move (make_move keysC C3move C3board)).zobrist_hash =
      compute_hash keysC (unmake_move C3move (make_move keysC C3move C3board)) :=
  have h1 : Inv C3board := Inv_C3board
  have h2 : C3board.zobrist_hash = compute_hash keysC C3board := by decide
  have h3 : C3move ∈ generate_moves C3board := by decide
  ⟨h1, h2, h3, (C3_hash keysC C3board C3move h1 h2 h3).1,
    (C3_hash keysC C3board C3move h1 h2 h3).2⟩


/-! ### Claims C8, C9, C4 -/

/-- C8: a transposition-table store overwrites the slot iff it is empty, or
the stored entry's age is from an older search cycle, or the new depth is at
least the stored depth; otherwise the slot is kept unchanged. -/
theorem C8_tt_replacement (tt_entry : Option TTEntry) (search_cycle : Nat)
    (depth : Nat) (new_entry : TTEntry) :
    (should_write tt_entry search_cycle depth = true ↔
      tt_entry = none ∨
        ∃ e, tt_entry = some e ∧ (e.age < search_cycle ∨ e.depth ≤ depth)) ∧
    (should_write tt_entry search_cycle depth = true →
      tt_store tt_entry search_cycle depth new_entry = some new_entry) ∧
    (should_write tt_entry search_cycle depth = false →
      tt_store tt_entry search_cycle depth new_entry = tt_entry) := by
  refine ⟨?_, ?_, ?_⟩
  · cases he : tt_entry with
    | none => simp [should_write]
    | some e =>
        simp only [should_write]
        constructor
        · intro h
          refine Or.inr ⟨e, rfl, ?_⟩
          by_cases h1 : e.age < search_cycle
          · exact Or.inl h1
          · rw [if_neg h1] at h
            by_cases h2 : depth ≥ e.depth
            · exact Or.inr h2
            · rw [if_neg h2] at h
              exact Bool.noConfusion h
        · rintro (h | ⟨e2, he2, hc⟩)
          · exact Option.noConfusion h
          · obtain rfl := Option.some.inj he2
            rcases hc with h1 | h2
            · rw [if_pos h1]
            · by_cases h1 : e.age < search_cycle
              · rw [if_pos h1]
              · rw [if_neg h1, if_pos h2]
  · intro h
    unfold tt_store
    rw [if_pos h]
  · intro h
    unfold tt_store
    rw [if_neg (by rw [h]; exact Bool.noConfusion)]

/-- C9: the evaluator is a pure function of the board: in state-passing form
it returns the board unchanged, and its score reads only the mailbox and the
piece lists (boards agreeing there score identically). -/
theorem C9_eval_pure (b : Board) :
    (evaluate_position_st b).1 = b ∧
    ∀ b2 : Board, b2.board = b.board → b2.piece_lists = b.piece_lists →
      (evaluate_position_st b2).2 = (evaluate_position_st b).2 := by
  refine ⟨rfl, ?_⟩
  intro b2 hb hpl
  show evaluate_position b2 = evaluate_position b
  unfold evaluate_position eval_scan mobility_adjustment eval_scan
    w_king_index_of b_king_index_of
  rw [hb, hpl]

/-- C4: `Move` defines no `__eq__`, so `==` between two distinct `Move`
objects is identity comparison and is always false for the freshly
rebuilt moves the search compares (`pyMoveEq`); consequently a quiet move
that coincides field-by-field with the stored hash move still scores by
history (0 here), never the hash-move bonus 2000. -/
theorem C4_identity_semantics :
    (∀ m1 m2 : Move, pyMoveEq m1 m2 = false) ∧
    (∀ m : Move, m.piece_captured = none →
      score_move (fun _ => [none, none]) (fun _ _ => 0) m 0 (some m) = 0) := by
  constructor
  · intro m1 m2
    rfl
  · intro m hcap
    unfold score_move
    rw [if_neg (by simp [pyMoveEq])]
    rw [if_neg (by simp [hcap])]
    rw [if_neg (by simp [pyMoveEq])]
    simp


/-! ### Claim C6: the king-attack-pressure term is dead code -/

/-- The ring test compares a mailbox *cell value* against ring *indices*; for
any cell that is not the out-of-bounds marker it is always false. -/
theorem sqInIntList_false {s : Sq} (h : s ≠ Sq.oob) (ring : List Int) :
    sqInIntList s ring = false := by
  cases s with
  | oob => exact absurd rfl h
  | empty => simp [sqInIntList, pyEqSqInt]
  | pc x => simp [sqInIntList, pyEqSqInt]

/-- A slider ray contributes no king-attack bonus. -/
theorem slider_scan_atk (bd : List Sq) (ring : List Int) (bonus : Int)
    (index : Int) : ∀ ds : List Int, (slider_scan bd ring bonus index ds).2 = 0 := by
  intro ds
  induction ds with
  | nil => rfl
  | cons delta ds ih =>
      have he : slider_scan bd ring bonus index (delta :: ds) =
          (if squareAt bd (index + delta) = Sq.oob then (0, 0)
           else
             let atk := if sqInIntList (squareAt bd (index + delta)) ring then
               bonus else 0
             if squareAt bd (index + delta) = Sq.empty then
               (1 + (slider_scan bd ring bonus index ds).1,
                atk + (slider_scan bd ring bonus index ds).2)
             else (0, atk)) := rfl
      rw [he]
      by_cases h1 : squareAt bd (index + delta) = Sq.oob
      · rw [if_pos h1]
      · rw [if_neg h1]
        simp only [sqInIntList_false h1, Bool.false_eq_true, if_false]
        by_cases h2 : squareAt bd (index + delta) = Sq.empty
        · rw [if_pos h2]
          simp [ih]
        · rw [if_neg h2]

/-- A fold whose body preserves a projection preserves it overall. -/
theorem foldl_preserves {α β : Type} (f : α → β → α) (P : α → Int)
    (h : ∀ a x, P (f a x) = P a) : ∀ (l : List β) (a : α), P (l.foldl f a) = P a := by
  intro l
  induction l with
  | nil => intro a; rfl
  | cons x l ih =>
      intro a
      rw [List.foldl_cons, ih, h]

/-- No direction of a slider scan contributes king-attack bonus. -/
theorem slider_scan_all_atk (bd : List Sq) (ring : List Int) (bonus : Int)
    (index : Int) (deltas : List (List Int)) :
    (slider_scan_all bd ring bonus index deltas).2 = 0 := by
  unfold slider_scan_all
  exact foldl_preserves _ (fun pr : Int × Int => pr.2)
    (fun a x => by simp [slider_scan_atk]) deltas (0, 0)

/-- The knight scan contributes no king-attack bonus. -/
theorem knight_scan_atk (bd : List Sq) (ring : List Int) (bonus : Int)
    (index : Int) : ∀ ds : List Int, (knight_scan bd ring bonus index ds).2 = 0 := by
  intro ds
  induction ds with
  | nil => rfl
  | cons delta ds ih =>
      have he : knight_scan bd ring bonus index (delta :: ds) =
          (if squareAt bd (index + delta) = Sq.oob then
             knight_scan bd ring bonus index ds
           else
             ((if squareAt bd (index + delta) = Sq.empty then 1 else 0) +
                (knight_scan bd ring bonus index ds).1,
              (if sqInIntList (squareAt bd (index + delta)) ring then bonus
               else 0) + (knight_scan bd ring bonus index ds).2)) := rfl
      rw [he]
      by_cases h1 : squareAt bd (index + delta) = Sq.oob
      · rw [if_pos h1]
        exact ih
      · rw [if_neg h1]
        simp [sqInIntList_false h1, ih]

/-- The white scan body never changes either king-attack counter. -/
theorem eval_white_piece_atk (bd : List Sq) (ring : List Int) (st : EvalState)
    (p : Piece) (i : Int) :
    (eval_white_piece bd ring st p i).w_king_attack_score =
      st.w_king_attack_score ∧
    (eval_white_piece bd ring st p i).b_king_attack_score =
      st.b_king_attack_score := by
  unfold eval_white_piece
  split_ifs <;> simp [slider_scan_all_atk, knight_scan_atk]

/-- The black scan body never changes either king-attack counter. -/
theorem eval_black_piece_atk (bd : List Sq) (ring : List Int) (st : EvalState)
    (p : Piece) (i : Int) :
    (eval_black_piece bd ring st p i).w_king_attack_score =
      st.w_king_attack_score ∧
    (eval_black_piece bd ring st p i).b_king_attack_score =
      st.b_king_attack_score := by
  unfold eval_black_piece
  split_ifs <;> simp [slider_scan_all_atk, knight_scan_atk]

/-- C6: the ring membership test compares cell values (strings in the source)
against square indices (ints), so it never succeeds on a playable square;
both accumulated king-attack scores are identically zero on every board, and
the table lookup they feed always reads `KING_ATTACK_PENALTIES[0] = 0`. -/
theorem C6_king_attack_dead (b : Board) :
    (eval_scan b).w_king_attack_score = 0 ∧
    (eval_scan b).b_king_attack_score = 0 ∧
    pstAt KING_ATTACK_PENALTIES (min (eval_scan b).w_king_attack_score 9) = 0 ∧
    pstAt KING_ATTACK_PENALTIES (min (eval_scan b).b_king_attack_score 9) = 0 := by
  have hw : ∀ (l : List Int) (ring : List Int) (p : Piece) (st : EvalState),
      (l.foldl (fun st i => eval_white_piece b.board ring st p i)
        st).w_king_attack_score = st.w_king_attack_score :=
    fun l ring p st => foldl_preserves _ _
      (fun a x => (eval_white_piece_atk b.board ring a p x).1) l st
  have hwb : ∀ (l : List Int) (ring : List Int) (p : Piece) (st : EvalState),
      (l.foldl (fun st i => eval_white_piece b.board ring st p i)
        st).b_king_attack_score = st.b_king_attack_score :=
    fun l ring p st => foldl_preserves _ _
      (fun a x => (eval_white_piece_atk b.board ring a p x).2) l st
  have hb : ∀ (l : List Int) (ring : List Int) (p : Piece) (st : EvalState),
      (l.foldl (fun st i => eval_black_piece b.board ring st p i)
        st).w_king_attack_score = st.w_king_attack_score :=
    fun l ring p st => foldl_preserves _ _
      (fun a x => (eval_black_piece_atk b.board ring a p x).1) l st
  have hbb : ∀ (l : List Int) (ring : List Int) (p : Piece) (st : EvalState),
      (l.foldl (fun st i => eval_black_piece b.board ring st p i)
        st).b_king_attack_score = st.b_king_attack_score :=
    fun l ring p st => foldl_preserves _ _
      (fun a x => (eval_black_piece_atk b.board ring a p x).2) l st
  have hmain : (eval_scan b).w_king_attack_score = 0 ∧
      (eval_scan b).b_king_attack_score = 0 := by
    unfold eval_scan
    constructor
    · simp only [WHITE_PIECES, BLACK_PIECES, List.foldl_cons, List.foldl_nil,
        hw, hwb, hb, hbb]
      rfl
    · simp only [WHITE_PIECES, BLACK_PIECES, List.foldl_cons, List.foldl_nil,
        hw, hwb, hb, hbb]
      rfl
  refine ⟨hmain.1, hmain.2, ?_, ?_⟩
  · rw [hmain.1]
    rfl
  · rw [hmain.2]
    rfl


/-- C1: as shipped, `generate_moves` returns only the move list (the
`check_count` its callers also unpack is computed internally and exposed
here as `check_count_of`): on the starting position the list holds the 20
legal opening moves and the internal check count is 0, but no pair is
returned (the embedded `generate_moves` has type `Board → List Move`). -/
theorem C1_bare_list :
    (generate_moves (init_board keys0)).length = 20 ∧
    check_count_of (init_board keys0) = 0 := by
  constructor
  · decide
  · decide

/-- C7: in the mate-in-1 fixture the root search would score the mating move
through `minimax(..., ply=0)` (search_root passes ply=0 to the root's
children), and the mated child indeed ends the game (no legal replies, in
check), so the terminal score is `99999 - 0 = 99999`, not the claimed
`99999 - 1` (besides the crash of claim C1 that precedes any scoring). -/
theorem C7_mate_score :
    mateMove ∈ generate_moves MATEB ∧
    (generate_moves MATE_AFTER).length = 0 ∧
    check_count_of MATE_AFTER = 1 ∧
    MATE_AFTER.color_to_play = Color.black ∧
    minimax_terminal_score Color.black 0 = 99999 := by
  refine ⟨?_, ?_, ?_, ?_, ?_⟩
  · decide
  · decide
  · decide
  · decide
  · decide

/-- C10: quiescence stand-pat pruning fires even in check: whenever the side
to move has legal moves, is in check, and the depth cap is not reached, a
static eval beating the bound is returned at once, with no move made. -/
theorem C10_standpat_in_check (keys : ZobristKeys)
    (killer_table : Nat → List (Option Move))
    (history_table : Nat → Int → Int) (b : Board) (alpha beta : Score)
    (color : Color) (ply q_depth max_depth : Nat)
    (h1 : (generate_moves b).length ≠ 0)
    (h2 : check_count_of b ≠ 0)
    (h3 : q_depth < max_depth)
    (h4 : if color = Color.white then
        Score.ble beta (Score.fin (evaluate_position b)) = true
      else Score.ble (Score.fin (evaluate_position b)) alpha = true) :
    quiescence_search keys killer_table history_table b alpha beta color ply
      q_depth max_depth = Score.fin (evaluate_position b) := by
  rw [quiescence_search]
  rw [if_neg h1, if_neg h2, if_neg (fun hc => h2 hc.1),
    dif_neg (by omega : ¬ q_depth ≥ max_depth)]
  cases color with
  | white =>
      rw [if_pos rfl]
      rw [if_pos (by simpa using h4)]
  | black =>
      rw [if_neg (fun hx => Color.noConfusion hx)]
      rw [if_pos (by simpa using h4)]

/-- Witness for C10: in `CHECKB` white is in check with four legal moves; with
`beta = -inf ≤` the static eval, the quiescence call returns the static eval. -/
theorem C10_standpat_witness :
    (generate_moves CHECKB).length ≠ 0 ∧ check_count_of CHECKB ≠ 0 ∧
    (0 : Nat) < 8 ∧
    quiescence_search keys0 (fun _ => []) (fun _ _ => 0) CHECKB Score.ninf
      Score.ninf Color.white 0 0 8 = Score.fin (evaluate_position CHECKB) :=
  have h1 : (generate_moves CHECKB).length ≠ 0 := by decide
  have h2 : check_count_of CHECKB ≠ 0 := by decide
  have h3 : (0 : Nat) < 8 := by decide
  ⟨h1, h2, h3, C10_standpat_in_check keys0 (fun _ => []) (fun _ _ => 0) CHECKB
    Score.ninf Score.ninf Color.white 0 0 8 h1 h2 h3 (by rw [if_pos rfl]; rfl)⟩


/-- A slider ray's mobility count ignores the king ring and its bonus. -/
theorem slider_scan_mob (bd : List Sq) (ring : List Int) (bonus : Int)
    (index : Int) : ∀ ds : List Int,
      (slider_scan bd ring bonus index ds).1 =
        (slider_scan bd [] 0 index ds).1 := by
  intro ds
  induction ds with
  | nil => rfl
  | cons delta ds ih =>
      have he : ∀ (rg : List Int) (bn : Int),
          slider_scan bd rg bn index (delta :: ds) =
          (if squareAt bd (index + delta) = Sq.oob then (0, 0)
           else
             let atk := if sqInIntList (squareAt bd (index + delta)) rg then
               bn else 0
             if squareAt bd (index + delta) = Sq.empty then
               (1 + (slider_scan bd rg bn index ds).1,
                atk + (slider_scan bd rg bn index ds).2)
             else (0, atk)) := fun rg bn => rfl
      rw [he, he]
      by_cases h1 : squareAt bd (index + delta) = Sq.oob
      · rw [if_pos h1, if_pos h1]
      · rw [if_neg h1, if_neg h1]
        by_cases h2 : squareAt bd (index + delta) = Sq.empty
        · rw [if_pos h2, if_pos h2]
          simp [ih]
        · rw [if_neg h2, if_neg h2]

/-- First components of two accumulating pair folds agree when the summed
first components agree. -/
theorem foldl_fst_congr {β : Type} (f g : β → Int × Int)
    (hfg : ∀ x, (f x).1 = (g x).1) :
    ∀ (l : List β) (a b : Int × Int), a.1 = b.1 →
      (l.foldl (fun acc x => (acc.1 + (f x).1, acc.2 + (f x).2)) a).1 =
      (l.foldl (fun acc x => (acc.1 + (g x).1, acc.2 + (g x).2)) b).1 := by
  intro l
  induction l with
  | nil => intro a b h; exact h
  | cons x l ih =>
      intro a b h
      rw [List.foldl_cons, List.foldl_cons]
      exact ih _ _ (by simp [h, hfg x])

/-- All slider directions: the mobility count ignores ring and bonus. -/
theorem slider_scan_all_mob (bd : List Sq) (ring : List Int) (bonus : Int)
    (index : Int) (deltas : List (List Int)) :
    (slider_scan_all bd ring bonus index deltas).1 =
      (slider_scan_all bd [] 0 index deltas).1 := by
  unfold slider_scan_all
  exact foldl_fst_congr (slider_scan bd ring bonus index)
    (slider_scan bd [] 0 index)
    (fun d => slider_scan_mob bd ring bonus index d) deltas (0, 0) (0, 0) rfl

/-- The knight scan's mobility count ignores ring and bonus. -/
theorem knight_scan_mob (bd : List Sq) (ring : List Int) (bonus : Int)
    (index : Int) : ∀ ds : List Int,
      (knight_scan bd ring bonus index ds).1 =
        (knight_scan bd [] 0 index ds).1 := by
  intro ds
  induction ds with
  | nil => rfl
  | cons delta ds ih =>
      have he : ∀ (rg : List Int) (bn : Int),
          knight_scan bd rg bn index (delta :: ds) =
          (if squareAt bd (index + delta) = Sq.oob then
             knight_scan bd rg bn index ds
           else
             ((if squareAt bd (index + delta) = Sq.empty then 1 else 0) +
                (knight_scan bd rg bn index ds).1,
              (if sqInIntList (squareAt bd (index + delta)) rg then bn
               else 0) + (knight_scan bd rg bn index ds).2)) := fun rg bn => rfl
      rw [he, he]
      by_cases h1 : squareAt bd (index + delta) = Sq.oob
      · rw [if_pos h1, if_pos h1]
        exact ih
      · rw [if_neg h1, if_neg h1]
        simp [ih]

/-- A fold whose body adds a per-element amount to a projection. -/
theorem foldl_additive {α β : Type} (f : α → β → α) (P : α → Int)
    (g : β → Int) : ∀ (l : List β),
      (∀ (a : α), ∀ x ∈ l, P (f a x) = P a + g x) → ∀ (a : α),
      P (l.foldl f a) = P a + (l.map g).sum := by
  intro l
  induction l with
  | nil => intro _ a; simp
  | cons x l ih =>
      intro h a
      rw [List.foldl_cons, List.map_cons, List.sum_cons,
        ih (fun a y hy => h a y (List.mem_cons_of_mem x hy)) (f a x),
        h a x (List.mem_cons_self x l)]
      ring

/-- The white scan body adds exactly the source's per-piece mobility to the
white counter (for white pieces). -/
theorem eval_white_piece_mob (bd : List Sq) (ring : List Int) (st : EvalState)
    (i : Int) : ∀ p ∈ WHITE_PIECES,
    (eval_white_piece bd ring st p i).w_mobility =
      st.w_mobility + code_piece_mobility bd p i := by
  intro p hp
  fin_cases hp <;>
    simp [eval_white_piece, code_piece_mobility, Piece.lower,
      slider_scan_all_mob bd ring, knight_scan_mob bd ring]

/-- The black scan body adds exactly the source's per-piece mobility to the
black counter (for black pieces). -/
theorem eval_black_piece_mob (bd : List Sq) (ring : List Int) (st : EvalState)
    (i : Int) : ∀ p ∈ BLACK_PIECES,
    (eval_black_piece bd ring st p i).b_mobility =
      st.b_mobility + code_piece_mobility bd p i := by
  intro p hp
  fin_cases hp <;>
    simp [eval_black_piece, code_piece_mobility, Piece.lower,
      slider_scan_all_mob bd ring, knight_scan_mob bd ring]

/-- The black scan never touches the white mobility counter. -/
theorem eval_black_piece_wmob (bd : List Sq) (ring : List Int)
    (st : EvalState) (p : Piece) (i : Int) :
    (eval_black_piece bd ring st p i).w_mobility = st.w_mobility := by
  unfold eval_black_piece
  split_ifs <;> rfl

/-- The white scan never touches the black mobility counter. -/
theorem eval_white_piece_bmob (bd : List Sq) (ring : List Int)
    (st : EvalState) (p : Piece) (i : Int) :
    (eval_white_piece bd ring st p i).b_mobility = st.b_mobility := by
  unfold eval_white_piece
  split_ifs <;> rfl

/-- The scan's white mobility counter totals the source's per-piece counts. -/
theorem eval_scan_wmob (b : Board) :
    (eval_scan b).w_mobility = code_mobility b WHITE_PIECES := by
  unfold eval_scan
  rw [foldl_preserves _ (fun st : EvalState => st.w_mobility)
    (fun st piece => foldl_preserves _ _
      (fun a x => eval_black_piece_wmob b.board _ a piece x) _ st)
    BLACK_PIECES]
  rw [foldl_additive _ (fun st : EvalState => st.w_mobility)
    (fun piece =>
      ((b.piece_lists piece).map (code_piece_mobility b.board piece)).sum)
    WHITE_PIECES
    (fun st piece hp => foldl_additive _ _ _ (b.piece_lists piece)
      (fun a x _ => eval_white_piece_mob b.board _ a x piece hp) st)
    EvalState.zero]
  simp [code_mobility, EvalState.zero]

/-- The scan's black mobility counter totals the source's per-piece counts. -/
theorem eval_scan_bmob (b : Board) :
    (eval_scan b).b_mobility = code_mobility b BLACK_PIECES := by
  unfold eval_scan
  rw [foldl_additive _ (fun st : EvalState => st.b_mobility)
    (fun piece =>
      ((b.piece_lists piece).map (code_piece_mobility b.board piece)).sum)
    BLACK_PIECES
    (fun st piece hp => foldl_additive _ _ _ (b.piece_lists piece)
      (fun a x _ => eval_black_piece_mob b.board _ a x piece hp) st)]
  rw [foldl_preserves _ (fun st : EvalState => st.b_mobility)
    (fun st piece => foldl_preserves _ _
      (fun a x => eval_white_piece_bmob b.board _ a piece x) _ st)
    WHITE_PIECES EvalState.zero]
  simp [code_mobility, EvalState.zero]

/-- C5 counterexample: with only the two kings on the board, the claim's
mobility adjustment (which counts king mobility) is 4, but the evaluator's
adjustment is 0 — kings contribute no mobility in the source. -/
theorem C5_counterexample :
    mobility_adjustment KINGSB = 0 ∧ spec_mobility_adjustment KINGSB = 4 := by
  constructor
  · decide
  · decide

/-- C5 (amended): the evaluator's mobility adjustment is
`2 * (white - black)` over the mobility of sliders and knights only — empty
squares reachable by queen/rook/bishop rays (stopping at the first non-empty
or out-of-bounds square) and knight hops; kings contribute nothing. -/
theorem C5_mobility (b : Board) :
    mobility_adjustment b =
      2 * (code_mobility b WHITE_PIECES - code_mobility b BLACK_PIECES) := by
  unfold mobility_adjustment
  rw [eval_scan_wmob, eval_scan_bmob]

end Chess
